import Mathlib

/-!
# gomplate configuration engine: merge, validation and defaulting

A shallow embedding of `internal/config/configfile.go`.

* Go strings are `String`, `[]string` is `List String` (a nil slice and an
  empty slice both have length 0 and are the list `[]`).
* A Go map is `GoMap V = Option (List (String × V))`: `none` is the nil map,
  `some es` a map holding the entries `es`. Reading a nil map finds nothing,
  ranging over it runs no iteration, writing into it is a run-time fault.
* A Go `error` is `Option String`: `none` is `nil`, `some msg` an error with
  that message.
* A function that can hit a run-time fault returns `Except Fault _`.
-/

namespace Gomplate

/-! ## Go maps -/

/-- Run-time faults (Go panics) reachable in the embedded code. -/
inductive Fault where
  /-- The fault "assignment to entry in nil map". -/
  | nilMapWrite
  deriving DecidableEq, Repr

/-- Entries of a non-nil Go map with string keys. -/
abbrev Entries (V : Type) := List (String × V)

/-- A Go map with string keys: `none` is the nil map. -/
abbrev GoMap (V : Type) := Option (Entries V)

/-- Lookup `v, ok := m[k]` in the entries of a map. -/
def Entries.get {V : Type} : Entries V → String → Option V
  | [], _ => none
  | (k', v) :: es, k => if k' = k then some v else Entries.get es k

/-- The write `m[k] = v` on a non-nil map: replaces the entry or adds one. -/
def Entries.set {V : Type} : Entries V → String → V → Entries V
  | [], k, v => [(k, v)]
  | (k', v') :: es, k, v =>
    if k' = k then (k, v) :: es else (k', v') :: Entries.set es k v

/-- Lookup `v, ok := m[k]`; a nil map holds no key. -/
def GoMap.get {V : Type} (m : GoMap V) (k : String) : Option V :=
  match m with
  | none => none
  | some es => Entries.get es k

/-- The write `m[k] = v`; it faults on the nil map. -/
def GoMap.set {V : Type} (m : GoMap V) (k : String) (v : V) : Except Fault (GoMap V) :=
  match m with
  | none => .error .nilMapWrite
  | some es => .ok (some (Entries.set es k v))

/-- The entries visited by `for k, v := range m`; none for the nil map. -/
def GoMap.range {V : Type} (m : GoMap V) : Entries V :=
  match m with
  | none => []
  | some es => es

/-- The length `len(m)`; 0 for the nil map. -/
def GoMap.len {V : Type} (m : GoMap V) : Nat := (GoMap.range m).length

/-! ## Data model -/

/-- The fields of `url.URL` that the configuration code reads or writes. -/
structure URL where
  Scheme : String := ""
  Opaque : String := ""
  Host : String := ""
  Path : String := ""
  RawQuery : String := ""
  Fragment : String := ""
  deriving DecidableEq, Repr

/-- The type `http.Header`, a map from header name to its values. -/
abbrev Header := GoMap (List String)

/-- DataSource - datasource configuration. `URL` is a pointer: `none` is nil. -/
structure DataSource where
  URL : Option URL := none
  Header : Header := none
  deriving DecidableEq, Repr

/-- Templates - mapping type for templates. -/
abbrev Templates := GoMap DataSource

/-- An `io.Reader` / `io.Writer` held by the configuration. -/
inductive Stream where
  /-- The nil interface value. -/
  | unset
  /-- A stream supplied by the caller, named by a number. -/
  | handle (id : Nat)
  /-- The in-memory buffer allocated by `ApplyDefaults` for exec-pipe. -/
  | pipe
  deriving DecidableEq, Repr

/-- Config - configures the gomplate execution. `PluginTimeout` is a
`time.Duration`, a count of nanoseconds. The filesystem handle `fs` is only
consulted by the flag parser and is not part of this record. -/
structure Config where
  Input : String := ""
  InputDir : String := ""
  InputFiles : List String := []
  ExcludeGlob : List String := []
  OutputDir : String := ""
  OutputMap : String := ""
  OutputFiles : List String := []
  OutMode : String := ""
  LDelim : String := ""
  RDelim : String := ""
  Templates : Templates := none
  DataSources : GoMap DataSource := none
  Context : GoMap DataSource := none
  Plugins : GoMap String := none
  ExtraHeaders : GoMap Header := none
  PostExec : List String := []
  PostExecInput : Stream := .unset
  Stdout : Stream := .unset
  Stderr : Stream := .unset
  Stdin : Stream := .unset
  PluginTimeout : Int := 0
  ExecPipe : Bool := false
  SuppressEmpty : Bool := false
  Experimental : Bool := false
  deriving DecidableEq, Repr

/-! ## isZero -/

/-- The dynamic values handed to `isZero` through `interface{}`. -/
inductive Value where
  | str (s : String)
  | strs (l : List String)
  | bool (b : Bool)
  /-- A value of any other dynamic type. -/
  | other
  deriving DecidableEq, Repr

/-- The type switch of `isZero`. -/
def isZero : Value → Bool
  | .str v => v == ""
  | .strs v => v.length == 0
  | .bool v => !v
  | .other => false

/-! ## Merging -/

/-- mergeFrom - use this as default, and override with values from o. The
receiver is a copy, its header map is shared and written in place. -/
def DataSource.mergeFrom (d o : DataSource) : DataSource :=
  let d := if o.URL ≠ none then { d with URL := o.URL } else d
  match d.Header with
  | none => { d with Header := o.Header }
  | some h =>
    { d with Header := some ((GoMap.range o.Header).foldl (fun h kv => Entries.set h kv.1 kv.2) h) }

/-- One iteration of the loop shared by `mergeDataSources` and
`mergeTemplates`. -/
def mergeEntry (d : GoMap DataSource) (kv : String × DataSource) :
    Except Fault (GoMap DataSource) :=
  match GoMap.get d kv.1 with
  | some c => GoMap.set d kv.1 (DataSource.mergeFrom c kv.2)
  | none => GoMap.set d kv.1 kv.2

/-- mergeDataSources - use d as defaults, and override with values from o.
The map `d` is written in place and returned; the result is the state of `d`
after the call. -/
def mergeDataSources (d o : GoMap DataSource) : Except Fault (GoMap DataSource) :=
  (GoMap.range o).foldlM mergeEntry d

/-- mergeTemplates - use d as defaults, and override with values from o.
This is the returned map: `o` itself when `d` is nil, otherwise `d` (written
in place when both are non-nil). -/
def mergeTemplates (d o : Templates) : Except Fault Templates :=
  if d = none then .ok o
  else if o = none then .ok d
  else (GoMap.range o).foldlM mergeEntry d

/-- The input group of `MergeFrom` (the `switch`). -/
def mergeInputs (c o : Config) : Config :=
  if !isZero (.str o.Input) then
    { c with Input := o.Input, InputDir := "", InputFiles := [], OutputDir := "" }
  else if !isZero (.str o.InputDir) then
    { c with Input := "", InputDir := o.InputDir, InputFiles := [] }
  else if !isZero (.strs o.InputFiles) then
    if !(o.InputFiles.length == 1 && o.InputFiles.getD 0 "" == "-") then
      { c with Input := "", InputFiles := o.InputFiles, InputDir := "", OutputDir := "" }
    else c
  else c

/-- The statement `if !isZero(o.OutputMap) { ... }` of `MergeFrom`. -/
def mergeOutputMap (c o : Config) : Config :=
  if !isZero (.str o.OutputMap) then
    { c with OutputDir := "", OutputFiles := [], OutputMap := o.OutputMap }
  else c

/-- The statement `if !isZero(o.OutputDir) { ... }` of `MergeFrom`. -/
def mergeOutputDir (c o : Config) : Config :=
  if !isZero (.str o.OutputDir) then
    { c with OutputDir := o.OutputDir, OutputFiles := [], OutputMap := "" }
  else c

/-- The statement `if !isZero(o.OutputFiles) { ... }` of `MergeFrom`. -/
def mergeOutputFiles (c o : Config) : Config :=
  if !isZero (.strs o.OutputFiles) then
    { c with OutputDir := "", OutputFiles := o.OutputFiles, OutputMap := "" }
  else c

/-- The statement `if !isZero(o.ExecPipe) { ... }` of `MergeFrom`. -/
def mergeExecPipe (c o : Config) : Config :=
  if !isZero (.bool o.ExecPipe) then
    { c with ExecPipe := o.ExecPipe, PostExec := o.PostExec, OutputFiles := o.OutputFiles }
  else c

/-- The statement `if !isZero(o.ExcludeGlob) { ... }` of `MergeFrom`. -/
def mergeExcludeGlob (c o : Config) : Config :=
  if !isZero (.strs o.ExcludeGlob) then { c with ExcludeGlob := o.ExcludeGlob } else c

/-- The statement `if !isZero(o.OutMode) { ... }` of `MergeFrom`. -/
def mergeOutMode (c o : Config) : Config :=
  if !isZero (.str o.OutMode) then { c with OutMode := o.OutMode } else c

/-- The statement `if !isZero(o.LDelim) { ... }` of `MergeFrom`. -/
def mergeLDelim (c o : Config) : Config :=
  if !isZero (.str o.LDelim) then { c with LDelim := o.LDelim } else c

/-- The statement `if !isZero(o.RDelim) { ... }` of `MergeFrom`. -/
def mergeRDelim (c o : Config) : Config :=
  if !isZero (.str o.RDelim) then { c with RDelim := o.RDelim } else c

/-- The part of `MergeFrom` before the map merges: the input `switch`
followed by the eight `if` statements, in source order. -/
def mergeFields (c o : Config) : Config :=
  let c := mergeInputs c o
  let c := mergeOutputMap c o
  let c := mergeOutputDir c o
  let c := mergeOutputFiles c o
  let c := mergeExecPipe c o
  let c := mergeExcludeGlob c o
  let c := mergeOutMode c o
  let c := mergeLDelim c o
  let c := mergeRDelim c o
  c

/-- The plugin loop of `MergeFrom`: `c.Plugins[k] = v` for each override
entry. -/
def mergePlugins (p o : GoMap String) : Except Fault (GoMap String) :=
  if GoMap.len o > 0 then
    (GoMap.range o).foldlM (fun p kv => GoMap.set p kv.1 kv.2) p
  else .ok p

/-- MergeFrom - use this Config as the defaults, and override it with any
non-zero values from the other Config. The three merge calls discard their
results, so a map field of the receiver changes only through the in-place
writes: `mergeDataSources` returns the very map it wrote, while the map
returned by `mergeTemplates` for a nil `c.Templates` is the override's and
never reaches the receiver, whose field stays nil. -/
def Config.MergeFrom (c o : Config) : Except Fault Config := do
  let c := mergeFields c o
  let ds ← mergeDataSources c.DataSources o.DataSources
  let cx ← mergeDataSources c.Context o.Context
  let t ← mergeTemplates c.Templates o.Templates
  let p ← mergePlugins c.Plugins o.Plugins
  return { c with
    DataSources := ds, Context := cx,
    Templates := if c.Templates = none then none else t,
    Plugins := p }

/-! ## Validation -/

/-- The loop of `notTogether`: `i` is the index of the value at the head of
the list, `found` the name of the non-zero value seen so far. Every call
passes as many names as values, so `names[i]` is always in range. -/
def notTogetherLoop (names : List String) : List Value → Nat → String → Option String
  | [], _, _ => none
  | value :: rest, i, found =>
    if isZero value then notTogetherLoop names rest (i + 1) found
    else if found ≠ "" then
      some ("only one of these options is supported at a time: '" ++ found ++ "', '"
        ++ names.getD i "" ++ "'")
    else notTogetherLoop names rest (i + 1) (names.getD i "")

/-- The check `notTogether(names, values...)`: an error when two of the
values are non-zero. -/
def notTogether (names : List String) (values : List Value) : Option String :=
  notTogetherLoop names values 0 ""

/-- The check `mustTogether(left, right, lValue, rValue)`. -/
def mustTogether (left right : String) (lValue rValue : Value) : Option String :=
  if !isZero lValue && isZero rValue then
    some ("these options must be set together: '" ++ left ++ "', '" ++ right ++ "'")
  else none

/-- The input/output count check of `Validate`; `%d` prints in decimal. -/
def checkCounts (c : Config) : Option String :=
  let f := c.InputFiles.length
  let f := if f == 0 && c.Input != "" then 1 else f
  let o := c.OutputFiles.length
  if f != o && !c.ExecPipe then
    some ("must provide same number of 'outputFiles' (" ++ toString o
      ++ ") as 'in' or 'inputFiles' (" ++ toString f ++ ") options")
  else none

/-- The post-exec check of `Validate`. -/
def checkPostExec (c : Config) : Option String :=
  if c.ExecPipe && c.PostExec.length == 0 then
    some "execPipe may only be used with a postExec command"
  else none

/-- The last check of `Validate`: with exec-pipe, `OutputFiles[0]` must be
`"-"` when there is one. -/
def checkPipeOutput (c : Config) : Option String :=
  if c.ExecPipe && (decide (c.OutputFiles.length > 0) && c.OutputFiles.getD 0 "" != "-") then
    some "must not set 'outputFiles' when using 'execPipe'"
  else none

/-- The step `if err == nil { err = check }`. -/
def orElseCheck (err check : Option String) : Option String :=
  if err = none then check else err

/-- Validate the Config. -/
def Config.Validate (c : Config) : Option String :=
  let err := notTogether ["in", "inputFiles", "inputDir"]
    [.str c.Input, .strs c.InputFiles, .str c.InputDir]
  let err := orElseCheck err (notTogether ["outputFiles", "outputDir", "outputMap"]
    [.strs c.OutputFiles, .str c.OutputDir, .str c.OutputMap])
  let err := orElseCheck err (notTogether ["outputDir", "outputMap", "execPipe"]
    [.str c.OutputDir, .str c.OutputMap, .bool c.ExecPipe])
  let err := orElseCheck err (mustTogether "outputDir" "inputDir"
    (.str c.OutputDir) (.str c.InputDir))
  let err := orElseCheck err (mustTogether "outputMap" "inputDir"
    (.str c.OutputMap) (.str c.InputDir))
  let err := orElseCheck err (checkCounts c)
  let err := orElseCheck err (checkPostExec c)
  let err := orElseCheck err (checkPipeOutput c)
  err

/-! ## Defaults -/

/-- The constant `time.Second`, in nanoseconds. -/
def Second : Int := 1000000000

/-- First statement of `ApplyDefaults`: the output directory. -/
def defaultOutputDir (c : Config) : Config :=
  if c.InputDir != "" && c.OutputDir == "" && c.OutputMap == "" then
    { c with OutputDir := "." }
  else c

/-- Second statement of `ApplyDefaults`: the input files. -/
def defaultInputFiles (c : Config) : Config :=
  if c.Input == "" && c.InputDir == "" && c.InputFiles.length == 0 then
    { c with InputFiles := ["-"] }
  else c

/-- Third statement of `ApplyDefaults`: the output files. -/
def defaultOutputFiles (c : Config) : Config :=
  if c.OutputDir == "" && c.OutputMap == "" && c.OutputFiles.length == 0 && !c.ExecPipe then
    { c with OutputFiles := ["-"] }
  else c

/-- Fourth statement of `ApplyDefaults`: the left delimiter. -/
def defaultLDelim (c : Config) : Config :=
  if c.LDelim == "" then { c with LDelim := "\x7b\x7b" } else c

/-- Fifth statement of `ApplyDefaults`: the right delimiter. -/
def defaultRDelim (c : Config) : Config :=
  if c.RDelim == "" then { c with RDelim := "\x7d\x7d" } else c

/-- Sixth statement of `ApplyDefaults`: the exec-pipe wiring. -/
def defaultExecPipe (c : Config) : Config :=
  if c.ExecPipe then
    { c with PostExecInput := .pipe, OutputFiles := ["-"], Stdout := .pipe }
  else
    { c with PostExecInput := c.Stdin }

/-- Last statement of `ApplyDefaults`: the plugin timeout. -/
def defaultPluginTimeout (c : Config) : Config :=
  if c.PluginTimeout == 0 then { c with PluginTimeout := 5 * Second } else c

/-- ApplyDefaults - fills the unset fields, statement by statement. -/
def Config.ApplyDefaults (c : Config) : Config :=
  let c := defaultOutputDir c
  let c := defaultInputFiles c
  let c := defaultOutputFiles c
  let c := defaultLDelim c
  let c := defaultRDelim c
  let c := defaultExecPipe c
  let c := defaultPluginTimeout c
  c

/-! ## The rules of the validator, as the specification words them -/

/-- Number of options that are set among the given flags. -/
def countSet (flags : List Bool) : Nat := flags.count true

/-- Rule 1 in the specification's words: more than one of Input, InputFiles,
InputDir is set. -/
def Violates1 (c : Config) : Prop :=
  1 < countSet [decide (c.Input ≠ ""), decide (c.InputFiles ≠ []), decide (c.InputDir ≠ "")]

/-- Rule 2 in the specification's words: more than one of OutputFiles,
OutputDir, OutputMap is set. -/
def Violates2 (c : Config) : Prop :=
  1 < countSet [decide (c.OutputFiles ≠ []), decide (c.OutputDir ≠ ""),
    decide (c.OutputMap ≠ "")]

/-- Rule 3 in the specification's words: more than one of OutputDir,
OutputMap, ExecPipe is set. -/
def Violates3 (c : Config) : Prop :=
  1 < countSet [decide (c.OutputDir ≠ ""), decide (c.OutputMap ≠ ""), c.ExecPipe]

/-- Rule 4 in the specification's words: OutputDir set with InputDir unset. -/
def Violates4 (c : Config) : Prop := c.OutputDir ≠ "" ∧ c.InputDir = ""

/-- Rule 5 in the specification's words: OutputMap set with InputDir unset. -/
def Violates5 (c : Config) : Prop := c.OutputMap ≠ "" ∧ c.InputDir = ""

/-- The input count in the specification's words: 1 if Input is non-empty,
else the number of InputFiles. -/
def specInputCount (c : Config) : Nat :=
  if c.Input ≠ "" then 1 else c.InputFiles.length

/-- Rule 6 in the specification's words: ExecPipe false and the input count
differs from the number of OutputFiles. -/
def Violates6 (c : Config) : Prop :=
  c.ExecPipe = false ∧ specInputCount c ≠ c.OutputFiles.length

/-- Rule 7 in the specification's words: ExecPipe true with an empty
PostExec. -/
def Violates7 (c : Config) : Prop := c.ExecPipe = true ∧ c.PostExec = []

/-- Rule 8 in the specification's words: ExecPipe true with OutputFiles
neither empty nor exactly the one-element list holding "-". -/
def Violates8 (c : Config) : Prop :=
  c.ExecPipe = true ∧ c.OutputFiles ≠ [] ∧ c.OutputFiles ≠ ["-"]

instance (c : Config) : Decidable (Violates1 c) := by unfold Violates1; infer_instance
instance (c : Config) : Decidable (Violates2 c) := by unfold Violates2; infer_instance
instance (c : Config) : Decidable (Violates3 c) := by unfold Violates3; infer_instance
instance (c : Config) : Decidable (Violates4 c) := by unfold Violates4; infer_instance
instance (c : Config) : Decidable (Violates5 c) := by unfold Violates5; infer_instance
instance (c : Config) : Decidable (Violates6 c) := by unfold Violates6; infer_instance
instance (c : Config) : Decidable (Violates7 c) := by unfold Violates7; infer_instance
instance (c : Config) : Decidable (Violates8 c) := by unfold Violates8; infer_instance

/-- The message of a violated exclusivity rule (rules 1 to 3), naming two
options. -/
def onlyOneOf (a b : String) : String :=
  "only one of these options is supported at a time: '" ++ a ++ "', '" ++ b ++ "'"

/-- The message of a violated exclusivity rule over the options `n1 n2 n3`
with set-flags `s1 s2 s3`: it names the first two options that are set. -/
def exclusiveError (n1 n2 n3 : String) (s1 s2 _s3 : Bool) : String :=
  if s1 then (if s2 then onlyOneOf n1 n2 else onlyOneOf n1 n3) else onlyOneOf n2 n3

/-- The message of a violated dependency rule (rules 4 and 5). -/
def setTogether (l r : String) : String :=
  "these options must be set together: '" ++ l ++ "', '" ++ r ++ "'"

/-- The message of rule 6 for `o` output files and `f` inputs. -/
def countMismatch (o f : Nat) : String :=
  "must provide same number of 'outputFiles' (" ++ toString o
    ++ ") as 'in' or 'inputFiles' (" ++ toString f ++ ") options"

/-- The error belonging to the lowest-numbered violated rule among rules 1
to 7, and `none` when none of them is violated. -/
def firstViolationError (c : Config) : Option String :=
  if Violates1 c then
    some (exclusiveError "in" "inputFiles" "inputDir"
      (decide (c.Input ≠ "")) (decide (c.InputFiles ≠ [])) (decide (c.InputDir ≠ "")))
  else if Violates2 c then
    some (exclusiveError "outputFiles" "outputDir" "outputMap"
      (decide (c.OutputFiles ≠ [])) (decide (c.OutputDir ≠ "")) (decide (c.OutputMap ≠ "")))
  else if Violates3 c then
    some (exclusiveError "outputDir" "outputMap" "execPipe"
      (decide (c.OutputDir ≠ "")) (decide (c.OutputMap ≠ "")) c.ExecPipe)
  else if Violates4 c then some (setTogether "outputDir" "inputDir")
  else if Violates5 c then some (setTogether "outputMap" "inputDir")
  else if Violates6 c then some (countMismatch c.OutputFiles.length (specInputCount c))
  else if Violates7 c then some "execPipe may only be used with a postExec command"
  else none

/-! ## Unset overrides -/

/-- Every field of the configuration is zero: empty strings, empty lists,
false booleans, absent or empty maps, nil streams, zero timeout. -/
def Config.Unset (o : Config) : Prop :=
  o.Input = "" ∧ o.InputDir = "" ∧ o.InputFiles = [] ∧ o.ExcludeGlob = [] ∧
  o.OutputDir = "" ∧ o.OutputMap = "" ∧ o.OutputFiles = [] ∧ o.OutMode = "" ∧
  o.LDelim = "" ∧ o.RDelim = "" ∧
  GoMap.len o.Templates = 0 ∧ GoMap.len o.DataSources = 0 ∧ GoMap.len o.Context = 0 ∧
  GoMap.len o.Plugins = 0 ∧ GoMap.len o.ExtraHeaders = 0 ∧
  o.PostExec = [] ∧ o.PostExecInput = .unset ∧ o.Stdout = .unset ∧ o.Stderr = .unset ∧
  o.Stdin = .unset ∧ o.PluginTimeout = 0 ∧
  o.ExecPipe = false ∧ o.SuppressEmpty = false ∧ o.Experimental = false

/-- No map write of `MergeFrom` hits a nil map: each of DataSources, Context
and Plugins is present in the base or has nothing to receive. -/
def Config.Mergeable (c o : Config) : Prop :=
  (c.DataSources ≠ none ∨ GoMap.len o.DataSources = 0) ∧
  (c.Context ≠ none ∨ GoMap.len o.Context = 0) ∧
  (c.Plugins ≠ none ∨ GoMap.len o.Plugins = 0)

instance (o : Config) : Decidable (Config.Unset o) := by unfold Config.Unset; infer_instance

/-! ## Sample configurations -/

/-- A base configuration that sets inputs, outputs, exec-pipe, a data source
and a plugin. -/
def sampleBase : Config :=
  { InputFiles := ["a", "b"], OutputFiles := ["x", "y"], ExecPipe := true, PostExec := ["cmd"],
    DataSources := some [("d", {})], Plugins := some [("p", "q")] }

/-- A configuration with no Input, one input file and an input directory. -/
def sampleBothInputs : Config := { InputFiles := ["a.txt"], InputDir := "in/" }

/-- An exec-pipe configuration with a post-exec command and two output
files, the first of them "-". -/
def samplePipeTwoOutputs : Config :=
  { ExecPipe := true, PostExec := ["cmd"], OutputFiles := ["-", "out.txt"] }

/-- A configuration with two input files and two output files. -/
def sampleValid : Config := { InputFiles := ["a", "b"], OutputFiles := ["x", "y"] }

/-! ## Well-formed map entries -/

/-- The keys of the entries of a map. -/
def Entries.keys {V : Type} (es : Entries V) : List String := es.map Prod.fst

/-- A Go map holds each key once: the keys of its entries are distinct. -/
def Entries.Unique {V : Type} (es : Entries V) : Prop := (Entries.keys es).Nodup

instance {V : Type} (es : Entries V) : Decidable (Entries.Unique es) := by
  unfold Entries.Unique; infer_instance

/-- A data source with a URL and one header, used as a base. -/
def sampleSourceBase : DataSource :=
  { URL := some { Scheme := "http", Host := "base", Path := "/" },
    Header := some [("Accept", ["text/plain"]), ("X-Old", ["1"])] }

/-- A data source without URL that overrides one header and adds one. -/
def sampleSourceOverride : DataSource :=
  { URL := none, Header := some [("Accept", ["application/json"]), ("X-New", ["2"])] }

/-! ## Strings, paths and errors of the flag parser -/

/-- Split of a character list at the first occurrence of `sep`: the text
before it and the text after it, `none` when `sep` does not occur. -/
def cutChars (sep : Char) : List Char → Option (List Char × List Char)
  | [] => none
  | c :: cs =>
    if c = sep then some ([], cs)
    else
      match cutChars sep cs with
      | some (a, b) => some (c :: a, b)
      | none => none

/-- The call `strings.SplitN(s, sep, 2)` for a separator of one character:
the whole string when `sep` does not occur, else the text before and the text
after its first occurrence. -/
def SplitN2 (s : String) (sep : Char) : List String :=
  match cutChars sep s.data with
  | none => [s]
  | some (a, b) => [String.mk a, String.mk b]

/-- The call `strings.HasPrefix(s, p)`. -/
def HasPrefix (s p : String) : Bool := p.data.isPrefixOf s.data

/-- The call `strings.HasSuffix(s, p)`. -/
def HasSuffix (s p : String) : Bool := p.data.reverse.isPrefixOf s.data.reverse

/-- The call `path.Base(p)`: the last element of the path after removal of
trailing slashes; "." for the empty path and "/" for a path of slashes. -/
def Base (p : String) : String :=
  if p = "" then "."
  else
    let stripped := (p.data.reverse.dropWhile (fun c => c = '/')).reverse
    let last := (stripped.reverse.takeWhile (fun c => c ≠ '/')).reverse
    if last = [] then "/" else String.mk last

/-- The test `s[i] == c` on the bytes of a string given by its characters,
for an ASCII character `c` and an index inside the string: a byte inside a
multi-byte character is never an ASCII character. -/
def byteIs : List Char → Nat → Char → Bool
  | [], _, _ => false
  | x :: xs, i, c =>
    if i = 0 then x == c
    else if i < x.utf8Size then false
    else byteIs xs (i - x.utf8Size) c

/-- The slice `s[1:]` of a string whose first byte is a whole character;
`none` when the cut would fall inside a multi-byte character or the string is
empty. -/
def dropFirstByte (s : String) : Option String :=
  match s.data with
  | [] => none
  | c :: cs => if c.utf8Size = 1 then some (String.mk cs) else none

/-- Errors of the flag parser. An error built by `fmt.Errorf` is kept as its
format string with the string arguments, and the wrapped error for `%w`. -/
inductive Err where
  /-- The error `fmt.Errorf(format, args...)` without a wrapped error. -/
  | errorf (format : String) (args : List String)
  /-- The error `fmt.Errorf(format, args..., cause)` wrapping `cause`. -/
  | wrapf (format : String) (args : List String) (cause : Err)
  /-- An error returned by a library or filesystem call. -/
  | lib (msg : String)
  /-- A run-time fault of a map write, not a returned error. -/
  | fault (f : Fault)
  /-- The run-time fault "index out of range", not a returned error. -/
  | indexRange
  /-- The Go code goes on with a string that is not valid UTF-8, which this
  embedding does not represent. -/
  | notUTF8
  deriving DecidableEq, Repr

/-- The library functions the parser calls, as parameters: `path/filepath`
(`ToSlash`, `VolumeName`, `Clean`), `path.Join` on two elements, `net/url`
(`Parse`, `ResolveReference`, and `URLString` for `URL.String`), `os.Getwd`,
`http.CanonicalHeaderKey` and `strings.TrimSpace`. -/
structure Lib where
  ToSlash : String → String
  VolumeName : String → String
  Clean : String → String
  Join : String → String → String
  Parse : String → Except Err URL
  ResolveReference : URL → URL → URL
  URLString : URL → String
  Getwd : Except Err String
  CanonicalHeaderKey : String → String
  TrimSpace : String → String

/-- What `os.FileInfo` tells the parser about a directory entry. -/
structure FileInfo where
  Name : String
  IsDir : Bool
  deriving DecidableEq, Repr

/-- An opened file: all the parser does with it is `Stat`. -/
structure File where
  Stat : Except Err FileInfo

/-- The filesystem capability `afero.Fs` as the parser uses it: `Open`, and
`afero.ReadDir` listing the entries of a directory. -/
structure Fs where
  Open : String → Except Err File
  ReadDir : String → Except Err (List FileInfo)

/-! ## Source locator -/

/-- The method `URL.IsAbs`: the URL has a scheme. -/
def URL.IsAbs (u : URL) : Bool := u.Scheme != ""

/-- The drive-letter fix of `ParseSourceURL`: with a volume name, a path of
at least three bytes that starts with a slash and has a colon at index 2
loses its first byte. -/
def stripDriveSlash (volName : String) (srcURL : URL) : URL :=
  if volName ≠ "" ∧ srcURL.Path.utf8ByteSize ≥ 3 then
    if byteIs srcURL.Path.data 0 '/' && byteIs srcURL.Path.data 2 ':' then
      { srcURL with Path := String.mk srcURL.Path.data.tail }
    else srcURL
  else srcURL

/-- The function `absFileURL`: the value resolved against the working
directory as a `file` URL. -/
def absFileURL (lib : Lib) (value : String) : Except Err URL :=
  match lib.Getwd with
  | .error err => .error (.wrapf "can't get working directory: %w" [] err)
  | .ok wd =>
    let wd := lib.ToSlash wd
    let baseURL : URL := { Scheme := "file", Path := lib.ToSlash (lib.Clean wd) ++ "/" }
    match lib.Parse value with
    | .error err => .error (.wrapf "can't parse value %s as URL: %w" [value] err)
    | .ok relURL =>
      let resolved := lib.ResolveReference baseURL relURL
      if !HasPrefix wd "/" then
        if resolved.Path.utf8ByteSize ≤ 2 then .error .indexRange
        else if byteIs resolved.Path.data 2 ':' then
          match dropFirstByte resolved.Path with
          | some p => .ok { resolved with Path := p }
          | none => .error .notUTF8
        else .ok resolved
      else .ok resolved

/-- The second half of `ParseSourceURL`, from `url.Parse` on: the value is
parsed, the drive-letter fix is applied, and a URL without scheme is resolved
against the working directory. -/
def parseResolved (lib : Lib) (volName value : String) : Except Err URL :=
  match lib.Parse value with
  | .error err => .error err
  | .ok srcURL =>
    let srcURL := stripDriveSlash volName srcURL
    if !srcURL.IsAbs then absFileURL lib value else .ok srcURL

/-- ParseSourceURL parses a datasource URL value, which may be '-' (for
stdin://), a Windows path, a relative path or an absolute URL. -/
def ParseSourceURL (lib : Lib) (value : String) : Except Err URL :=
  let value := if value = "-" then "stdin://" else value
  let value := lib.ToSlash value
  let volName := lib.VolumeName value
  let value :=
    if volName ≠ "" then
      if volName.utf8ByteSize > 2 then "file:" ++ value else "file:///" ++ value
    else value
  parseResolved lib volName value

/-! ## Flag parsing -/

/-- The function `parseDatasourceArg`; the result is the triple
`(key, ds, err)`. -/
def parseDatasourceArg (lib : Lib) (value : String) : String × DataSource × Option Err :=
  let parts := SplitN2 value '='
  if parts.length = 1 then
    let f := parts.getD 0 ""
    let key := (SplitN2 value '.').getD 0 ""
    if Base f ≠ f then
      (key, {}, some (.errorf
        "invalid datasource (%s): must provide an alias with files not in working directory"
        [value]))
    else
      match ParseSourceURL lib f with
      | .ok u => (key, { URL := some u }, none)
      | .error err => (key, {}, some err)
  else if parts.length = 2 then
    let key := parts.getD 0 ""
    match ParseSourceURL lib (parts.getD 1 "") with
    | .ok u => (key, { URL := some u }, none)
    | .error err => (key, {}, some err)
  else ("", {}, none)

/-- The function `splitHeader`; on success the canonical name and the raw
value. -/
def splitHeader (lib : Lib) (header : String) : Except Err (String × String) :=
  let parts := SplitN2 header ':'
  if parts.length ≠ 2 then .error (.errorf "invalid HTTP Header format '%s'" [header])
  else .ok (lib.CanonicalHeaderKey (parts.getD 0 ""), parts.getD 1 "")

/-- The function `splitHeaderArg`; on success the alias, the canonical name
and the raw value. -/
def splitHeaderArg (lib : Lib) (arg : String) : Except Err (String × String × String) :=
  let parts := SplitN2 arg '='
  if parts.length ≠ 2 then .error (.errorf "invalid datasource-header option '%s'" [arg])
  else
    match splitHeader lib (parts.getD 1 "") with
    | .error err => .error err
    | .ok (name, value) => .ok (parts.getD 0 "", name, value)

/-- The body of the loop of `parseHeaderArgs` after a successful split: the
header map of the alias is made when missing, then the trimmed value is
appended under the name. -/
def addHeader (lib : Lib) (headers : Entries Header) (ds name value : String) :
    Except Err (Entries Header) :=
  let headers :=
    match Entries.get headers ds with
    | some _ => headers
    | none => Entries.set headers ds (some [])
  match Entries.get headers ds with
  | some (some h) =>
    .ok (Entries.set headers ds
      (some (Entries.set h name (((Entries.get h name).getD []) ++ [lib.TrimSpace value]))))
  | _ => .error (.fault .nilMapWrite)

/-- The loop of `parseHeaderArgs` from the map built so far. -/
def parseHeaderLoop (lib : Lib) : Entries Header → List String → Except Err (Entries Header)
  | headers, [] => .ok headers
  | headers, v :: rest =>
    match splitHeaderArg lib v with
    | .error err => .error err
    | .ok (ds, name, value) =>
      match addHeader lib headers ds name value with
      | .error err => .error err
      | .ok headers => parseHeaderLoop lib headers rest

/-- The function `parseHeaderArgs`: the header sets by alias. -/
def parseHeaderArgs (lib : Lib) (headerArgs : List String) : Except Err (Entries Header) :=
  parseHeaderLoop lib [] headerArgs

/-- ParsePluginFlags - sets the Plugins field from the key=value format
flags. The result is the receiver after the call and the returned error; a
nil `c.Plugins` is replaced by an empty map before the write. -/
def Config.ParsePluginFlags (c : Config) : List String → Config × Option Err
  | [] => (c, none)
  | plugin :: rest =>
    let parts := SplitN2 plugin '='
    if parts.length < 2 then (c, some (.errorf "plugin requires both name and path" []))
    else
      let plugins := Entries.set (GoMap.range c.Plugins) (parts.getD 0 "") (parts.getD 1 "")
      Config.ParsePluginFlags { c with Plugins := some plugins } rest

/-- The loop of `parseTemplateArg` over a directory listing: every entry that
is not a directory is resolved and registered under the joined alias. -/
def templateEntries (lib : Lib) (pth key : String) :
    Entries DataSource → List FileInfo → Templates × Option Err
  | templates, [] => (some templates, none)
  | templates, f :: rest =>
    if !f.IsDir then
      match ParseSourceURL lib (lib.Join pth f.Name) with
      | .error err => (some templates, some err)
      | .ok u =>
        templateEntries lib pth key
          (Entries.set templates (lib.Join key f.Name) { URL := some u }) rest
    else templateEntries lib pth key templates rest

/-- The end of `parseTemplateArg`: the directory at `pth` is listed and its
files are registered. -/
def listTemplateDir (lib : Lib) (fsys : Fs) (key pth : String) : Templates × Option Err :=
  let pth := lib.Clean pth
  match fsys.ReadDir pth with
  | .error err => (none, some (.wrapf "failed to readDir %q: %w" [pth] err))
  | .ok files => templateEntries lib pth key [] files

/-- The part of `parseTemplateArg` for a `file` URL `u`: a path without a
trailing slash is opened, and registered on its own unless it is a
directory. -/
def expandTemplatePath (lib : Lib) (fsys : Fs) (key : String) (u : URL) (pth : String) :
    Templates × Option Err :=
  if !HasSuffix pth "/" then
    let pth := lib.Clean pth
    match fsys.Open pth with
    | .error err => (none, some (.wrapf "failed to open %q: (%T) %w" [pth] err))
    | .ok f =>
      match f.Stat with
      | .error err => (none, some (.wrapf "failed to stat %q: %w" [pth] err))
      | .ok fi =>
        if !fi.IsDir then (some [(key, { URL := some u })], none)
        else listTemplateDir lib fsys key pth
  else listTemplateDir lib fsys key pth

/-- The flag `wasAbsolute` of `parseTemplateArg`: the path parses as a URL
with a scheme. -/
def wasAbsolute (lib : Lib) (pth : String) : Bool :=
  match lib.Parse pth with
  | .ok u => u.IsAbs
  | .error _ => false

/-- parseTemplateArg - like parseDatasourceArg, except single-part names are
aliased by the full filename with extension. The result is the pair
`(templates, err)`. -/
def parseTemplateArg (lib : Lib) (fsys : Fs) (arg : String) : Templates × Option Err :=
  let parts := SplitN2 arg '='
  let pth := parts.getD 0 ""
  let key := pth
  let pth := if parts.length > 1 then parts.getD 1 "" else pth
  let pth := lib.ToSlash pth
  match ParseSourceURL lib pth with
  | .error err => (some [], some (.wrapf "failed to parse URL for %q: %w" [pth] err))
  | .ok u =>
    if u.Scheme ≠ "file" then (some [(key, { URL := some u })], none)
    else
      let pth := if wasAbsolute lib pth then u.Path else pth
      expandTemplatePath lib fsys key u pth

/-- The loop of `parseTemplateArgs` from the templates merged so far. -/
def parseTemplateLoop (lib : Lib) (fsys : Fs) : Templates → List String → Templates × Option Err
  | templates, [] => (templates, none)
  | templates, arg :: rest =>
    match parseTemplateArg lib fsys arg with
    | (_, some err) => (none, some err)
    | (t, none) =>
      match mergeTemplates templates t with
      | .error f => (none, some (.fault f))
      | .ok merged => parseTemplateLoop lib fsys merged rest

/-- The function `parseTemplateArgs`, starting from the nil map. -/
def parseTemplateArgs (lib : Lib) (fsys : Fs) (args : List String) : Templates × Option Err :=
  parseTemplateLoop lib fsys none args

/-- The first two loops of `ParseDataSourceFlags`, over the datasource and
over the context arguments: each parsed data source is written under its
key, into an empty map if the map was nil. -/
def parseDatasourceLoop (lib : Lib) :
    GoMap DataSource → List String → GoMap DataSource × Option Err
  | m, [] => (m, none)
  | m, d :: rest =>
    match parseDatasourceArg lib d with
    | (_, _, some err) => (m, some err)
    | (k, ds, none) => parseDatasourceLoop lib (some (Entries.set (GoMap.range m) k ds)) rest

/-- The statement `delete(m, k)`. -/
def Entries.delete {V : Type} (es : Entries V) (k : String) : Entries V :=
  es.filter (fun e => e.1 ≠ k)

/-- The write `m[k] = v` right after `m[k]` was read with success, so that
`m` is not nil. -/
def GoMap.update {V : Type} (m : GoMap V) (k : String) (v : V) : GoMap V :=
  match m with
  | none => none
  | some es => some (Entries.set es k v)

/-- One `if d, ok := m[k]; ok { d.Header = v; m[k] = d; delete(hdrs, k) }` of
the header loop. -/
def attachTo (m : GoMap DataSource) (hdrs : Entries Header) (k : String) (v : Header) :
    GoMap DataSource × Entries Header :=
  match GoMap.get m k with
  | some d => (GoMap.update m k { d with Header := v }, Entries.delete hdrs k)
  | none => (m, hdrs)

/-- What the header loop of `ParseDataSourceFlags` reads and writes. -/
structure Attach where
  Context : GoMap DataSource
  DataSources : GoMap DataSource
  Templates : GoMap DataSource
  hdrs : Entries Header
  deriving DecidableEq, Repr

/-- The body of the header loop: the three `if` statements in source
order. -/
def attachStep (st : Attach) (kv : String × Header) : Attach :=
  let r1 := attachTo st.Context st.hdrs kv.1 kv.2
  let r2 := attachTo st.DataSources r1.2 kv.1 kv.2
  let r3 := attachTo st.Templates r2.2 kv.1 kv.2
  { Context := r1.1, DataSources := r2.1, Templates := r3.1, hdrs := r3.2 }

/-- The header loop `for k, v := range hdrs`: only the key in hand is ever
deleted, so every entry of the map is visited once. -/
def attachHeaders (cx ds ts : GoMap DataSource) (hdrs : Entries Header) : Attach :=
  hdrs.foldl attachStep { Context := cx, DataSources := ds, Templates := ts, hdrs := hdrs }

/-- ParseDataSourceFlags - sets the DataSources, Context, and Templates
fields from the key=value format flags. `fsys` is `c.fs`, or the filesystem
of the operating system when that is unset. The result is the receiver after
the call and the returned error. -/
def Config.ParseDataSourceFlags (lib : Lib) (fsys : Fs) (c : Config)
    (datasources contexts templates headers : List String) : Config × Option Err :=
  match parseDatasourceLoop lib c.DataSources datasources with
  | (ds, some err) => ({ c with DataSources := ds }, some err)
  | (ds, none) =>
    match parseDatasourceLoop lib c.Context contexts with
    | (cx, some err) => ({ c with DataSources := ds, Context := cx }, some err)
    | (cx, none) =>
      match parseTemplateArgs lib fsys templates with
      | (_, some err) =>
        ({ c with DataSources := ds, Context := cx },
          some (.wrapf "failed to parse template args for %v: %w" templates err))
      | (parsed, none) =>
        match parseHeaderArgs lib headers with
        | .error err => ({ c with DataSources := ds, Context := cx, Templates := parsed }, some err)
        | .ok hdrs =>
          let st := attachHeaders cx ds parsed hdrs
          ({ c with
              DataSources := st.DataSources, Context := st.Context, Templates := st.Templates,
              ExtraHeaders := if st.hdrs.length > 0 then some st.hdrs else c.ExtraHeaders },
            none)

/-! ## A reduced model of the library

The theorems about the flag parser hold for every `Lib`. The definitions
below give one to run samples on, and the one on which the source locator is
shown to return its own output again: Go's functions restricted to ASCII text
made of letters, digits and the characters `- . _ ~ / : +`, without user
info, escapes, queries or fragments. On any other text `Parse` reports an
error of its own. -/

/-- The elements of a path between slashes. -/
def splitSegs : List Char → List Char → List (List Char)
  | [], cur => [cur.reverse]
  | c :: cs, cur => if c = '/' then cur.reverse :: splitSegs cs [] else splitSegs cs (c :: cur)

/-- The elements joined with slashes. -/
def joinSegs : List (List Char) → List Char
  | [] => []
  | [s] => s
  | s :: rest => s ++ '/' :: joinSegs rest

/-- The pass of `path.Clean` over the elements, on a stack of kept elements
(last one first): empty and "." elements go, ".." removes the element before
it, and stays only in front of a path that is not rooted. -/
def cleanSegs (rooted : Bool) : List (List Char) → List (List Char) → List (List Char)
  | stack, [] => stack.reverse
  | stack, seg :: rest =>
    if seg = [] ∨ seg = ['.'] then cleanSegs rooted stack rest
    else if seg = ['.', '.'] then
      match stack with
      | [] => if rooted then cleanSegs rooted [] rest else cleanSegs rooted [seg] rest
      | top :: below =>
        if top = ['.', '.'] then cleanSegs rooted (seg :: stack) rest
        else cleanSegs rooted below rest
    else cleanSegs rooted (seg :: stack) rest

/-- The function `path.Clean`, which is `filepath.Clean` on a POSIX
platform. -/
def cleanPath (p : String) : String :=
  if p = "" then "."
  else
    let rooted := HasPrefix p "/"
    let body := joinSegs (cleanSegs rooted [] (splitSegs p.data []))
    let out := if rooted then '/' :: body else body
    if out = [] then "." else String.mk out

/-- The function `path.Join` on two elements. -/
def joinPath (a b : String) : String :=
  if a = "" ∧ b = "" then ""
  else if a = "" then cleanPath b
  else if b = "" then cleanPath a
  else cleanPath (a ++ "/" ++ b)

/-- The characters the reduced model of `net/url` covers. -/
def plainChar (c : Char) : Bool :=
  c.isAlphanum || c = '-' || c = '.' || c = '_' || c = '~' || c = '/' || c = ':' || c = '+'

/-- The scan of `getScheme`: `seen` holds the characters read so far, last
one first. The result is the scheme and the rest, or `none` for the error of
a leading colon. -/
def getSchemeLoop (whole : List Char) : List Char → List Char → Option (List Char × List Char)
  | _, [] => some ([], whole)
  | seen, c :: cs =>
    if c.isAlpha then getSchemeLoop whole (c :: seen) cs
    else if c.isDigit ∨ c = '+' ∨ c = '-' ∨ c = '.' then
      if seen = [] then some ([], whole) else getSchemeLoop whole (c :: seen) cs
    else if c = ':' then
      if seen = [] then none else some (seen.reverse, cs)
    else some ([], whole)

/-- The check `validOptionalPort` on the text from the last colon of a host
on. -/
def validOptionalPort (port : List Char) : Bool :=
  match port with
  | [] => true
  | c :: digits => c = ':' && digits.all Char.isDigit

/-- The text of a host from its last colon on, empty without a colon. -/
def colonPort (host : List Char) : List Char :=
  if ':' ∈ host then ':' :: (host.reverse.takeWhile (fun c => c ≠ ':')).reverse else []

/-- The function `url.Parse` on plain text; an authority is a host with an
optional port. A URL with a scheme and a rooted path but no authority is not
covered. -/
def parseURL (raw : String) : Except Err URL :=
  if !raw.data.all plainChar then .error (.lib "net/url: text outside the reduced model")
  else
    match getSchemeLoop raw.data [] raw.data with
    | none => .error (.lib "missing protocol scheme")
    | some (scheme, rest) =>
      let scheme := String.mk (scheme.map Char.toLower)
      if !HasPrefix (String.mk rest) "/" then
        if scheme ≠ "" then .ok { Scheme := scheme, Opaque := String.mk rest }
        else if ':' ∈ (splitSegs rest []).headD [] then
          .error (.lib "first path segment in URL cannot contain colon")
        else .ok { Path := String.mk rest }
      else if (scheme ≠ "" ∨ !HasPrefix (String.mk rest) "///") ∧ HasPrefix (String.mk rest) "//"
      then
        let after := rest.drop 2
        let authority := after.takeWhile (fun c => c ≠ '/')
        let path := after.dropWhile (fun c => c ≠ '/')
        if !validOptionalPort (colonPort authority) then
          .error (.lib "invalid port after host")
        else .ok { Scheme := scheme, Host := String.mk authority, Path := String.mk path }
      else if scheme ≠ "" then .error (.lib "net/url: text outside the reduced model")
      else .ok { Path := String.mk rest }

/-- The last index of a slash in `dst[1:]`, as the text before it; `none`
without a slash. -/
def beforeLastSlash (cs : List Char) : Option (List Char) :=
  if '/' ∈ cs then some ((cs.reverse.dropWhile (fun c => c ≠ '/')).drop 1).reverse else none

/-- The loop of `resolvePath` over the elements of the full path: `dst` is
the text written so far, `first` tells that no element was written yet. -/
def resolveSegs : List Char → Bool → List (List Char) → List Char
  | dst, _, [] => dst
  | dst, first, elem :: rest =>
    if elem = ['.'] then resolveSegs dst false rest
    else if elem = ['.', '.'] then
      match beforeLastSlash (dst.drop 1) with
      | none => resolveSegs ['/'] true rest
      | some kept => resolveSegs ('/' :: kept) first rest
    else resolveSegs (dst ++ (if first then elem else '/' :: elem)) false rest

/-- The function `resolvePath` of `net/url`. -/
def resolvePath (base ref : String) : String :=
  let full :=
    if ref = "" then base.data
    else if !HasPrefix ref "/" then
      (base.data.reverse.dropWhile (fun c => c ≠ '/')).reverse ++ ref.data
    else ref.data
  if full = [] then ""
  else
    let elems := splitSegs full []
    let dst := resolveSegs ['/'] true elems
    let last := elems.getLastD []
    let dst := if last = ['.'] ∨ last = ['.', '.'] then dst ++ ['/'] else dst
    match dst with
    | _ :: '/' :: more => String.mk ('/' :: more)
    | _ => String.mk dst

/-- The method `URL.ResolveReference` on URLs of the reduced model. -/
def resolveReference (u ref : URL) : URL :=
  let url := if ref.Scheme = "" then { ref with Scheme := u.Scheme } else ref
  if ref.Scheme ≠ "" ∨ ref.Host ≠ "" then { url with Path := resolvePath ref.Path "" }
  else if ref.Opaque ≠ "" then { url with Host := "", Path := "" }
  else
    let url :=
      if ref.Path = "" ∧ ref.RawQuery = "" then
        { url with RawQuery := u.RawQuery,
                   Fragment := if ref.Fragment = "" then u.Fragment else url.Fragment }
      else url
    if ref.Path = "" ∧ u.Opaque ≠ "" then
      { url with Opaque := u.Opaque, Host := "", Path := "" }
    else { url with Host := u.Host, Path := resolvePath u.Path ref.Path }

/-- The method `URL.String` on URLs of the reduced model. -/
def urlString (u : URL) : String :=
  let scheme := if u.Scheme ≠ "" then u.Scheme ++ ":" else ""
  if u.Opaque ≠ "" then scheme ++ u.Opaque
  else
    let slashes :=
      if (u.Scheme ≠ "" ∨ u.Host ≠ "") ∧ (u.Host ≠ "" ∨ u.Path ≠ "") then "//" else ""
    let sep := if u.Path ≠ "" ∧ !HasPrefix u.Path "/" ∧ u.Host ≠ "" then "/" else ""
    let dot :=
      if u.Scheme = "" ∧ u.Host = "" ∧ ':' ∈ (splitSegs u.Path.data []).headD [] then "./"
      else ""
    scheme ++ slashes ++ u.Host ++ sep ++ dot ++ u.Path

/-- The bytes `validHeaderFieldByte` accepts: the token characters of
RFC 7230. -/
def isTokenChar (c : Char) : Bool :=
  c.isAlphanum || c ∈ ['!', '#', '$', '%', '&', Char.ofNat 39, '*', '+', '-', '.', '^', '_',
    Char.ofNat 96, '|', '~']

/-- The casing of `canonicalMIMEHeaderKey`: upper case at the start and after
a hyphen, lower case elsewhere. -/
def canonChars : Bool → List Char → List Char
  | _, [] => []
  | upper, c :: cs => (if upper then c.toUpper else c.toLower) :: canonChars (c = '-') cs

/-- The function `http.CanonicalHeaderKey`: a name with a byte that is not a
token character is returned unchanged. -/
def canonicalHeaderKey (s : String) : String :=
  if s.data.all isTokenChar then String.mk (canonChars true s.data) else s

/-- The white space `strings.TrimSpace` removes. -/
def isSpaceChar (c : Char) : Bool :=
  c = ' ' || (9 ≤ c.toNat && c.toNat ≤ 13) || c.toNat = 0x85 || c.toNat = 0xA0 ||
  c.toNat = 0x1680 || (0x2000 ≤ c.toNat && c.toNat ≤ 0x200a) || c.toNat = 0x2028 ||
  c.toNat = 0x2029 || c.toNat = 0x202f || c.toNat = 0x205f || c.toNat = 0x3000

/-- The function `strings.TrimSpace`. -/
def trimSpace (s : String) : String :=
  String.mk ((s.data.dropWhile isSpaceChar).reverse.dropWhile isSpaceChar).reverse

/-- The library on a POSIX platform with working directory `/work`, on plain
text. -/
def posixLib : Lib where
  ToSlash := fun s => s
  VolumeName := fun _ => ""
  Clean := cleanPath
  Join := joinPath
  Parse := parseURL
  ResolveReference := resolveReference
  URLString := urlString
  Getwd := .ok "/work"
  CanonicalHeaderKey := canonicalHeaderKey
  TrimSpace := trimSpace

/-- The function `filepath.ToSlash` on Windows: every backslash becomes a
slash. -/
def toSlashWindows (s : String) : String :=
  String.mk (s.data.map (fun c => if c = Char.ofNat 92 then '/' else c))

/-- The function `filepath.VolumeName` on Windows for a path that starts with
a drive letter; paths of other forms (UNC) are outside this reduced model
and get no volume name. -/
def volumeNameWindows (s : String) : String :=
  match s.data with
  | d :: ':' :: _ => if d.isAlpha then String.mk [d, ':'] else ""
  | _ => ""

/-- The library on a Windows platform, reduced to what resolving an absolute
drive-letter path or an absolute URL consults: `ToSlash`, `VolumeName`,
`Parse` and `URLString`. The working directory is not available in this
model, and `Clean` and `Join` are not consulted. -/
def windowsLib : Lib where
  ToSlash := toSlashWindows
  VolumeName := volumeNameWindows
  Clean := cleanPath
  Join := joinPath
  Parse := parseURL
  ResolveReference := resolveReference
  URLString := urlString
  Getwd := .error (.lib "working directory outside the reduced model")
  CanonicalHeaderKey := canonicalHeaderKey
  TrimSpace := trimSpace

/-- A filesystem with one directory `/tmp/dir` holding the files `a.txt` and
`b.txt` and the subdirectory `sub`, listed in name order. -/
def sampleFs : Fs where
  Open := fun p =>
    if p = "/tmp/dir" then .ok { Stat := .ok { Name := "dir", IsDir := true } }
    else .error (.lib "file does not exist")
  ReadDir := fun p =>
    if p = "/tmp/dir" then
      .ok [{ Name := "a.txt", IsDir := false }, { Name := "b.txt", IsDir := false },
        { Name := "sub", IsDir := true }]
    else .error (.lib "file does not exist")

/-- A filesystem whose working directory `.` holds the one file `1a:b`. -/
def colonFs : Fs where
  Open := fun _ => .error (.lib "file does not exist")
  ReadDir := fun p =>
    if p = "." then .ok [{ Name := "1a:b", IsDir := false }]
    else .error (.lib "file does not exist")

/-! ## The flag formats, as the specification words them -/

/-- A header argument in the specification's words: the alias is the text
before the first '=', the name the text between that '=' and the first ':'
after it, in canonical casing, and the value the text after that ':' without
leading and trailing white space. `none` when the '=' or the ':' is
missing. -/
def specHeader (lib : Lib) (arg : String) : Option (String × String × String) :=
  match cutChars '=' arg.data with
  | none => none
  | some (a, spec) =>
    match cutChars ':' spec with
    | none => none
    | some (n, v) =>
      some (String.mk a, lib.CanonicalHeaderKey (String.mk n), lib.TrimSpace (String.mk v))

/-- The values of all arguments with the given alias and canonical name, in
argument order. -/
def headerValues (lib : Lib) (args : List String) (al name : String) : List String :=
  args.filterMap (fun arg =>
    match specHeader lib arg with
    | some (a, n, v) => if a = al ∧ n = name then some v else none
    | none => none)

/-- The values stored in a parsed header map under an alias and a name. -/
def headerList (hdrs : Entries Header) (al name : String) : Option (List String) :=
  match Entries.get hdrs al with
  | some (some h) => Entries.get h name
  | _ => none

/-- The error `parseHeaderArgs` reports for a malformed argument: it names
the whole argument when the '=' is missing, and the text after the '=' when
the ':' is missing. -/
def headerError (arg : String) : Option Err :=
  match cutChars '=' arg.data with
  | none => some (.errorf "invalid datasource-header option '%s'" [arg])
  | some (_, spec) =>
    match cutChars ':' spec with
    | none => some (.errorf "invalid HTTP Header format '%s'" [String.mk spec])
    | some _ => none

/-- No alias of the map holds a nil header set. -/
def NoNilHeader (hdrs : Entries Header) : Prop :=
  ∀ a, Entries.get hdrs a ≠ some none

/-- The stored values with more values appended; nothing is stored when
there was nothing and nothing is appended. -/
def appendValues (stored : Option (List String)) (more : List String) : Option (List String) :=
  if more = [] then stored else some (stored.getD [] ++ more)

/-- The plugin entries in the specification's words: for each argument with
an '=', the text left of the first '=' and the text right of it. -/
def pluginEntries (plugins : List String) : Entries String :=
  plugins.filterMap (fun p =>
    match cutChars '=' p.data with
    | some (a, b) => some (String.mk a, String.mk b)
    | none => none)

/-- The text of a value before its first '.', the whole value without a
'.'. -/
def beforeFirstDot (value : String) : String :=
  match cutChars '.' value.data with
  | some (a, _) => String.mk a
  | none => value

/-- The pair `(ds, err)` that `parseDatasourceArg` builds from the result of
`ParseSourceURL`. -/
def sourceResult (r : Except Err URL) : DataSource × Option Err :=
  match r with
  | .ok u => ({ URL := some u }, none)
  | .error err => ({}, some err)

/-- The alias is a key of one of the three collections of the state. -/
def Attach.holds (st : Attach) (k : String) : Bool :=
  (GoMap.get st.Context k).isSome || (GoMap.get st.DataSources k).isSome ||
    (GoMap.get st.Templates k).isSome

/-- A configuration whose Context and DataSources both hold the alias
`ds1`, each entry without headers. -/
def sampleTwoCollections : Config :=
  { Context := some [("ds1", { URL := some { Scheme := "http", Host := "ctx", Path := "/" } })],
    DataSources := some [("ds1", { URL := some { Scheme := "http", Host := "ds", Path := "/" } })] }

/-- The entries of a listing that are not directories. -/
def plainFiles (files : List FileInfo) : List FileInfo := files.filter (fun f => !f.IsDir)

/-- The template entries the specification expects for a listed directory:
one per file, keyed by the alias joined with the name, with the URL resolved
from the directory joined with the name. -/
def dirTemplates (lib : Lib) (key dir : String) (files : List FileInfo) : Entries DataSource :=
  (plainFiles files).map (fun f =>
    (lib.Join key f.Name, { URL := (ParseSourceURL lib (lib.Join dir f.Name)).toOption }))

/-- The error of the first file of a listing whose path, the directory joined
with its name, the source locator does not resolve; `none` when the path of
every file resolves. -/
def firstUnresolved (lib : Lib) (dir : String) (files : List FileInfo) : Option Err :=
  (plainFiles files).findSome? (fun f =>
    match ParseSourceURL lib (lib.Join dir f.Name) with
    | .error err => some err
    | .ok _ => none)

/-- The listing of the sample directory. -/
def sampleListing : List FileInfo :=
  [{ Name := "a.txt", IsDir := false }, { Name := "b.txt", IsDir := false },
    { Name := "sub", IsDir := true }]

/-- The URL of the sample directory. -/
def sampleDirURL : URL := { Scheme := "file", Path := "/tmp/dir/" }

/-- The templates of the sample directory under the alias `tpl`. -/
def sampleDirTemplates : Templates :=
  some [("tpl/a.txt", { URL := some { Scheme := "file", Path := "/tmp/dir/a.txt" } }),
    ("tpl/b.txt", { URL := some { Scheme := "file", Path := "/tmp/dir/b.txt" } })]

/-- The URL a Windows drive-letter path resolves to. -/
def sampleDriveURL : URL := { Scheme := "file", Path := "C:/foo/bar.txt" }

/-! ## The URLs of the reduced model

The texts and URLs that the reduced `url.Parse` returns and reads back from
their string form. -/

/-- A character allowed in a scheme: a letter, a digit, '+', '-' or '.'. -/
def schemeChar (c : Char) : Bool :=
  c.isAlpha || c.isDigit || c = '+' || c = '-' || c = '.'

/-- The upper-case letters. -/
def upperLetters : List Char := "ABCDEFGHIJKLMNOPQRSTUVWXYZ".data

/-- Text the reduced model of `net/url` covers. -/
def PlainText (cs : List Char) : Prop := cs.all plainChar = true

/-- A scheme as `url.Parse` returns it: it starts with a letter, is made of
scheme characters, and is in lower case. -/
def SchemeText (S : List Char) : Prop :=
  (∃ c t, S = c :: t ∧ c.isAlpha = true) ∧ S.all schemeChar = true ∧ S.map Char.toLower = S

/-- A host as `url.Parse` returns it: plain text without a slash, with a
valid optional port. -/
def HostText (A : List Char) : Prop :=
  PlainText A ∧ '/' ∉ A ∧ validOptionalPort (colonPort A) = true

/-- A path next to an authority: plain text, empty or starting with a
slash. -/
def PathText (P : List Char) : Prop := PlainText P ∧ (P = [] ∨ ∃ t, P = '/' :: t)

/-- An opaque part: plain text that does not start with a slash. -/
def OpaqueText (O : List Char) : Prop := PlainText O ∧ ∀ t, O ≠ '/' :: t

/-- The absolute URLs of the reduced model: a scheme with an opaque part, or
a scheme with a host and a path. -/
def URL.Printable (u : URL) : Prop :=
  SchemeText u.Scheme.data ∧ u.RawQuery = "" ∧ u.Fragment = "" ∧
    ((u.Host = "" ∧ u.Path = "" ∧ OpaqueText u.Opaque.data) ∨
      (u.Opaque = "" ∧ HostText u.Host.data ∧ PathText u.Path.data))

/-! ## Facts about the merge -/

theorem getD_eq_singleton (l : List String) :
    (l.length == 1 && l.getD 0 "" == "-") = true ↔ l = ["-"] := by
  match l with
  | [] => simp
  | [x] => simp
  | x :: y :: t => simp

theorem mergeFields_Input (c o : Config) :
    (mergeFields c o).Input = (mergeInputs c o).Input := by
  simp only [mergeFields, mergeOutputMap, mergeOutputDir, mergeOutputFiles, mergeExecPipe,
    mergeExcludeGlob, mergeOutMode, mergeLDelim, mergeRDelim, apply_ite Config.Input, ite_self]

theorem mergeFields_InputDir (c o : Config) :
    (mergeFields c o).InputDir = (mergeInputs c o).InputDir := by
  simp only [mergeFields, mergeOutputMap, mergeOutputDir, mergeOutputFiles, mergeExecPipe,
    mergeExcludeGlob, mergeOutMode, mergeLDelim, mergeRDelim, apply_ite Config.InputDir,
    ite_self]

theorem mergeFields_InputFiles (c o : Config) :
    (mergeFields c o).InputFiles = (mergeInputs c o).InputFiles := by
  simp only [mergeFields, mergeOutputMap, mergeOutputDir, mergeOutputFiles, mergeExecPipe,
    mergeExcludeGlob, mergeOutMode, mergeLDelim, mergeRDelim, apply_ite Config.InputFiles,
    ite_self]

theorem mergeFields_OutputFiles (c o : Config) :
    (mergeFields c o).OutputFiles =
      if o.ExecPipe = true then o.OutputFiles
      else if o.OutputFiles ≠ [] then o.OutputFiles
      else if o.OutputDir ≠ "" then []
      else if o.OutputMap ≠ "" then []
      else c.OutputFiles := by
  simp only [mergeFields, mergeOutputMap, mergeOutputDir, mergeOutputFiles, mergeExecPipe,
    mergeExcludeGlob, mergeOutMode, mergeLDelim, mergeRDelim, mergeInputs,
    apply_ite Config.OutputFiles, ite_self]
  simp [isZero]

theorem mergeFields_OutputDir (c o : Config) :
    (mergeFields c o).OutputDir =
      if o.OutputFiles ≠ [] then ""
      else if o.OutputDir ≠ "" then o.OutputDir
      else if o.OutputMap ≠ "" then ""
      else (mergeInputs c o).OutputDir := by
  simp only [mergeFields, mergeOutputMap, mergeOutputDir, mergeOutputFiles, mergeExecPipe,
    mergeExcludeGlob, mergeOutMode, mergeLDelim, mergeRDelim,
    apply_ite Config.OutputDir, ite_self]
  simp [isZero]

theorem mergeFields_OutputMap (c o : Config) :
    (mergeFields c o).OutputMap =
      if o.OutputFiles ≠ [] then ""
      else if o.OutputDir ≠ "" then ""
      else if o.OutputMap ≠ "" then o.OutputMap
      else c.OutputMap := by
  simp only [mergeFields, mergeOutputMap, mergeOutputDir, mergeOutputFiles, mergeExecPipe,
    mergeExcludeGlob, mergeOutMode, mergeLDelim, mergeRDelim, mergeInputs,
    apply_ite Config.OutputMap, ite_self]
  simp [isZero]

theorem mergeFields_ExecPipe (c o : Config) :
    (mergeFields c o).ExecPipe = if o.ExecPipe = true then true else c.ExecPipe := by
  simp only [mergeFields, mergeOutputMap, mergeOutputDir, mergeOutputFiles, mergeExecPipe,
    mergeExcludeGlob, mergeOutMode, mergeLDelim, mergeRDelim, mergeInputs,
    apply_ite Config.ExecPipe, ite_self]
  cases o.ExecPipe <;> simp [isZero]

theorem mergeFields_PostExec (c o : Config) :
    (mergeFields c o).PostExec = if o.ExecPipe = true then o.PostExec else c.PostExec := by
  simp only [mergeFields, mergeOutputMap, mergeOutputDir, mergeOutputFiles, mergeExecPipe,
    mergeExcludeGlob, mergeOutMode, mergeLDelim, mergeRDelim, mergeInputs,
    apply_ite Config.PostExec, ite_self]
  simp [isZero]

theorem mergeFields_DataSources (c o : Config) :
    (mergeFields c o).DataSources = c.DataSources := by
  simp only [mergeFields, mergeOutputMap, mergeOutputDir, mergeOutputFiles, mergeExecPipe,
    mergeExcludeGlob, mergeOutMode, mergeLDelim, mergeRDelim, mergeInputs,
    apply_ite Config.DataSources, ite_self]

theorem mergeFields_Context (c o : Config) :
    (mergeFields c o).Context = c.Context := by
  simp only [mergeFields, mergeOutputMap, mergeOutputDir, mergeOutputFiles, mergeExecPipe,
    mergeExcludeGlob, mergeOutMode, mergeLDelim, mergeRDelim, mergeInputs,
    apply_ite Config.Context, ite_self]

theorem mergeFields_Templates (c o : Config) :
    (mergeFields c o).Templates = c.Templates := by
  simp only [mergeFields, mergeOutputMap, mergeOutputDir, mergeOutputFiles, mergeExecPipe,
    mergeExcludeGlob, mergeOutMode, mergeLDelim, mergeRDelim, mergeInputs,
    apply_ite Config.Templates, ite_self]

theorem mergeFields_Plugins (c o : Config) :
    (mergeFields c o).Plugins = c.Plugins := by
  simp only [mergeFields, mergeOutputMap, mergeOutputDir, mergeOutputFiles, mergeExecPipe,
    mergeExcludeGlob, mergeOutMode, mergeLDelim, mergeRDelim, mergeInputs,
    apply_ite Config.Plugins, ite_self]

theorem mergeEntry_some (es : Entries DataSource) (kv : String × DataSource) :
    ∃ es', mergeEntry (some es) kv = .ok (some es') := by
  unfold mergeEntry
  cases GoMap.get (some es) kv.1 <;> exact ⟨_, rfl⟩

theorem foldlM_mergeEntry_some (l : Entries DataSource) :
    ∀ es : Entries DataSource, ∃ es', l.foldlM mergeEntry (some es) = .ok (some es') := by
  induction l with
  | nil => intro es; exact ⟨es, rfl⟩
  | cons kv l ih =>
    intro es
    obtain ⟨es1, h1⟩ := mergeEntry_some es kv
    obtain ⟨es2, h2⟩ := ih es1
    refine ⟨es2, ?_⟩
    rw [List.foldlM_cons, h1]
    exact h2

theorem foldlM_set_some (l : Entries String) :
    ∀ es : Entries String,
      ∃ es', l.foldlM (fun p kv => GoMap.set p kv.1 kv.2) (some es) = .ok (some es') := by
  induction l with
  | nil => intro es; exact ⟨es, rfl⟩
  | cons kv l ih =>
    intro es
    obtain ⟨es2, h2⟩ := ih (Entries.set es kv.1 kv.2)
    exact ⟨es2, h2⟩

/-- The merge of data sources returns exactly when it writes into no nil
map. -/
theorem mergeDataSources_ok_iff (d o : GoMap DataSource) :
    (∃ r, mergeDataSources d o = .ok r) ↔ (d ≠ none ∨ GoMap.len o = 0) := by
  unfold mergeDataSources GoMap.len
  cases d with
  | some es =>
    obtain ⟨es', h⟩ := foldlM_mergeEntry_some (GoMap.range o) es
    simp [h]
  | none =>
    cases hr : GoMap.range o with
    | nil => simp [List.foldlM, pure, Except.pure]
    | cons kv l =>
      have : (kv :: l).foldlM mergeEntry none = .error .nilMapWrite := rfl
      simp [this]

theorem mergeTemplates_ok (d o : Templates) : ∃ r, mergeTemplates d o = .ok r := by
  unfold mergeTemplates
  split
  · exact ⟨_, rfl⟩
  split
  · exact ⟨_, rfl⟩
  cases d with
  | none => contradiction
  | some es =>
    obtain ⟨es', h⟩ := foldlM_mergeEntry_some (GoMap.range o) es
    exact ⟨_, h⟩

theorem mergePlugins_ok_iff (p o : GoMap String) :
    (∃ r, mergePlugins p o = .ok r) ↔ (p ≠ none ∨ GoMap.len o = 0) := by
  unfold mergePlugins GoMap.len
  cases p with
  | some es =>
    obtain ⟨es', h⟩ := foldlM_set_some (GoMap.range o) es
    split <;> simp [h]
  | none =>
    cases hr : GoMap.range o with
    | nil => simp
    | cons kv l =>
      have : (kv :: l).foldlM (fun p kv => GoMap.set p kv.1 kv.2) (none : GoMap String)
          = .error .nilMapWrite := rfl
      simp [this]

/-- The call `MergeFrom` returns a configuration exactly when no map write
hits a nil map. -/
theorem MergeFrom_ok_iff (c o : Config) :
    (∃ r, c.MergeFrom o = .ok r) ↔ Config.Mergeable c o := by
  unfold Config.MergeFrom Config.Mergeable
  simp only [bind, Except.bind, pure, Except.pure]
  rw [← mergeDataSources_ok_iff, ← mergeDataSources_ok_iff, ← mergePlugins_ok_iff]
  rw [mergeFields_DataSources, mergeFields_Context, mergeFields_Plugins]
  obtain ⟨t, ht⟩ := mergeTemplates_ok (mergeFields c o).Templates o.Templates
  cases h1 : mergeDataSources c.DataSources o.DataSources with
  | error e => simp
  | ok ds =>
    cases h2 : mergeDataSources c.Context o.Context with
    | error e => simp
    | ok cx =>
      simp only [ht]
      cases h3 : mergePlugins c.Plugins o.Plugins with
      | error e => simp
      | ok p => simp

/-- A returned merge is the scalar merge with the four map fields replaced. -/
theorem MergeFrom_ok_shape {c o r : Config} (h : c.MergeFrom o = .ok r) :
    ∃ ds cx t p, r = { mergeFields c o with
      DataSources := ds, Context := cx, Templates := t, Plugins := p } := by
  unfold Config.MergeFrom at h
  simp only [bind, Except.bind, pure, Except.pure] at h
  split at h
  · cases h
  split at h
  · cases h
  split at h
  · cases h
  split at h
  · cases h
  injection h with h
  exact ⟨_, _, _, _, h.symm⟩

theorem mergeInputs_Unset (c o : Config) (h1 : o.Input = "") (h2 : o.InputDir = "")
    (h3 : o.InputFiles = []) : mergeInputs c o = c := by
  simp [mergeInputs, isZero, h1, h2, h3]

theorem mergeFields_Unset (c o : Config) (h : Config.Unset o) : mergeFields c o = c := by
  obtain ⟨h1, h2, h3, h4, h5, h6, h7, h8, h9, h10, -, -, -, -, -, -, -, -, -, -, -, h22, -, -⟩ := h
  simp [mergeFields, mergeOutputMap, mergeOutputDir, mergeOutputFiles, mergeExecPipe,
    mergeExcludeGlob, mergeOutMode, mergeLDelim, mergeRDelim, mergeInputs_Unset, isZero,
    h1, h2, h3, h4, h5, h6, h7, h8, h9, h10, h22]

theorem range_eq_nil {V : Type} (m : GoMap V) (h : GoMap.len m = 0) : GoMap.range m = [] := by
  unfold GoMap.len at h
  exact List.length_eq_zero.mp h

/-- Claim C1: the input group of `MergeFrom`: the merged Input, InputDir and
InputFiles are decided by the first matching case of the override, in the
order single input, input directory, input files (a file list that is exactly
`["-"]` counts as no input); in every remaining case the base keeps its three
input fields. -/
theorem MergeFrom_input_group (c o r : Config) (h : c.MergeFrom o = .ok r) :
    (o.Input ≠ "" → r.Input = o.Input ∧ r.InputDir = "" ∧ r.InputFiles = []) ∧
    (o.Input = "" → o.InputDir ≠ "" →
      r.Input = "" ∧ r.InputDir = o.InputDir ∧ r.InputFiles = []) ∧
    (o.Input = "" → o.InputDir = "" → o.InputFiles ≠ [] → o.InputFiles ≠ ["-"] →
      r.Input = "" ∧ r.InputDir = "" ∧ r.InputFiles = o.InputFiles) ∧
    (o.Input = "" → o.InputDir = "" → (o.InputFiles = [] ∨ o.InputFiles = ["-"]) →
      r.Input = c.Input ∧ r.InputDir = c.InputDir ∧ r.InputFiles = c.InputFiles) := by
  obtain ⟨ds, cx, t, p, rfl⟩ := MergeFrom_ok_shape h
  have hs := getD_eq_singleton o.InputFiles
  simp only [mergeFields_Input, mergeFields_InputDir, mergeFields_InputFiles]
  refine ⟨?_, ?_, ?_, ?_⟩
  · intro h1
    simp [mergeInputs, isZero, h1]
  · intro h1 h2
    simp [mergeInputs, isZero, h1, h2]
  · intro h1 h2 h3 h4
    have h5 : ¬ ((o.InputFiles.length == 1 && o.InputFiles.getD 0 "" == "-") = true) :=
      fun h => h4 (hs.1 h)
    have h6 : (!(o.InputFiles.length == 1 && o.InputFiles.getD 0 "" == "-")) = true := by
      cases hb : (o.InputFiles.length == 1 && o.InputFiles.getD 0 "" == "-")
      · rfl
      · exact absurd hb h5
    simp only [mergeInputs, isZero, h1, h2, h6]
    simp [h3]
  · intro h1 h2 h3
    rcases h3 with h3 | h3
    · simp [mergeInputs, isZero, h1, h2, h3]
    · simp [mergeInputs, isZero, h1, h2, h3]

/-- Witness of claim C1: base `Input = "a.txt"` merged with override
`InputDir = "dir/"` has no Input, InputDir `"dir/"` and no InputFiles. -/
theorem MergeFrom_input_group_witness :
    Config.MergeFrom { Input := "a.txt" } { InputDir := "dir/" } = .ok { InputDir := "dir/" } ∧
    (({ InputDir := "dir/" } : Config).Input = "" ∧
      ({ InputDir := "dir/" } : Config).InputDir = "dir/" ∧
      ({ InputDir := "dir/" } : Config).InputFiles = []) :=
  ⟨rfl, (MergeFrom_input_group { Input := "a.txt" } { InputDir := "dir/" } { InputDir := "dir/" }
    rfl).2.1 rfl (by decide)⟩

/-- Claim C2, amended to what the code does: with an override that has ExecPipe set and a
non-empty PostExec, the merged configuration takes the override's ExecPipe,
PostExec and OutputFiles as they are, whatever the base's output settings
were: OutputFiles is `["-"]` exactly when the override's OutputFiles is. -/
theorem MergeFrom_execPipe_adopts_override (c o r : Config) (hp : o.ExecPipe = true)
    (hx : o.PostExec ≠ []) (h : c.MergeFrom o = .ok r) :
    r.OutputFiles = o.OutputFiles ∧ r.ExecPipe = true ∧ r.PostExec = o.PostExec ∧
    r.PostExec ≠ [] ∧ (r.OutputFiles = ["-"] ↔ o.OutputFiles = ["-"]) := by
  obtain ⟨ds, cx, t, p, rfl⟩ := MergeFrom_ok_shape h
  simp only [mergeFields_OutputFiles, mergeFields_ExecPipe, mergeFields_PostExec, hp]
  simp [hx]

/-- Witness of the amended claim C2: an override carrying `["-"]` gives `["-"]`. -/
theorem MergeFrom_execPipe_adopts_override_witness :
    ({ ExecPipe := true, PostExec := ["cmd"], OutputFiles := ["-"] } : Config).OutputFiles
      = ["-"] :=
  (MergeFrom_execPipe_adopts_override { OutputFiles := ["out.txt"] }
    { ExecPipe := true, PostExec := ["cmd"], OutputFiles := ["-"] }
    { ExecPipe := true, PostExec := ["cmd"], OutputFiles := ["-"] } rfl (by decide) rfl).1

/-- Counterexample to claim C2 as stated: the base with one output file merged with
the override `ExecPipe = true, PostExec = ["cmd"]` has no OutputFiles at all,
so not every such merge yields `["-"]`. -/
theorem MergeFrom_execPipe_counterexample :
    Config.MergeFrom { OutputFiles := ["out.txt"] } { ExecPipe := true, PostExec := ["cmd"] }
      = .ok { ExecPipe := true, PostExec := ["cmd"], OutputFiles := [] } ∧
    ¬ (∀ c o r : Config, o.ExecPipe = true → o.PostExec ≠ [] → c.MergeFrom o = .ok r →
      r.OutputFiles = ["-"]) := by
  refine ⟨rfl, fun hall => ?_⟩
  have h := hall { OutputFiles := ["out.txt"] } { ExecPipe := true, PostExec := ["cmd"] }
    { ExecPipe := true, PostExec := ["cmd"], OutputFiles := [] } rfl (by decide) rfl
  exact absurd h (by decide)

/-- Claim C3 at its failing input: a base without Templates merged with an override
holding the template `t` returns a configuration whose Templates is still
nil, so the alias `t` is lost. -/
theorem MergeFrom_templates_nil_base :
    ∃ r, Config.MergeFrom {}
        { Templates := some [("t", { URL := some { Scheme := "file", Path := "/t.tmpl" } })] }
      = .ok r ∧ r.Templates = none ∧ GoMap.get r.Templates "t" = none :=
  ⟨{}, rfl, rfl, rfl⟩

/-- Claim C4 at its failing inputs: with a base whose DataSources, Context or
Plugins is nil and an override holding one entry there, `MergeFrom` ends in
the fault of a write into a nil map. -/
theorem MergeFrom_nil_map_fault :
    Config.MergeFrom {} { DataSources := some [("a", {})] } = .error .nilMapWrite ∧
    Config.MergeFrom {} { Context := some [("a", {})] } = .error .nilMapWrite ∧
    Config.MergeFrom {} { Plugins := some [("p", "/bin/p")] } = .error .nilMapWrite :=
  ⟨rfl, rfl, rfl⟩

/-- Claim C9: the output group of `MergeFrom` for an override without exec-pipe:
the override's OutputFiles, else its OutputDir, else its OutputMap is adopted
and the other two selectors are cleared; an override that sets none of them
leaves the base's OutputFiles and OutputMap alone. Whenever the override sets
an output selector, exactly one of the three is set in the result. -/
theorem MergeFrom_output_group (c o r : Config) (he : o.ExecPipe = false)
    (h : c.MergeFrom o = .ok r) :
    (o.OutputFiles ≠ [] →
      r.OutputFiles = o.OutputFiles ∧ r.OutputDir = "" ∧ r.OutputMap = "") ∧
    (o.OutputFiles = [] → o.OutputDir ≠ "" →
      r.OutputDir = o.OutputDir ∧ r.OutputFiles = [] ∧ r.OutputMap = "") ∧
    (o.OutputFiles = [] → o.OutputDir = "" → o.OutputMap ≠ "" →
      r.OutputMap = o.OutputMap ∧ r.OutputDir = "" ∧ r.OutputFiles = []) ∧
    (o.OutputFiles = [] → o.OutputDir = "" → o.OutputMap = "" →
      r.OutputFiles = c.OutputFiles ∧ r.OutputMap = c.OutputMap) ∧
    ((o.OutputFiles ≠ [] ∨ o.OutputDir ≠ "" ∨ o.OutputMap ≠ "") →
      countSet [decide (r.OutputFiles ≠ []), decide (r.OutputDir ≠ ""),
        decide (r.OutputMap ≠ "")] = 1) := by
  obtain ⟨ds, cx, t, p, rfl⟩ := MergeFrom_ok_shape h
  simp only [mergeFields_OutputFiles, mergeFields_OutputDir, mergeFields_OutputMap, he]
  refine ⟨?_, ?_, ?_, ?_, ?_⟩
  · intro h1; simp [h1]
  · intro h1 h2; simp [h1, h2]
  · intro h1 h2 h3; simp [h1, h2, h3]
  · intro h1 h2 h3; simp [h1, h2, h3]
  · intro h0
    by_cases h1 : o.OutputFiles = []
    · by_cases h2 : o.OutputDir = ""
      · by_cases h3 : o.OutputMap = ""
        · simp [h1, h2, h3] at h0
        · simp [h1, h2, h3, countSet]
      · simp [h1, h2, countSet]
    · simp [h1, countSet]

/-- Witness of claim C9: an override that sets only OutputDir, over a base with an
output file list and an input directory. -/
theorem MergeFrom_output_group_witness :
    Config.MergeFrom { InputDir := "in/", OutputFiles := ["a.out"] } { OutputDir := "out/" }
      = .ok { InputDir := "in/", OutputDir := "out/" } ∧
    (({ InputDir := "in/", OutputDir := "out/" } : Config).OutputDir = "out/" ∧
      ({ InputDir := "in/", OutputDir := "out/" } : Config).OutputFiles = [] ∧
      ({ InputDir := "in/", OutputDir := "out/" } : Config).OutputMap = "") :=
  ⟨rfl, (MergeFrom_output_group { InputDir := "in/", OutputFiles := ["a.out"] }
    { OutputDir := "out/" } { InputDir := "in/", OutputDir := "out/" } rfl rfl).2.1 rfl
    (by decide)⟩

/-- Claim C10: an override whose every field is zero is a right identity of
`MergeFrom`: the call returns, and it returns the base unchanged. -/
theorem MergeFrom_unset_override (c o : Config) (h : Config.Unset o) :
    c.MergeFrom o = .ok c := by
  have hf := mergeFields_Unset c o h
  obtain ⟨-, -, -, -, -, -, -, -, -, -, ht, hd, hc, hp, -⟩ := h
  have rt := range_eq_nil _ ht
  have rd := range_eq_nil _ hd
  have rc := range_eq_nil _ hc
  unfold Config.MergeFrom
  simp only [hf, mergeDataSources, mergePlugins, mergeTemplates, rt, rd, rc, hp]
  by_cases h1 : c.Templates = none
  · simp only [h1, bind, Except.bind, pure, Except.pure, List.foldlM_nil, List.length_nil,
      gt_iff_lt, lt_self_iff_false, if_false, if_true]
    rw [← h1]
  · by_cases h2 : o.Templates = none
    · simp [h1, h2, bind, Except.bind, pure, Except.pure]
    · simp [h1, h2, bind, Except.bind, pure, Except.pure]

/-- Witness of claim C10: the zero override over a base that sets inputs, outputs,
a data source and a plugin. -/
theorem MergeFrom_unset_override_witness :
    Config.Unset {} ∧ Config.MergeFrom sampleBase {} = .ok sampleBase :=
  ⟨by decide, MergeFrom_unset_override sampleBase {} (by decide)⟩

/-! ## Facts about the validator -/

theorem orElseCheck_none (x : Option String) : orElseCheck none x = x := by
  simp [orElseCheck]

theorem orElseCheck_some (e : String) (x : Option String) :
    orElseCheck (some e) x = some e := by
  simp [orElseCheck]

/-- The check `notTogether` on three named values: an error exactly when more
than one value is non-zero, naming the first two of them. -/
theorem notTogether_three (n1 n2 n3 : String) (h1 : n1 ≠ "") (h2 : n2 ≠ "")
    (v1 v2 v3 : Value) :
    notTogether [n1, n2, n3] [v1, v2, v3] =
      if 1 < countSet [!isZero v1, !isZero v2, !isZero v3] then
        some (exclusiveError n1 n2 n3 (!isZero v1) (!isZero v2) (!isZero v3))
      else none := by
  unfold notTogether
  cases z1 : isZero v1 <;> cases z2 : isZero v2 <;> cases z3 : isZero v3 <;>
    simp [notTogetherLoop, z1, z2, z3, h1, h2, countSet, exclusiveError, onlyOneOf]

theorem isZero_str (s : String) : (!isZero (.str s)) = decide (s ≠ "") := by
  by_cases h : s = "" <;> simp [isZero, h]

theorem isZero_strs (l : List String) : (!isZero (.strs l)) = decide (l ≠ []) := by
  cases l <;> simp [isZero]

theorem isZero_bool (b : Bool) : (!isZero (.bool b)) = b := by
  cases b <;> rfl

theorem check1_eq (c : Config) :
    notTogether ["in", "inputFiles", "inputDir"]
        [.str c.Input, .strs c.InputFiles, .str c.InputDir] =
      if Violates1 c then
        some (exclusiveError "in" "inputFiles" "inputDir"
          (decide (c.Input ≠ "")) (decide (c.InputFiles ≠ [])) (decide (c.InputDir ≠ "")))
      else none := by
  rw [notTogether_three _ _ _ (by decide) (by decide)]
  simp only [isZero_str, isZero_strs, Violates1]

theorem check2_eq (c : Config) :
    notTogether ["outputFiles", "outputDir", "outputMap"]
        [.strs c.OutputFiles, .str c.OutputDir, .str c.OutputMap] =
      if Violates2 c then
        some (exclusiveError "outputFiles" "outputDir" "outputMap"
          (decide (c.OutputFiles ≠ [])) (decide (c.OutputDir ≠ "")) (decide (c.OutputMap ≠ "")))
      else none := by
  rw [notTogether_three _ _ _ (by decide) (by decide)]
  simp only [isZero_str, isZero_strs, Violates2]

theorem check3_eq (c : Config) :
    notTogether ["outputDir", "outputMap", "execPipe"]
        [.str c.OutputDir, .str c.OutputMap, .bool c.ExecPipe] =
      if Violates3 c then
        some (exclusiveError "outputDir" "outputMap" "execPipe"
          (decide (c.OutputDir ≠ "")) (decide (c.OutputMap ≠ "")) c.ExecPipe)
      else none := by
  rw [notTogether_three _ _ _ (by decide) (by decide)]
  simp only [isZero_str, isZero_bool, Violates3]

theorem check4_eq (c : Config) :
    mustTogether "outputDir" "inputDir" (.str c.OutputDir) (.str c.InputDir) =
      if Violates4 c then some (setTogether "outputDir" "inputDir") else none := by
  by_cases h1 : c.OutputDir = "" <;> by_cases h2 : c.InputDir = "" <;>
    simp [mustTogether, isZero, Violates4, setTogether, h1, h2]

theorem check5_eq (c : Config) :
    mustTogether "outputMap" "inputDir" (.str c.OutputMap) (.str c.InputDir) =
      if Violates5 c then some (setTogether "outputMap" "inputDir") else none := by
  by_cases h1 : c.OutputMap = "" <;> by_cases h2 : c.InputDir = "" <;>
    simp [mustTogether, isZero, Violates5, setTogether, h1, h2]

/-- Without a violation of rule 1, the input count of the code is the input
count of the specification. -/
theorem inputCount_eq (c : Config) (h : ¬ Violates1 c) :
    (if (c.InputFiles.length == 0 && c.Input != "") = true then 1 else c.InputFiles.length)
      = specInputCount c := by
  unfold specInputCount
  unfold Violates1 at h
  by_cases h1 : c.Input = ""
  · simp [h1]
  · cases hf : c.InputFiles with
    | nil => simp [h1]
    | cons x l => simp [h1, hf, countSet] at h

theorem check6_eq (c : Config) (h : ¬ Violates1 c) :
    checkCounts c =
      if Violates6 c then some (countMismatch c.OutputFiles.length (specInputCount c))
      else none := by
  unfold checkCounts
  simp only [inputCount_eq c h]
  unfold Violates6 countMismatch
  by_cases he : c.ExecPipe = true <;>
    by_cases hn : specInputCount c = c.OutputFiles.length <;> simp [he, hn]

theorem check7_eq (c : Config) :
    checkPostExec c =
      if Violates7 c then some "execPipe may only be used with a postExec command"
      else none := by
  unfold checkPostExec Violates7
  by_cases he : c.ExecPipe = true <;> by_cases hp : c.PostExec = [] <;> simp [he, hp]

/-- The first seven checks of `Validate` compute the error of the
lowest-numbered violated rule. -/
theorem Validate_eq (c : Config) :
    c.Validate = orElseCheck (firstViolationError c) (checkPipeOutput c) := by
  unfold Config.Validate firstViolationError
  simp only [check1_eq, check2_eq, check3_eq, check4_eq, check5_eq, check7_eq]
  by_cases h1 : Violates1 c
  · simp [h1, orElseCheck_some]
  simp only [h1, if_false, orElseCheck_none, check6_eq c h1]
  by_cases h2 : Violates2 c
  · simp [h2, orElseCheck_some]
  simp only [h2, if_false, orElseCheck_none]
  by_cases h3 : Violates3 c
  · simp [h3, orElseCheck_some]
  simp only [h3, if_false, orElseCheck_none]
  by_cases h4 : Violates4 c
  · simp [h4, orElseCheck_some]
  simp only [h4, if_false, orElseCheck_none]
  by_cases h5 : Violates5 c
  · simp [h5, orElseCheck_some]
  simp only [h5, if_false, orElseCheck_none]
  by_cases h6 : Violates6 c
  · simp [h6, orElseCheck_some]
  simp only [h6, if_false, orElseCheck_none]

theorem firstViolationError_isSome (c : Config)
    (h : Violates1 c ∨ Violates2 c ∨ Violates3 c ∨ Violates4 c ∨ Violates5 c ∨ Violates6 c ∨
      Violates7 c) :
    ∃ msg, firstViolationError c = some msg := by
  unfold firstViolationError
  by_cases h1 : Violates1 c
  · exact ⟨_, if_pos h1⟩
  by_cases h2 : Violates2 c
  · simp [h1, h2]
  by_cases h3 : Violates3 c
  · simp [h1, h2, h3]
  by_cases h4 : Violates4 c
  · simp [h1, h2, h3, h4]
  by_cases h5 : Violates5 c
  · simp [h1, h2, h3, h4, h5]
  by_cases h6 : Violates6 c
  · simp [h1, h2, h3, h4, h5, h6]
  by_cases h7 : Violates7 c
  · simp [h1, h2, h3, h4, h5, h6, h7]
  simp [h1, h2, h3, h4, h5, h6, h7] at h

/-- Claim C5: a configuration that violates one of rules 1 to 7 is rejected, and
the error is the one of the lowest-numbered violated rule; with no Input and
both InputFiles and InputDir set the error names 'inputFiles' and
'inputDir'. -/
theorem Validate_first_violation (c : Config)
    (h : Violates1 c ∨ Violates2 c ∨ Violates3 c ∨ Violates4 c ∨ Violates5 c ∨ Violates6 c ∨
      Violates7 c) :
    (∃ msg, c.Validate = some msg) ∧ c.Validate = firstViolationError c ∧
    (c.Input = "" → c.InputFiles ≠ [] → c.InputDir ≠ "" → c.Validate =
      some "only one of these options is supported at a time: 'inputFiles', 'inputDir'") := by
  obtain ⟨msg, hm⟩ := firstViolationError_isSome c h
  have hv : c.Validate = firstViolationError c := by
    rw [Validate_eq, hm, orElseCheck_some]
  refine ⟨⟨msg, hv.trans hm⟩, hv, ?_⟩
  intro h1 h2 h3
  have hv1 : Violates1 c := by simp [Violates1, countSet, h1, h2, h3]
  rw [hv]
  simp only [firstViolationError, hv1, if_true, exclusiveError, h1, h2]
  simp only [ne_eq, not_true_eq_false, decide_False, Bool.false_eq_true, if_false]
  rfl

/-- Claim C7: a configuration that satisfies all eight rules passes `Validate`. -/
theorem Validate_accepts_valid (c : Config)
    (h1 : ¬ Violates1 c) (h2 : ¬ Violates2 c) (h3 : ¬ Violates3 c) (h4 : ¬ Violates4 c)
    (h5 : ¬ Violates5 c) (h6 : ¬ Violates6 c) (h7 : ¬ Violates7 c) (h8 : ¬ Violates8 c) :
    c.Validate = none := by
  rw [Validate_eq]
  simp only [firstViolationError, h1, h2, h3, h4, h5, h6, h7, if_false, orElseCheck_none]
  unfold checkPipeOutput
  unfold Violates8 at h8
  by_cases he : c.ExecPipe = true
  · match hf : c.OutputFiles with
    | [] => simp
    | [x] =>
      by_cases hx : x = "-"
      · simp [hx]
      · simp [he, hf, hx] at h8
    | x :: y :: l => simp [he, hf] at h8
  · simp [he]

/-- Witness of claim C5: no Input, one input file and an input directory. -/
theorem Validate_first_violation_witness :
    Violates1 sampleBothInputs ∧ sampleBothInputs.Validate =
      some "only one of these options is supported at a time: 'inputFiles', 'inputDir'" :=
  ⟨by decide, (Validate_first_violation sampleBothInputs (Or.inl (by decide))).2.2 rfl
    (by decide) (by decide)⟩

/-- Claim C6 at its failing input: with exec-pipe, a post-exec command and the
output files `["-", "out.txt"]`, rule 8 is violated and `Validate` returns no
error, because only the first output file is compared with "-". -/
theorem Validate_pipe_two_outputs :
    Violates8 samplePipeTwoOutputs ∧ samplePipeTwoOutputs.Validate = none :=
  ⟨by decide, by decide⟩

/-- Witness of claim C7: two input files with two output files. -/
theorem Validate_accepts_valid_witness :
    (¬ Violates1 sampleValid ∧ ¬ Violates6 sampleValid ∧ ¬ Violates8 sampleValid) ∧
    sampleValid.Validate = none :=
  ⟨by decide, Validate_accepts_valid sampleValid (by decide) (by decide) (by decide)
    (by decide) (by decide) (by decide) (by decide) (by decide)⟩

/-! ## Facts about the defaults -/

theorem ApplyDefaults_OutputDir (c : Config) :
    c.ApplyDefaults.OutputDir =
      if c.InputDir ≠ "" ∧ c.OutputDir = "" ∧ c.OutputMap = "" then "." else c.OutputDir := by
  simp only [Config.ApplyDefaults, defaultOutputDir, defaultInputFiles, defaultOutputFiles,
    defaultLDelim, defaultRDelim, defaultExecPipe, defaultPluginTimeout,
    apply_ite Config.OutputDir, ite_self]
  by_cases h1 : c.InputDir = "" <;> by_cases h2 : c.OutputDir = "" <;>
    by_cases h3 : c.OutputMap = "" <;> simp [h1, h2, h3]

theorem ApplyDefaults_InputFiles (c : Config) :
    c.ApplyDefaults.InputFiles =
      if c.Input = "" ∧ c.InputDir = "" ∧ c.InputFiles = [] then ["-"] else c.InputFiles := by
  simp only [Config.ApplyDefaults, defaultOutputDir, defaultInputFiles, defaultOutputFiles,
    defaultLDelim, defaultRDelim, defaultExecPipe, defaultPluginTimeout,
    apply_ite Config.InputFiles, apply_ite Config.Input, apply_ite Config.InputDir, ite_self]
  by_cases h1 : c.Input = "" <;> by_cases h2 : c.InputDir = "" <;>
    by_cases h3 : c.InputFiles = [] <;> simp [h1, h2, h3]

theorem ApplyDefaults_OutputFiles (c : Config) :
    c.ApplyDefaults.OutputFiles =
      if c.ExecPipe = true ∨
          (c.ApplyDefaults.OutputDir = "" ∧ c.OutputMap = "" ∧ c.OutputFiles = []) then ["-"]
      else c.OutputFiles := by
  rw [ApplyDefaults_OutputDir]
  simp only [Config.ApplyDefaults, defaultOutputDir, defaultInputFiles, defaultOutputFiles,
    defaultLDelim, defaultRDelim, defaultExecPipe, defaultPluginTimeout,
    apply_ite Config.OutputFiles, apply_ite Config.OutputDir, apply_ite Config.OutputMap,
    apply_ite Config.ExecPipe, ite_self]
  by_cases h0 : c.ExecPipe = true <;> by_cases h1 : c.InputDir = "" <;>
    by_cases h2 : c.OutputDir = "" <;> by_cases h3 : c.OutputMap = "" <;>
    by_cases h4 : c.OutputFiles = [] <;> simp [h0, h1, h2, h3, h4]

theorem ApplyDefaults_LDelim (c : Config) :
    c.ApplyDefaults.LDelim = if c.LDelim = "" then "\x7b\x7b" else c.LDelim := by
  simp only [Config.ApplyDefaults, defaultOutputDir, defaultInputFiles, defaultOutputFiles,
    defaultLDelim, defaultRDelim, defaultExecPipe, defaultPluginTimeout,
    apply_ite Config.LDelim, ite_self]
  by_cases h1 : c.LDelim = "" <;> simp [h1]

theorem ApplyDefaults_RDelim (c : Config) :
    c.ApplyDefaults.RDelim = if c.RDelim = "" then "\x7d\x7d" else c.RDelim := by
  simp only [Config.ApplyDefaults, defaultOutputDir, defaultInputFiles, defaultOutputFiles,
    defaultLDelim, defaultRDelim, defaultExecPipe, defaultPluginTimeout,
    apply_ite Config.RDelim, ite_self]
  by_cases h1 : c.RDelim = "" <;> simp [h1]

theorem ApplyDefaults_PluginTimeout (c : Config) :
    c.ApplyDefaults.PluginTimeout =
      if c.PluginTimeout = 0 then 5 * Second else c.PluginTimeout := by
  simp only [Config.ApplyDefaults, defaultOutputDir, defaultInputFiles, defaultOutputFiles,
    defaultLDelim, defaultRDelim, defaultExecPipe, defaultPluginTimeout,
    apply_ite Config.PluginTimeout, ite_self]
  by_cases h1 : c.PluginTimeout = 0 <;> simp [h1]

theorem ApplyDefaults_unchanged (c : Config) :
    c.ApplyDefaults.Input = c.Input ∧ c.ApplyDefaults.InputDir = c.InputDir ∧
    c.ApplyDefaults.OutputMap = c.OutputMap ∧ c.ApplyDefaults.ExecPipe = c.ExecPipe ∧
    c.ApplyDefaults.PostExec = c.PostExec ∧ c.ApplyDefaults.Templates = c.Templates ∧
    c.ApplyDefaults.DataSources = c.DataSources ∧ c.ApplyDefaults.Context = c.Context ∧
    c.ApplyDefaults.Plugins = c.Plugins ∧ c.ApplyDefaults.ExtraHeaders = c.ExtraHeaders := by
  refine ⟨?_, ?_, ?_, ?_, ?_, ?_, ?_, ?_, ?_, ?_⟩
  · simp only [Config.ApplyDefaults, defaultOutputDir, defaultInputFiles, defaultOutputFiles,
      defaultLDelim, defaultRDelim, defaultExecPipe, defaultPluginTimeout,
      apply_ite Config.Input, ite_self]
  · simp only [Config.ApplyDefaults, defaultOutputDir, defaultInputFiles, defaultOutputFiles,
      defaultLDelim, defaultRDelim, defaultExecPipe, defaultPluginTimeout,
      apply_ite Config.InputDir, ite_self]
  · simp only [Config.ApplyDefaults, defaultOutputDir, defaultInputFiles, defaultOutputFiles,
      defaultLDelim, defaultRDelim, defaultExecPipe, defaultPluginTimeout,
      apply_ite Config.OutputMap, ite_self]
  · simp only [Config.ApplyDefaults, defaultOutputDir, defaultInputFiles, defaultOutputFiles,
      defaultLDelim, defaultRDelim, defaultExecPipe, defaultPluginTimeout,
      apply_ite Config.ExecPipe, ite_self]
  · simp only [Config.ApplyDefaults, defaultOutputDir, defaultInputFiles, defaultOutputFiles,
      defaultLDelim, defaultRDelim, defaultExecPipe, defaultPluginTimeout,
      apply_ite Config.PostExec, ite_self]
  · simp only [Config.ApplyDefaults, defaultOutputDir, defaultInputFiles, defaultOutputFiles,
      defaultLDelim, defaultRDelim, defaultExecPipe, defaultPluginTimeout,
      apply_ite Config.Templates, ite_self]
  · simp only [Config.ApplyDefaults, defaultOutputDir, defaultInputFiles, defaultOutputFiles,
      defaultLDelim, defaultRDelim, defaultExecPipe, defaultPluginTimeout,
      apply_ite Config.DataSources, ite_self]
  · simp only [Config.ApplyDefaults, defaultOutputDir, defaultInputFiles, defaultOutputFiles,
      defaultLDelim, defaultRDelim, defaultExecPipe, defaultPluginTimeout,
      apply_ite Config.Context, ite_self]
  · simp only [Config.ApplyDefaults, defaultOutputDir, defaultInputFiles, defaultOutputFiles,
      defaultLDelim, defaultRDelim, defaultExecPipe, defaultPluginTimeout,
      apply_ite Config.Plugins, ite_self]
  · simp only [Config.ApplyDefaults, defaultOutputDir, defaultInputFiles, defaultOutputFiles,
      defaultLDelim, defaultRDelim, defaultExecPipe, defaultPluginTimeout,
      apply_ite Config.ExtraHeaders, ite_self]

/-- Claim C8: the data fields after `ApplyDefaults`: the output directory, input
files, output files, delimiters and plugin timeout take their defaults under
the stated conditions and keep their value otherwise; Input, InputDir,
OutputMap, ExecPipe, PostExec and the alias maps are unchanged; the empty
configuration gets input and output files `["-"]`, the delimiters of two
opening and two closing braces, and a timeout of five seconds. -/
theorem ApplyDefaults_postcondition (c : Config) :
    (c.ApplyDefaults.OutputDir =
      if c.InputDir ≠ "" ∧ c.OutputDir = "" ∧ c.OutputMap = "" then "." else c.OutputDir) ∧
    (c.ApplyDefaults.InputFiles =
      if c.Input = "" ∧ c.InputDir = "" ∧ c.InputFiles = [] then ["-"] else c.InputFiles) ∧
    (c.ApplyDefaults.OutputFiles =
      if c.ExecPipe = true ∨
          (c.ApplyDefaults.OutputDir = "" ∧ c.OutputMap = "" ∧ c.OutputFiles = []) then ["-"]
      else c.OutputFiles) ∧
    (c.ApplyDefaults.LDelim = if c.LDelim = "" then "\x7b\x7b" else c.LDelim) ∧
    (c.ApplyDefaults.RDelim = if c.RDelim = "" then "\x7d\x7d" else c.RDelim) ∧
    (c.ApplyDefaults.PluginTimeout =
      if c.PluginTimeout = 0 then 5 * Second else c.PluginTimeout) ∧
    (c.ApplyDefaults.Input = c.Input ∧ c.ApplyDefaults.InputDir = c.InputDir ∧
      c.ApplyDefaults.OutputMap = c.OutputMap ∧ c.ApplyDefaults.ExecPipe = c.ExecPipe ∧
      c.ApplyDefaults.PostExec = c.PostExec ∧ c.ApplyDefaults.Templates = c.Templates ∧
      c.ApplyDefaults.DataSources = c.DataSources ∧ c.ApplyDefaults.Context = c.Context ∧
      c.ApplyDefaults.Plugins = c.Plugins ∧ c.ApplyDefaults.ExtraHeaders = c.ExtraHeaders) ∧
    ((Config.ApplyDefaults {}).InputFiles = ["-"] ∧
      (Config.ApplyDefaults {}).OutputFiles = ["-"] ∧
      (Config.ApplyDefaults {}).LDelim = "\x7b\x7b" ∧
      (Config.ApplyDefaults {}).RDelim = "\x7d\x7d" ∧
      (Config.ApplyDefaults {}).PluginTimeout = 5000000000) :=
  ⟨ApplyDefaults_OutputDir c, ApplyDefaults_InputFiles c, ApplyDefaults_OutputFiles c,
    ApplyDefaults_LDelim c, ApplyDefaults_RDelim c, ApplyDefaults_PluginTimeout c,
    ApplyDefaults_unchanged c, by decide⟩

/-! ## Defaults and validity -/

theorem firstViolationError_eq_none_iff (c : Config) :
    firstViolationError c = none ↔
      (¬ Violates1 c ∧ ¬ Violates2 c ∧ ¬ Violates3 c ∧ ¬ Violates4 c ∧ ¬ Violates5 c ∧
        ¬ Violates6 c ∧ ¬ Violates7 c) := by
  unfold firstViolationError
  by_cases h1 : Violates1 c
  · simp [h1]
  by_cases h2 : Violates2 c
  · simp [h1, h2]
  by_cases h3 : Violates3 c
  · simp [h1, h2, h3]
  by_cases h4 : Violates4 c
  · simp [h1, h2, h3, h4]
  by_cases h5 : Violates5 c
  · simp [h1, h2, h3, h4, h5]
  by_cases h6 : Violates6 c
  · simp [h1, h2, h3, h4, h5, h6]
  by_cases h7 : Violates7 c
  · simp [h1, h2, h3, h4, h5, h6, h7]
  simp [h1, h2, h3, h4, h5, h6, h7]

/-- The validator accepts exactly when none of rules 1 to 7 is violated and
the exec-pipe output check passes. -/
theorem Validate_eq_none_iff (c : Config) :
    c.Validate = none ↔ (firstViolationError c = none ∧ checkPipeOutput c = none) := by
  rw [Validate_eq]
  cases h : firstViolationError c with
  | none => simp [orElseCheck_none]
  | some e => simp [orElseCheck_some]

theorem checkPipeOutput_no_pipe (c : Config) (h : c.ExecPipe = false) :
    checkPipeOutput c = none := by
  simp [checkPipeOutput, h]

/-- Without exec-pipe, the defaults keep every rule of the validator
satisfied. -/
theorem ApplyDefaults_keeps_rules (c : Config) (he : c.ExecPipe = false)
    (h : firstViolationError c = none) : firstViolationError c.ApplyDefaults = none := by
  rw [firstViolationError_eq_none_iff] at h ⊢
  obtain ⟨h1, h2, h3, h4, h5, h6, h7⟩ := h
  obtain ⟨e1, e2, e3, e4, e5, -⟩ := ApplyDefaults_unchanged c
  have e6 := ApplyDefaults_OutputDir c
  have e7 := ApplyDefaults_InputFiles c
  have e8 := ApplyDefaults_OutputFiles c
  rw [e6] at e8
  simp only [Violates1, Violates2, Violates3, Violates4, Violates5, Violates6, Violates7,
    specInputCount] at h1 h2 h3 h4 h5 h6 h7 ⊢
  rw [e1, e2, e3, e4, e5, e6, e7, e8]
  by_cases a1 : c.Input = "" <;> by_cases a2 : c.InputDir = "" <;>
    by_cases a3 : c.InputFiles = [] <;> by_cases a4 : c.OutputDir = "" <;>
    by_cases a5 : c.OutputMap = "" <;> by_cases a6 : c.OutputFiles = [] <;>
    simp_all [countSet] <;>
    exact absurd (List.length_eq_zero.mp (by omega)) a6

/-- Claim C20: for a configuration without exec-pipe that passes `Validate`,
the configuration after `ApplyDefaults` passes `Validate` too; the defaulted
empty configuration passes. -/
theorem ApplyDefaults_preserves_validity (c : Config) (he : c.ExecPipe = false)
    (hv : c.Validate = none) :
    c.ApplyDefaults.Validate = none ∧ (Config.ApplyDefaults {}).Validate = none := by
  refine ⟨?_, by decide⟩
  rw [Validate_eq_none_iff] at hv ⊢
  refine ⟨ApplyDefaults_keeps_rules c he hv.1, checkPipeOutput_no_pipe _ ?_⟩
  rw [(ApplyDefaults_unchanged c).2.2.2.1]
  exact he

/-- Witness of claim C20: two input files with two output files. -/
theorem ApplyDefaults_preserves_validity_witness :
    (sampleValid.ExecPipe = false ∧ sampleValid.Validate = none) ∧
    sampleValid.ApplyDefaults.Validate = none :=
  ⟨⟨rfl, by decide⟩, (ApplyDefaults_preserves_validity sampleValid rfl (by decide)).1⟩

/-! ## Facts about map entries -/

theorem Entries.get_set {V : Type} (es : Entries V) (k : String) (v : V) (k' : String) :
    Entries.get (Entries.set es k v) k' = if k = k' then some v else Entries.get es k' := by
  induction es with
  | nil => simp [Entries.set, Entries.get]
  | cons e es ih =>
    obtain ⟨k0, v0⟩ := e
    by_cases h0 : k0 = k
    · subst h0
      by_cases h1 : k0 = k' <;> simp [Entries.set, Entries.get, h1]
    · by_cases h1 : k = k'
      · subst h1
        simp [Entries.set, Entries.get, h0, ih]
      · by_cases h2 : k0 = k'
        · subst h2
          simp [Entries.set, Entries.get, h0, h1]
        · simp [Entries.set, Entries.get, h0, h1, h2, ih]

theorem Entries.get_eq_none {V : Type} (es : Entries V) (k : String)
    (h : k ∉ Entries.keys es) : Entries.get es k = none := by
  induction es with
  | nil => rfl
  | cons e es ih =>
    obtain ⟨k0, v0⟩ := e
    simp only [Entries.keys, List.map_cons, List.mem_cons, not_or] at h
    have h0 : ¬ k0 = k := fun e => h.1 e.symm
    simp only [Entries.get, h0, if_false]
    exact ih h.2

/-- Writing the entries of `l` one after the other, each new value computed
from the value found under its key: the lookup afterwards. -/
theorem Entries.get_foldl_set {V W : Type} (comb : Option V → W → V) (l : Entries W)
    (hl : Entries.Unique l) (es : Entries V) (k : String) :
    Entries.get (l.foldl (fun es kv => Entries.set es kv.1 (comb (Entries.get es kv.1) kv.2)) es)
        k =
      match Entries.get l k with
      | some w => some (comb (Entries.get es k) w)
      | none => Entries.get es k := by
  induction l generalizing es with
  | nil => rfl
  | cons e l ih =>
    obtain ⟨k1, w1⟩ := e
    have hn : k1 ∉ Entries.keys l := (List.nodup_cons.mp hl).1
    have hl' : Entries.Unique l := (List.nodup_cons.mp hl).2
    rw [List.foldl_cons, ih hl']
    by_cases h1 : k1 = k
    · subst h1
      simp [Entries.get, Entries.get_eq_none l k1 hn, Entries.get_set]
    · simp [Entries.get, h1, Entries.get_set]

/-- The value `mergeEntry` writes under a key: the merge with the entry found
there, or the override's entry. -/
theorem mergeEntry_eq (es : Entries DataSource) (kv : String × DataSource) :
    mergeEntry (some es) kv = .ok (some (Entries.set es kv.1
      ((fun (c : Option DataSource) (v : DataSource) =>
        match c with
        | some c => c.mergeFrom v
        | none => v) (Entries.get es kv.1) kv.2))) := by
  unfold mergeEntry
  simp only [GoMap.get]
  cases Entries.get es kv.1 <;> rfl

theorem foldlM_mergeEntry_eq (l : Entries DataSource) (es : Entries DataSource) :
    l.foldlM mergeEntry (some es) = .ok (some (l.foldl (fun es kv => Entries.set es kv.1
      ((fun (c : Option DataSource) (v : DataSource) =>
        match c with
        | some c => c.mergeFrom v
        | none => v) (Entries.get es kv.1) kv.2)) es)) := by
  induction l generalizing es with
  | nil => rfl
  | cons kv l ih =>
    rw [List.foldlM_cons, mergeEntry_eq]
    exact ih _

/-- Claim C11: `mergeFrom` takes the override's URL when it is present and
the base's otherwise; it takes the override's headers when the base has none,
and otherwise maps every header name to the override's values if the
override has the name and to the base's values if only the base has it.
`mergeDataSources` on a present base map merges the entries under a key of
both maps with `mergeFrom`, takes the override's entry for a key of the
override only, keeps the base's entry for a key of the base only, and holds
no other key. -/
theorem mergeFrom_mergeDataSources_spec (d o : DataSource) (es : Entries DataSource)
    (om : GoMap DataSource) (hh : Entries.Unique (GoMap.range o.Header))
    (hm : Entries.Unique (GoMap.range om)) :
    (d.mergeFrom o).URL = (if o.URL ≠ none then o.URL else d.URL) ∧
    (d.Header = none → (d.mergeFrom o).Header = o.Header) ∧
    (∀ h, d.Header = some h → ∃ h', (d.mergeFrom o).Header = some h' ∧
      ∀ k, Entries.get h' k =
        match GoMap.get o.Header k with
        | some v => some v
        | none => Entries.get h k) ∧
    (∃ es', mergeDataSources (some es) om = .ok (some es') ∧
      ∀ k, Entries.get es' k =
        match Entries.get es k, GoMap.get om k with
        | some a, some b => some (a.mergeFrom b)
        | none, some b => some b
        | some a, none => some a
        | none, none => none) := by
  refine ⟨?_, ?_, ?_, ?_⟩
  · unfold DataSource.mergeFrom
    by_cases hu : o.URL = none
    · simp only [hu, ne_eq, not_true_eq_false, if_false]
      split <;> rfl
    · simp only [hu, ne_eq, not_false_eq_true, if_true]
      split <;> rfl
  · intro hd
    unfold DataSource.mergeFrom
    by_cases hu : o.URL = none
    · simp [hu, hd]
    · simp [hu, hd]
  · intro h hd
    refine ⟨(GoMap.range o.Header).foldl (fun h kv => Entries.set h kv.1 kv.2) h, ?_, ?_⟩
    · unfold DataSource.mergeFrom
      by_cases hu : o.URL = none
      · simp [hu, hd]
      · simp [hu, hd]
    · intro k
      have := Entries.get_foldl_set (fun (_ : Option (List String)) (w : List String) => w)
        (GoMap.range o.Header) hh h k
      rw [this]
      cases hv : o.Header with
      | none => rfl
      | some oh =>
        simp only [GoMap.range, GoMap.get]
        cases Entries.get oh k <;> rfl
  · refine ⟨_, foldlM_mergeEntry_eq (GoMap.range om) es, ?_⟩
    intro k
    rw [Entries.get_foldl_set (fun (c : Option DataSource) (v : DataSource) =>
        match c with
        | some c => c.mergeFrom v
        | none => v) (GoMap.range om) hm es k]
    cases hv : om with
    | none => cases Entries.get es k <;> simp [GoMap.range, GoMap.get, Entries.get]
    | some oe =>
      simp only [GoMap.range, GoMap.get]
      cases Entries.get oe k <;> cases Entries.get es k <;> simp

/-- Witness of claim C11: a base with URL and two headers merged with an
override that has no URL, replaces one header and adds one. -/
theorem mergeFrom_mergeDataSources_spec_witness :
    (Entries.Unique (GoMap.range sampleSourceOverride.Header) ∧
      Entries.Unique (GoMap.range (some [("a", sampleSourceOverride), ("b", {})]))) ∧
    (sampleSourceBase.mergeFrom sampleSourceOverride).URL = sampleSourceBase.URL :=
  ⟨⟨by decide, by decide⟩,
    (mergeFrom_mergeDataSources_spec sampleSourceBase sampleSourceOverride
      [("a", sampleSourceBase)] (some [("a", sampleSourceOverride), ("b", {})])
      (by decide) (by decide)).1⟩

/-! ## Facts about splitting -/

theorem cutChars_eq_none_iff (sep : Char) (cs : List Char) :
    cutChars sep cs = none ↔ sep ∉ cs := by
  induction cs with
  | nil => simp [cutChars]
  | cons c cs ih =>
    by_cases h : c = sep
    · simp [cutChars, h]
    · have h' : ¬ sep = c := fun e => h e.symm
      cases hc : cutChars sep cs with
      | none => simp [cutChars, h, h', hc, ← ih]
      | some p =>
        have : ¬ (sep ∉ cs) := fun hn => by rw [← ih, hc] at hn; cases hn
        simp only [not_not] at this
        simp [cutChars, h, hc, this]

/-- A successful cut splits the text at the first occurrence of the
separator. -/
theorem cutChars_eq_some (sep : Char) (cs a b : List Char) (h : cutChars sep cs = some (a, b)) :
    cs = a ++ sep :: b ∧ sep ∉ a := by
  induction cs generalizing a b with
  | nil => simp [cutChars] at h
  | cons c cs ih =>
    by_cases hc : c = sep
    · simp only [cutChars, hc, if_true, Option.some.injEq, Prod.mk.injEq] at h
      obtain ⟨rfl, rfl⟩ := h
      simp [hc]
    · simp only [cutChars, hc, if_false] at h
      cases hr : cutChars sep cs with
      | none => simp [hr] at h
      | some p =>
        obtain ⟨a', b'⟩ := p
        simp only [hr, Option.some.injEq, Prod.mk.injEq] at h
        obtain ⟨rfl, rfl⟩ := h
        obtain ⟨e, hn⟩ := ih a' b' hr
        refine ⟨by rw [e]; rfl, ?_⟩
        simp only [List.mem_cons, not_or]
        exact ⟨fun e => hc e.symm, hn⟩

theorem cutChars_append (sep : Char) (a b : List Char) (h : sep ∉ a) :
    cutChars sep (a ++ sep :: b) = some (a, b) := by
  induction a with
  | nil => simp [cutChars]
  | cons c a ih =>
    simp only [List.mem_cons, not_or] at h
    have hc : ¬ c = sep := fun e => h.1 e.symm
    simp [cutChars, hc, ih h.2]

theorem SplitN2_length_one (s : String) (sep : Char) (h : cutChars sep s.data = none) :
    SplitN2 s sep = [s] := by
  simp [SplitN2, h]

theorem SplitN2_length_two (s : String) (sep : Char) (a b : List Char)
    (h : cutChars sep s.data = some (a, b)) : SplitN2 s sep = [String.mk a, String.mk b] := by
  simp [SplitN2, h]

/-! ## Facts about the header arguments -/

theorem splitHeaderArg_eq (lib : Lib) (arg : String) :
    splitHeaderArg lib arg =
      match cutChars '=' arg.data with
      | none => .error (.errorf "invalid datasource-header option '%s'" [arg])
      | some (a, spec) =>
        match cutChars ':' spec with
        | none => .error (.errorf "invalid HTTP Header format '%s'" [String.mk spec])
        | some (n, v) => .ok (String.mk a, lib.CanonicalHeaderKey (String.mk n), String.mk v) := by
  unfold splitHeaderArg
  cases h : cutChars '=' arg.data with
  | none => simp [SplitN2, h]
  | some p =>
    obtain ⟨a, spec⟩ := p
    simp only [SplitN2, h, List.length_cons, List.length_nil, ne_eq, not_true_eq_false,
      if_false, List.getD_cons_succ, List.getD_cons_zero]
    unfold splitHeader
    cases h2 : cutChars ':' spec with
    | none => simp [SplitN2, h2]
    | some q =>
      obtain ⟨n, v⟩ := q
      simp [SplitN2, h2]

theorem headerList_set (hdrs : Entries Header) (ds : String) (h : Entries (List String))
    (al name : String) :
    headerList (Entries.set hdrs ds (some h)) al name =
      if ds = al then Entries.get h name else headerList hdrs al name := by
  unfold headerList
  rw [Entries.get_set]
  by_cases e : ds = al <;> simp [e]

theorem NoNilHeader_set (hdrs : Entries Header) (ds : String) (h : Entries (List String))
    (hn : NoNilHeader hdrs) : NoNilHeader (Entries.set hdrs ds (some h)) := by
  intro a
  rw [Entries.get_set]
  by_cases e : ds = a
  · simp [e]
  · simp only [e, if_false]
    exact hn a

/-- The loop body stores the trimmed value behind the values already stored
under the alias and the name, and touches nothing else. -/
theorem addHeader_spec (lib : Lib) (hdrs : Entries Header) (ds name value : String)
    (hn : NoNilHeader hdrs) :
    ∃ out, addHeader lib hdrs ds name value = .ok out ∧ NoNilHeader out ∧
      ∀ al nm, headerList out al nm =
        if ds = al ∧ name = nm then
          some ((headerList hdrs ds name).getD [] ++ [lib.TrimSpace value])
        else headerList hdrs al nm := by
  unfold addHeader
  cases hg : Entries.get hdrs ds with
  | some hv =>
    cases hv with
    | none => exact absurd hg (hn ds)
    | some h =>
      simp only [hg]
      refine ⟨_, rfl, NoNilHeader_set _ _ _ hn, ?_⟩
      intro al nm
      rw [headerList_set, Entries.get_set]
      by_cases e1 : ds = al
      · subst e1
        by_cases e2 : name = nm
        · subst e2
          simp [headerList, hg]
        · simp [e2, headerList, hg]
      · simp [e1]
  | none =>
    simp only [Entries.get_set, if_true]
    refine ⟨_, rfl, NoNilHeader_set _ _ _ (NoNilHeader_set _ _ _ hn), ?_⟩
    intro al nm
    rw [headerList_set, Entries.get_set, headerList_set]
    by_cases e1 : ds = al
    · subst e1
      by_cases e2 : name = nm
      · subst e2
        simp [headerList, hg, Entries.get]
      · simp [e2, headerList, hg, Entries.get]
    · simp [e1]

theorem appendValues_step (stored : Option (List String)) (v : String) (more : List String) :
    appendValues (some (stored.getD [] ++ [v])) more = appendValues stored (v :: more) := by
  unfold appendValues
  by_cases h : more = [] <;> simp [h]

theorem headerValues_cons (lib : Lib) (arg : String) (rest : List String) (al nm : String) :
    headerValues lib (arg :: rest) al nm =
      match specHeader lib arg with
      | some (a, n, v) =>
        if a = al ∧ n = nm then v :: headerValues lib rest al nm else headerValues lib rest al nm
      | none => headerValues lib rest al nm := by
  unfold headerValues
  rw [List.filterMap_cons]
  cases h : specHeader lib arg with
  | none => rfl
  | some p =>
    obtain ⟨a, n, v⟩ := p
    by_cases e : a = al ∧ n = nm <;> simp [e]

theorem specHeader_eq_none_iff (lib : Lib) (arg : String) :
    specHeader lib arg = none ↔ (headerError arg).isSome = true := by
  unfold specHeader headerError
  cases cutChars '=' arg.data with
  | none => simp
  | some p =>
    obtain ⟨a, spec⟩ := p
    dsimp only
    cases cutChars ':' spec with
    | none => simp
    | some q => simp

/-- The loop of `parseHeaderArgs` from a map without nil header sets: with
well-formed arguments it returns a map that holds, behind the values stored
before, the values of the arguments. -/
theorem parseHeaderLoop_ok (lib : Lib) (args : List String) :
    ∀ hdrs : Entries Header, NoNilHeader hdrs →
      (∀ arg ∈ args, specHeader lib arg ≠ none) →
      ∃ out, parseHeaderLoop lib hdrs args = .ok out ∧ NoNilHeader out ∧
        ∀ al nm, headerList out al nm =
          appendValues (headerList hdrs al nm) (headerValues lib args al nm) := by
  induction args with
  | nil =>
    intro hdrs hn _
    exact ⟨hdrs, rfl, hn, fun al nm => by simp [headerValues, appendValues]⟩
  | cons arg rest ih =>
    intro hdrs hn hall
    have harg := hall arg (List.mem_cons_self _ _)
    have hrest : ∀ a ∈ rest, specHeader lib a ≠ none :=
      fun a ha => hall a (List.mem_cons_of_mem _ ha)
    unfold parseHeaderLoop
    rw [splitHeaderArg_eq]
    unfold specHeader at harg
    cases h1 : cutChars '=' arg.data with
    | none => simp [h1] at harg
    | some p =>
      obtain ⟨a, spec⟩ := p
      dsimp only
      cases h2 : cutChars ':' spec with
      | none => simp [h1, h2] at harg
      | some q =>
        obtain ⟨n, v⟩ := q
        dsimp only
        obtain ⟨mid, hm, hn1, hl1⟩ := addHeader_spec lib hdrs (String.mk a)
          (lib.CanonicalHeaderKey (String.mk n)) (String.mk v) hn
        rw [hm]
        dsimp only
        obtain ⟨out, ho, hn2, hl2⟩ := ih mid hn1 hrest
        refine ⟨out, ho, hn2, ?_⟩
        intro al nm
        rw [hl2, hl1, headerValues_cons]
        simp only [specHeader, h1, h2]
        by_cases e : String.mk a = al ∧ lib.CanonicalHeaderKey (String.mk n) = nm
        · obtain ⟨e1, e2⟩ := e
          subst e1
          subst e2
          simp only [and_self, if_true]
          exact appendValues_step _ _ _
        · simp only [e, if_false]

/-- The loop of `parseHeaderArgs` fails at the first malformed argument, with
the error that names it. -/
theorem parseHeaderLoop_error (lib : Lib) (args : List String) :
    ∀ hdrs : Entries Header, NoNilHeader hdrs →
      (∃ arg ∈ args, specHeader lib arg = none) →
      ∃ arg ∈ args, ∃ err, headerError arg = some err ∧
        parseHeaderLoop lib hdrs args = .error err := by
  induction args with
  | nil =>
    intro hdrs _ h
    obtain ⟨arg, ha, _⟩ := h
    cases ha
  | cons arg rest ih =>
    intro hdrs hn hex
    unfold parseHeaderLoop
    rw [splitHeaderArg_eq]
    cases h1 : cutChars '=' arg.data with
    | none =>
      exact ⟨arg, List.mem_cons_self _ _, _, by simp [headerError, h1], rfl⟩
    | some p =>
      obtain ⟨a, spec⟩ := p
      dsimp only
      cases h2 : cutChars ':' spec with
      | none =>
        exact ⟨arg, List.mem_cons_self _ _, _, by simp [headerError, h1, h2], rfl⟩
      | some q =>
        obtain ⟨n, v⟩ := q
        dsimp only
        obtain ⟨mid, hm, hn1, -⟩ := addHeader_spec lib hdrs (String.mk a)
          (lib.CanonicalHeaderKey (String.mk n)) (String.mk v) hn
        rw [hm]
        dsimp only
        have hrest : ∃ a' ∈ rest, specHeader lib a' = none := by
          obtain ⟨x, hx, hx2⟩ := hex
          rcases List.mem_cons.mp hx with e | hx'
          · subst e
            simp [specHeader, h1, h2] at hx2
          · exact ⟨x, hx', hx2⟩
        obtain ⟨x, hx, err, he, hl⟩ := ih mid hn1 hrest
        exact ⟨x, List.mem_cons_of_mem _ hx, err, he, hl⟩

theorem NoNilHeader_nil : NoNilHeader [] := by
  intro a
  simp [Entries.get]

/-- Claim C14: `parseHeaderArgs` fails exactly when some argument has no '='
or no ':' after its first '=', with an error that names the offending text;
otherwise the result holds, under each alias and canonical header name, the
trimmed values of all arguments with that alias and name in argument order,
and nothing under an alias and name that no argument carries. -/
theorem parseHeaderArgs_spec (lib : Lib) (args : List String) :
    ((∃ err, parseHeaderArgs lib args = .error err) ↔
      ∃ arg ∈ args, '=' ∉ arg.data ∨
        ∃ a spec, cutChars '=' arg.data = some (a, spec) ∧ ':' ∉ spec) ∧
    (∀ err, parseHeaderArgs lib args = .error err →
      ∃ arg ∈ args, headerError arg = some err) ∧
    (∀ hdrs, parseHeaderArgs lib args = .ok hdrs → ∀ al nm,
      headerList hdrs al nm =
        if headerValues lib args al nm = [] then none
        else some (headerValues lib args al nm)) := by
  have hspec : ∀ arg : String, specHeader lib arg = none ↔
      ('=' ∉ arg.data ∨ ∃ a spec, cutChars '=' arg.data = some (a, spec) ∧ ':' ∉ spec) := by
    intro arg
    unfold specHeader
    cases h1 : cutChars '=' arg.data with
    | none => simp [(cutChars_eq_none_iff '=' arg.data).mp h1]
    | some p =>
      obtain ⟨a, spec⟩ := p
      have hin : '=' ∈ arg.data := by
        by_contra hc
        rw [← cutChars_eq_none_iff, h1] at hc
        cases hc
      dsimp only
      cases h2 : cutChars ':' spec with
      | none =>
        have hn2 := (cutChars_eq_none_iff ':' spec).mp h2
        simp only [true_iff]
        exact Or.inr ⟨a, spec, rfl, hn2⟩
      | some q =>
        have hin2 : ':' ∈ spec := by
          by_contra hc
          rw [← cutChars_eq_none_iff, h2] at hc
          cases hc
        simp [hin, hin2]
  by_cases hbad : ∃ arg ∈ args, specHeader lib arg = none
  · obtain ⟨x, hx, err, he, hl⟩ := parseHeaderLoop_error lib args [] NoNilHeader_nil hbad
    have hbad' : ∃ arg ∈ args, '=' ∉ arg.data ∨
        ∃ a spec, cutChars '=' arg.data = some (a, spec) ∧ ':' ∉ spec := by
      obtain ⟨y, hy, hy2⟩ := hbad
      exact ⟨y, hy, (hspec y).mp hy2⟩
    refine ⟨⟨fun _ => hbad', fun _ => ⟨err, hl⟩⟩, ?_, ?_⟩
    · intro e he2
      unfold parseHeaderArgs at he2
      rw [hl] at he2
      injection he2 with he2
      subst he2
      exact ⟨x, hx, he⟩
    · intro hdrs hh
      unfold parseHeaderArgs at hh
      rw [hl] at hh
      cases hh
  · have hgood : ∀ arg ∈ args, specHeader lib arg ≠ none :=
      fun arg ha hn => hbad ⟨arg, ha, hn⟩
    obtain ⟨out, ho, -, hl⟩ := parseHeaderLoop_ok lib args [] NoNilHeader_nil hgood
    refine ⟨⟨?_, ?_⟩, ?_, ?_⟩
    · intro ⟨err, he⟩
      unfold parseHeaderArgs at he
      rw [ho] at he
      cases he
    · intro ⟨y, hy, hy2⟩
      exact absurd ((hspec y).mpr hy2) (hgood y hy)
    · intro err he
      unfold parseHeaderArgs at he
      rw [ho] at he
      cases he
    · intro hdrs hh al nm
      unfold parseHeaderArgs at hh
      rw [ho] at hh
      injection hh with hh
      subst hh
      rw [hl]
      simp [headerList, Entries.get, appendValues]

/-! ## Facts about the plugin and datasource arguments -/

theorem Entries.get_append {V : Type} (l1 l2 : Entries V) (k : String) :
    Entries.get (l1 ++ l2) k =
      match Entries.get l1 k with
      | some v => some v
      | none => Entries.get l2 k := by
  induction l1 with
  | nil => rfl
  | cons e l1 ih =>
    obtain ⟨k0, v0⟩ := e
    by_cases h : k0 = k
    · simp [Entries.get, h]
    · simp only [List.cons_append, Entries.get, h, if_false]
      exact ih

theorem GoMap.get_range {V : Type} (m : GoMap V) (k : String) :
    Entries.get (GoMap.range m) k = GoMap.get m k := by
  cases m <;> rfl

theorem ParsePluginFlags_cons_ok (c : Config) (p : String) (rest : List String)
    (a b : List Char) (h : cutChars '=' p.data = some (a, b)) :
    c.ParsePluginFlags (p :: rest) =
      Config.ParsePluginFlags
        { c with Plugins := some (Entries.set (GoMap.range c.Plugins) (String.mk a) (String.mk b)) }
        rest := by
  rw [Config.ParsePluginFlags]
  simp [SplitN2, h]

theorem ParsePluginFlags_cons_error (c : Config) (p : String) (rest : List String)
    (h : cutChars '=' p.data = none) :
    c.ParsePluginFlags (p :: rest) =
      (c, some (.errorf "plugin requires both name and path" [])) := by
  rw [Config.ParsePluginFlags]
  simp [SplitN2, h]

/-- The plugin loop: it fails exactly on an argument without '=', and
otherwise the last argument with an alias decides its path. -/
theorem ParsePluginFlags_loop (plugins : List String) :
    ∀ c : Config,
      ((c.ParsePluginFlags plugins).2 ≠ none ↔ ∃ p ∈ plugins, '=' ∉ p.data) ∧
      ((c.ParsePluginFlags plugins).2 = none → ∀ k,
        GoMap.get (c.ParsePluginFlags plugins).1.Plugins k =
          match Entries.get (pluginEntries plugins).reverse k with
          | some v => some v
          | none => GoMap.get c.Plugins k) := by
  induction plugins with
  | nil =>
    intro c
    simp [Config.ParsePluginFlags, pluginEntries, Entries.get]
  | cons p rest ih =>
    intro c
    cases h : cutChars '=' p.data with
    | none =>
      have hn := (cutChars_eq_none_iff '=' p.data).mp h
      rw [ParsePluginFlags_cons_error c p rest h]
      refine ⟨⟨fun _ => ⟨p, List.mem_cons_self _ _, hn⟩, fun _ => by simp⟩, ?_⟩
      intro hc
      simp at hc
    | some q =>
      obtain ⟨a, b⟩ := q
      have hin : ¬ ('=' ∉ p.data) := by
        intro hc
        rw [← cutChars_eq_none_iff, h] at hc
        cases hc
      rw [ParsePluginFlags_cons_ok c p rest a b h]
      obtain ⟨ih1, ih2⟩ := ih
        { c with Plugins := some (Entries.set (GoMap.range c.Plugins) (String.mk a) (String.mk b)) }
      refine ⟨?_, ?_⟩
      · rw [ih1]
        constructor
        · intro ⟨x, hx, hx2⟩
          exact ⟨x, List.mem_cons_of_mem _ hx, hx2⟩
        · intro ⟨x, hx, hx2⟩
          rcases List.mem_cons.mp hx with e | hx'
          · subst e
            exact absurd hx2 hin
          · exact ⟨x, hx', hx2⟩
      · intro hok k
        rw [ih2 hok k]
        have hpe : pluginEntries (p :: rest) = (String.mk a, String.mk b) :: pluginEntries rest := by
          simp [pluginEntries, List.filterMap_cons, h]
        rw [hpe, List.reverse_cons, Entries.get_append]
        cases Entries.get (pluginEntries rest).reverse k with
        | some v => rfl
        | none =>
          simp only [GoMap.get, Entries.get_set, GoMap.get_range, Entries.get]
          by_cases e : String.mk a = k <;> simp [e]

/-- Claim C16, amended to what the code does: `ParsePluginFlags` returns an
error exactly when some entry holds no '=' at all; otherwise it succeeds, and
Plugins maps the text left of the first '=' of an entry to the text right of
it, a later entry with the same alias replacing an earlier one and the other
aliases keeping their previous value. -/
theorem ParsePluginFlags_spec (c : Config) (plugins : List String) :
    ((c.ParsePluginFlags plugins).2 ≠ none ↔ ∃ p ∈ plugins, '=' ∉ p.data) ∧
    ((c.ParsePluginFlags plugins).2 = none → ∀ k,
      GoMap.get (c.ParsePluginFlags plugins).1.Plugins k =
        match Entries.get (pluginEntries plugins).reverse k with
        | some v => some v
        | none => GoMap.get c.Plugins k) :=
  ParsePluginFlags_loop plugins c

/-- Counterexample to claim C16 as stated: the entry `a=b=c` holds two '='
and is accepted, with alias `a` and path `b=c`. -/
theorem ParsePluginFlags_two_equals_counterexample :
    ("a=b=c".data.count '=' = 2 ∧
      Config.ParsePluginFlags {} ["a=b=c"] = ({ Plugins := some [("a", "b=c")] }, none)) ∧
    ¬ (∀ (c : Config) (plugins : List String),
      (∃ p ∈ plugins, p.data.count '=' ≠ 1) → (c.ParsePluginFlags plugins).2 ≠ none) := by
  refine ⟨⟨by decide, by decide⟩, fun hall => ?_⟩
  exact hall {} ["a=b=c"] ⟨"a=b=c", by simp, by decide⟩ (by decide)

/-- The last element of a path holds no slash. -/
theorem Base_eq_self (p : String) (h : Base p = p) : p = "/" ∨ '/' ∉ p.data := by
  unfold Base at h
  by_cases h0 : p = ""
  · right
    subst h0
    simp
  · simp only [h0, if_false] at h
    split at h
    · left
      exact h.symm
    · right
      rw [← h]
      simp only [List.mem_reverse]
      intro hm
      have := List.mem_takeWhile_imp hm
      simp at this

/-- Claim C15, amended to what the code does: without '=', the alias is the
text before the first '.', the value is rejected with the "must provide an
alias" error whenever it holds a '/' and is not the single slash, and a value
equal to its own base name (the single slash among them) goes to
`ParseSourceURL`; with '=', the alias is the text before the first '=' and
the locator handed to `ParseSourceURL` is the text after it. -/
theorem parseDatasourceArg_spec (lib : Lib) (value : String) :
    ('=' ∉ value.data →
      (parseDatasourceArg lib value).1 = beforeFirstDot value ∧
      ('/' ∈ value.data → value ≠ "/" →
        (parseDatasourceArg lib value).2 = ({}, some (.errorf
          "invalid datasource (%s): must provide an alias with files not in working directory"
          [value]))) ∧
      (Base value = value →
        (parseDatasourceArg lib value).2 = sourceResult (ParseSourceURL lib value))) ∧
    (∀ a b, value.data = a ++ '=' :: b → '=' ∉ a →
      parseDatasourceArg lib value =
        (String.mk a, sourceResult (ParseSourceURL lib (String.mk b)))) := by
  constructor
  · intro hne
    have hc := (cutChars_eq_none_iff '=' value.data).mpr hne
    have hkey : (SplitN2 value '.').getD 0 "" = beforeFirstDot value := by
      unfold SplitN2 beforeFirstDot
      cases cutChars '.' value.data with
      | none => rfl
      | some p => rfl
    unfold parseDatasourceArg
    simp only [SplitN2_length_one value '=' hc, List.length_singleton, if_true,
      List.getD_cons_zero, hkey]
    refine ⟨?_, ?_, ?_⟩
    · by_cases hb : Base value = value
      · simp only [hb, ne_eq, not_true_eq_false, if_false]
        cases ParseSourceURL lib value <;> rfl
      · simp [hb]
    · intro hs hr
      have hb : Base value ≠ value := by
        intro hb
        rcases Base_eq_self value hb with e | e
        · exact hr e
        · exact e hs
      simp [hb]
    · intro hb
      simp only [hb, ne_eq, not_true_eq_false, if_false]
      cases ParseSourceURL lib value <;> rfl
  · intro a b hv ha
    have hc : cutChars '=' value.data = some (a, b) := by
      rw [hv]
      exact cutChars_append '=' a b ha
    unfold parseDatasourceArg
    simp only [SplitN2_length_two value '=' a b hc, List.length_cons, List.length_nil]
    simp only [Nat.reduceAdd, OfNat.ofNat_ne_one, if_false, if_true, List.getD_cons_zero,
      List.getD_cons_succ]
    cases ParseSourceURL lib (String.mk b) <;> rfl

/-- Counterexample to claim C15 as stated: the value `/` holds a path
separator and no '=', and is not rejected: it is resolved under the alias
`/`. -/
theorem parseDatasourceArg_root_counterexample :
    ('/' ∈ "/".data ∧ '=' ∉ "/".data ∧
      parseDatasourceArg posixLib "/" =
        ("/", { URL := some { Scheme := "file", Path := "/" } }, none)) ∧
    ¬ (∀ (lib : Lib) (value : String), '=' ∉ value.data → '/' ∈ value.data →
      (parseDatasourceArg lib value).2.2 = some (.errorf
        "invalid datasource (%s): must provide an alias with files not in working directory"
        [value])) := by
  have h : parseDatasourceArg posixLib "/" =
      ("/", { URL := some { Scheme := "file", Path := "/" } }, none) := by decide
  refine ⟨⟨by decide, by decide, h⟩, fun hall => ?_⟩
  have h2 := hall posixLib "/" (by decide) (by decide)
  rw [h] at h2
  cases h2

/-! ## Facts about the header loop -/

theorem Entries.delete_cons {V : Type} (k0 : String) (v0 : V) (es : Entries V) (k : String) :
    Entries.delete ((k0, v0) :: es) k =
      if k0 = k then Entries.delete es k else (k0, v0) :: Entries.delete es k := by
  unfold Entries.delete
  by_cases h : k0 = k <;> simp [List.filter_cons, h]

theorem Entries.get_delete {V : Type} (es : Entries V) (k k' : String) :
    Entries.get (Entries.delete es k) k' = if k = k' then none else Entries.get es k' := by
  induction es with
  | nil => simp [Entries.delete, Entries.get]
  | cons e es ih =>
    obtain ⟨k0, v0⟩ := e
    rw [Entries.delete_cons]
    by_cases h0 : k0 = k
    · subst h0
      by_cases h1 : k0 = k'
      · subst h1
        simp [ih]
      · simp [h1, ih, Entries.get]
    · by_cases h1 : k = k'
      · subst h1
        simp [h0, Entries.get, ih]
      · simp [h0, h1, Entries.get, ih]

theorem attachTo_get (m : GoMap DataSource) (hdrs : Entries Header) (k : String) (v : Header)
    (k' : String) :
    GoMap.get (attachTo m hdrs k v).1 k' =
      if k = k' then (GoMap.get m k).map (fun d => { d with Header := v })
      else GoMap.get m k' := by
  unfold attachTo
  cases hg : GoMap.get m k with
  | none =>
    by_cases e : k = k'
    · subst e
      simp [hg]
    · simp [e]
  | some d =>
    cases m with
    | none => simp [GoMap.get] at hg
    | some es =>
      simp only [GoMap.update, GoMap.get, Entries.get_set, Option.map_some']

theorem attachTo_hdrs (m : GoMap DataSource) (hdrs : Entries Header) (k : String) (v : Header)
    (k' : String) :
    Entries.get (attachTo m hdrs k v).2 k' =
      if k = k' ∧ (GoMap.get m k).isSome = true then none else Entries.get hdrs k' := by
  unfold attachTo
  cases hg : GoMap.get m k with
  | none => simp
  | some d =>
    simp only [Entries.get_delete, Option.isSome_some, and_true]

theorem attachStep_Context (st : Attach) (kv : String × Header) (k' : String) :
    GoMap.get (attachStep st kv).Context k' =
      if kv.1 = k' then (GoMap.get st.Context kv.1).map (fun d => { d with Header := kv.2 })
      else GoMap.get st.Context k' := by
  simp only [attachStep, attachTo_get]

theorem attachStep_DataSources (st : Attach) (kv : String × Header) (k' : String) :
    GoMap.get (attachStep st kv).DataSources k' =
      if kv.1 = k' then (GoMap.get st.DataSources kv.1).map (fun d => { d with Header := kv.2 })
      else GoMap.get st.DataSources k' := by
  simp only [attachStep, attachTo_get]

theorem attachStep_Templates (st : Attach) (kv : String × Header) (k' : String) :
    GoMap.get (attachStep st kv).Templates k' =
      if kv.1 = k' then (GoMap.get st.Templates kv.1).map (fun d => { d with Header := kv.2 })
      else GoMap.get st.Templates k' := by
  simp only [attachStep, attachTo_get]

theorem attachStep_hdrs (st : Attach) (kv : String × Header) (k' : String) :
    Entries.get (attachStep st kv).hdrs k' =
      if kv.1 = k' ∧ st.holds kv.1 = true then none else Entries.get st.hdrs k' := by
  simp only [attachStep, attachTo_hdrs, Attach.holds]
  by_cases e : kv.1 = k'
  · subst e
    by_cases h1 : (GoMap.get st.Context kv.1).isSome = true <;>
      by_cases h2 : (GoMap.get st.DataSources kv.1).isSome = true <;>
      by_cases h3 : (GoMap.get st.Templates kv.1).isSome = true <;> simp [h1, h2, h3]
  · simp [e]

theorem attachStep_holds (st : Attach) (kv : String × Header) (k' : String) :
    (attachStep st kv).holds k' = st.holds k' := by
  simp only [Attach.holds, attachStep_Context, attachStep_DataSources, attachStep_Templates]
  by_cases e : kv.1 = k'
  · subst e
    simp
  · simp [e]

/-- The header loop over entries with distinct aliases: every collection
that holds the alias of a header set gets that set, the other entries stay,
and the leftover map loses exactly the aliases found in a collection. -/
theorem attach_foldl (l : Entries Header) (hl : Entries.Unique l) :
    ∀ st : Attach,
      (∀ k, GoMap.get (l.foldl attachStep st).Context k =
        match Entries.get l k with
        | some v => (GoMap.get st.Context k).map (fun d => { d with Header := v })
        | none => GoMap.get st.Context k) ∧
      (∀ k, GoMap.get (l.foldl attachStep st).DataSources k =
        match Entries.get l k with
        | some v => (GoMap.get st.DataSources k).map (fun d => { d with Header := v })
        | none => GoMap.get st.DataSources k) ∧
      (∀ k, GoMap.get (l.foldl attachStep st).Templates k =
        match Entries.get l k with
        | some v => (GoMap.get st.Templates k).map (fun d => { d with Header := v })
        | none => GoMap.get st.Templates k) ∧
      (∀ k, Entries.get (l.foldl attachStep st).hdrs k =
        if (Entries.get l k).isSome = true ∧ st.holds k = true then none
        else Entries.get st.hdrs k) := by
  induction l with
  | nil =>
    intro st
    simp [Entries.get]
  | cons e l ih =>
    intro st
    obtain ⟨k1, v1⟩ := e
    have hn : k1 ∉ Entries.keys l := (List.nodup_cons.mp hl).1
    have hl' : Entries.Unique l := (List.nodup_cons.mp hl).2
    obtain ⟨i1, i2, i3, i4⟩ := ih hl' (attachStep st (k1, v1))
    rw [List.foldl_cons]
    refine ⟨?_, ?_, ?_, ?_⟩
    · intro k
      rw [i1 k, attachStep_Context]
      by_cases e : k1 = k
      · subst e
        simp [Entries.get, Entries.get_eq_none l k1 hn]
      · simp [Entries.get, e]
    · intro k
      rw [i2 k, attachStep_DataSources]
      by_cases e : k1 = k
      · subst e
        simp [Entries.get, Entries.get_eq_none l k1 hn]
      · simp [Entries.get, e]
    · intro k
      rw [i3 k, attachStep_Templates]
      by_cases e : k1 = k
      · subst e
        simp [Entries.get, Entries.get_eq_none l k1 hn]
      · simp [Entries.get, e]
    · intro k
      rw [i4 k, attachStep_hdrs, attachStep_holds]
      by_cases e : k1 = k
      · subst e
        simp [Entries.get, Entries.get_eq_none l k1 hn]
      · simp [Entries.get, e]

theorem Entries.keys_set {V : Type} (es : Entries V) (k : String) (v : V) :
    Entries.keys (Entries.set es k v) =
      if k ∈ Entries.keys es then Entries.keys es else Entries.keys es ++ [k] := by
  induction es with
  | nil => simp [Entries.set, Entries.keys]
  | cons e es ih =>
    obtain ⟨k0, v0⟩ := e
    unfold Entries.keys at ih ⊢
    by_cases h0 : k0 = k
    · subst h0
      simp [Entries.set]
    · have h0' : ¬ k = k0 := fun e => h0 e.symm
      simp only [Entries.set, h0, if_false, List.map_cons, ih, List.mem_cons, h0', false_or]
      split <;> simp

theorem Entries.Unique_set {V : Type} (es : Entries V) (k : String) (v : V)
    (h : Entries.Unique es) : Entries.Unique (Entries.set es k v) := by
  unfold Entries.Unique at h ⊢
  rw [Entries.keys_set]
  split
  · exact h
  · rename_i hk
    rw [List.nodup_append]
    refine ⟨h, List.nodup_singleton k, ?_⟩
    intro a ha hb
    simp only [List.mem_singleton] at hb
    subst hb
    exact hk ha

theorem addHeader_unique (lib : Lib) (hdrs out : Entries Header) (ds name value : String)
    (hu : Entries.Unique hdrs) (h : addHeader lib hdrs ds name value = .ok out) :
    Entries.Unique out := by
  unfold addHeader at h
  cases hg : Entries.get hdrs ds with
  | some hv =>
    cases hv with
    | none => simp [hg] at h
    | some hh =>
      simp only [hg, Except.ok.injEq] at h
      rw [← h]
      exact Entries.Unique_set _ _ _ hu
  | none =>
    simp only [hg, Entries.get_set, if_true, Except.ok.injEq] at h
    rw [← h]
    exact Entries.Unique_set _ _ _ (Entries.Unique_set _ _ _ hu)

theorem parseHeaderLoop_unique (lib : Lib) (args : List String) :
    ∀ hdrs out : Entries Header, Entries.Unique hdrs →
      parseHeaderLoop lib hdrs args = .ok out → Entries.Unique out := by
  induction args with
  | nil =>
    intro hdrs out hu h
    simp only [parseHeaderLoop, Except.ok.injEq] at h
    rw [← h]
    exact hu
  | cons arg rest ih =>
    intro hdrs out hu h
    unfold parseHeaderLoop at h
    cases hs : splitHeaderArg lib arg with
    | error e => simp [hs] at h
    | ok p =>
      obtain ⟨ds, name, value⟩ := p
      simp only [hs] at h
      cases ha : addHeader lib hdrs ds name value with
      | error e => simp [ha] at h
      | ok mid =>
        simp only [ha] at h
        exact ih mid out (addHeader_unique lib hdrs mid ds name value hu ha) h

/-- The aliases of a parsed header map are distinct. -/
theorem parseHeaderArgs_unique (lib : Lib) (args : List String) (hdrs : Entries Header)
    (h : parseHeaderArgs lib args = .ok hdrs) : Entries.Unique hdrs :=
  parseHeaderLoop_unique lib args [] hdrs List.nodup_nil h

/-- A successful `ParseDataSourceFlags` ends with the header loop run on the
collections the three parse loops produced; the leftover header sets become
ExtraHeaders when there are any. -/
theorem ParseDataSourceFlags_success (lib : Lib) (fsys : Fs) (c r : Config)
    (datasources contexts templates headers : List String)
    (h : c.ParseDataSourceFlags lib fsys datasources contexts templates headers = (r, none)) :
    ∃ hdrs, parseHeaderArgs lib headers = .ok hdrs ∧
      r = { c with
        DataSources := (attachHeaders (parseDatasourceLoop lib c.Context contexts).1
          (parseDatasourceLoop lib c.DataSources datasources).1
          (parseTemplateArgs lib fsys templates).1 hdrs).DataSources,
        Context := (attachHeaders (parseDatasourceLoop lib c.Context contexts).1
          (parseDatasourceLoop lib c.DataSources datasources).1
          (parseTemplateArgs lib fsys templates).1 hdrs).Context,
        Templates := (attachHeaders (parseDatasourceLoop lib c.Context contexts).1
          (parseDatasourceLoop lib c.DataSources datasources).1
          (parseTemplateArgs lib fsys templates).1 hdrs).Templates,
        ExtraHeaders :=
          if (attachHeaders (parseDatasourceLoop lib c.Context contexts).1
            (parseDatasourceLoop lib c.DataSources datasources).1
            (parseTemplateArgs lib fsys templates).1 hdrs).hdrs.length > 0 then
            some (attachHeaders (parseDatasourceLoop lib c.Context contexts).1
              (parseDatasourceLoop lib c.DataSources datasources).1
              (parseTemplateArgs lib fsys templates).1 hdrs).hdrs
          else c.ExtraHeaders } := by
  unfold Config.ParseDataSourceFlags at h
  split at h
  · simp at h
  split at h
  · simp at h
  split at h
  · simp at h
  split at h
  · simp at h
  rename_i _ dsm hds _ cxm hcx _ t ht _ hdrs hp
  simp only [Prod.mk.injEq, and_true] at h
  refine ⟨hdrs, hp, ?_⟩
  rw [hds, hcx, ht]
  exact h.symm

/-- What the header loop leaves under an alias that a header argument
names. -/
theorem attachHeaders_named (cx ds ts : GoMap DataSource) (hdrs : Entries Header)
    (hu : Entries.Unique hdrs) (k : String) (v : Header) (hk : Entries.get hdrs k = some v) :
    GoMap.get (attachHeaders cx ds ts hdrs).Context k
      = (GoMap.get cx k).map (fun d => { d with Header := v }) ∧
    GoMap.get (attachHeaders cx ds ts hdrs).DataSources k
      = (GoMap.get ds k).map (fun d => { d with Header := v }) ∧
    GoMap.get (attachHeaders cx ds ts hdrs).Templates k
      = (GoMap.get ts k).map (fun d => { d with Header := v }) ∧
    Entries.get (attachHeaders cx ds ts hdrs).hdrs k =
      if ((GoMap.get cx k).isSome || (GoMap.get ds k).isSome || (GoMap.get ts k).isSome)
          = true then none
      else some v := by
  obtain ⟨i1, i2, i3, i4⟩ := attach_foldl hdrs hu
    { Context := cx, DataSources := ds, Templates := ts, hdrs := hdrs }
  unfold attachHeaders
  refine ⟨?_, ?_, ?_, ?_⟩
  · rw [i1 k, hk]
  · rw [i2 k, hk]
  · rw [i3 k, hk]
  · rw [i4 k, hk]
    simp [Attach.holds]

/-- What the header loop leaves under an alias that no header argument
names. -/
theorem attachHeaders_unnamed (cx ds ts : GoMap DataSource) (hdrs : Entries Header)
    (hu : Entries.Unique hdrs) (k : String) (hk : Entries.get hdrs k = none) :
    GoMap.get (attachHeaders cx ds ts hdrs).Context k = GoMap.get cx k ∧
    GoMap.get (attachHeaders cx ds ts hdrs).DataSources k = GoMap.get ds k ∧
    GoMap.get (attachHeaders cx ds ts hdrs).Templates k = GoMap.get ts k ∧
    Entries.get (attachHeaders cx ds ts hdrs).hdrs k = none := by
  obtain ⟨i1, i2, i3, i4⟩ := attach_foldl hdrs hu
    { Context := cx, DataSources := ds, Templates := ts, hdrs := hdrs }
  unfold attachHeaders
  refine ⟨?_, ?_, ?_, ?_⟩
  · rw [i1 k, hk]
  · rw [i2 k, hk]
  · rw [i3 k, hk]
  · rw [i4 k, hk]
    simp [hk]

/-- A lookup in the map that `if len(hdrs) > 0 { c.ExtraHeaders = hdrs }`
leaves in an ExtraHeaders that was nil. -/
theorem get_leftover (l : Entries Header) (k : String) :
    GoMap.get (if l.length > 0 then some l else none) k = Entries.get l k := by
  cases l with
  | nil => simp [GoMap.get, Entries.get]
  | cons e es => simp [GoMap.get]

/-- An entry with the header set `v` has the header set `v`. -/
theorem header_of_map (o : Option DataSource) (v : Header) (d : DataSource)
    (h : o.map (fun d => { d with Header := v }) = some d) : d.Header = v := by
  cases o with
  | none => simp at h
  | some d0 =>
    simp only [Option.map_some', Option.some.injEq] at h
    rw [← h]

/-- Claim C12: after a successful `ParseDataSourceFlags` on a configuration
without ExtraHeaders, under an alias named by a header argument each of
Context, DataSources and Templates holds what it held before the header loop
(the result of the loop over the context arguments, of the loop over the
datasource arguments, and the parsed templates), with the parsed header set
as its Header, and nothing if it held nothing; ExtraHeaders holds the parsed
header set under that alias if none of the three collections held it, and
nothing otherwise. In the words of the claim: an entry of the resulting
collections under the alias has the parsed header set, the alias is no key
of ExtraHeaders if one of the three holds it, and it is a key of
ExtraHeaders, mapped to the parsed header set, if none does. Under an alias
that no header argument names the collections are as before the loop and
ExtraHeaders holds nothing. -/
theorem ParseDataSourceFlags_header_partition (lib : Lib) (fsys : Fs) (c r : Config)
    (datasources contexts templates headers : List String) (hdrs : Entries Header)
    (k : String) (v : Header)
    (hx : c.ExtraHeaders = none)
    (h : c.ParseDataSourceFlags lib fsys datasources contexts templates headers = (r, none))
    (hp : parseHeaderArgs lib headers = .ok hdrs) (hk : Entries.get hdrs k = some v) :
    (GoMap.get r.Context k =
        (GoMap.get (parseDatasourceLoop lib c.Context contexts).1 k).map
          (fun d => { d with Header := v }) ∧
      GoMap.get r.DataSources k =
        (GoMap.get (parseDatasourceLoop lib c.DataSources datasources).1 k).map
          (fun d => { d with Header := v }) ∧
      GoMap.get r.Templates k =
        (GoMap.get (parseTemplateArgs lib fsys templates).1 k).map
          (fun d => { d with Header := v }) ∧
      GoMap.get r.ExtraHeaders k =
        if ((GoMap.get (parseDatasourceLoop lib c.Context contexts).1 k).isSome ||
            (GoMap.get (parseDatasourceLoop lib c.DataSources datasources).1 k).isSome ||
            (GoMap.get (parseTemplateArgs lib fsys templates).1 k).isSome) = true then none
        else some v) ∧
    ((∀ d, GoMap.get r.Context k = some d → d.Header = v) ∧
      (∀ d, GoMap.get r.DataSources k = some d → d.Header = v) ∧
      (∀ d, GoMap.get r.Templates k = some d → d.Header = v) ∧
      (((GoMap.get r.Context k).isSome = true ∨ (GoMap.get r.DataSources k).isSome = true ∨
          (GoMap.get r.Templates k).isSome = true) → GoMap.get r.ExtraHeaders k = none) ∧
      ((GoMap.get r.Context k = none ∧ GoMap.get r.DataSources k = none ∧
          GoMap.get r.Templates k = none) → GoMap.get r.ExtraHeaders k = some v)) ∧
    (∀ k', Entries.get hdrs k' = none →
      GoMap.get r.Context k' = GoMap.get (parseDatasourceLoop lib c.Context contexts).1 k' ∧
      GoMap.get r.DataSources k' =
        GoMap.get (parseDatasourceLoop lib c.DataSources datasources).1 k' ∧
      GoMap.get r.Templates k' = GoMap.get (parseTemplateArgs lib fsys templates).1 k' ∧
      GoMap.get r.ExtraHeaders k' = none) := by
  obtain ⟨hdrs', hp', hr⟩ :=
    ParseDataSourceFlags_success lib fsys c r datasources contexts templates headers h
  rw [hp] at hp'
  injection hp' with hp'
  subst hp'
  have hu := parseHeaderArgs_unique lib headers hdrs hp
  obtain ⟨a1, a2, a3, a4⟩ :=
    attachHeaders_named (parseDatasourceLoop lib c.Context contexts).1
      (parseDatasourceLoop lib c.DataSources datasources).1
      (parseTemplateArgs lib fsys templates).1 hdrs hu k v hk
  have e1 : r.Context = (attachHeaders (parseDatasourceLoop lib c.Context contexts).1
      (parseDatasourceLoop lib c.DataSources datasources).1
      (parseTemplateArgs lib fsys templates).1 hdrs).Context := by rw [hr]
  have e2 : r.DataSources = (attachHeaders (parseDatasourceLoop lib c.Context contexts).1
      (parseDatasourceLoop lib c.DataSources datasources).1
      (parseTemplateArgs lib fsys templates).1 hdrs).DataSources := by rw [hr]
  have e3 : r.Templates = (attachHeaders (parseDatasourceLoop lib c.Context contexts).1
      (parseDatasourceLoop lib c.DataSources datasources).1
      (parseTemplateArgs lib fsys templates).1 hdrs).Templates := by rw [hr]
  have e4 : ∀ k', GoMap.get r.ExtraHeaders k' =
      Entries.get (attachHeaders (parseDatasourceLoop lib c.Context contexts).1
        (parseDatasourceLoop lib c.DataSources datasources).1
        (parseTemplateArgs lib fsys templates).1 hdrs).hdrs k' := by
    intro k'
    rw [hr]
    simp only [hx]
    exact get_leftover _ k'
  have b1 : GoMap.get r.Context k =
      (GoMap.get (parseDatasourceLoop lib c.Context contexts).1 k).map
        (fun d => { d with Header := v }) := by rw [e1, a1]
  have b2 : GoMap.get r.DataSources k =
      (GoMap.get (parseDatasourceLoop lib c.DataSources datasources).1 k).map
        (fun d => { d with Header := v }) := by rw [e2, a2]
  have b3 : GoMap.get r.Templates k =
      (GoMap.get (parseTemplateArgs lib fsys templates).1 k).map
        (fun d => { d with Header := v }) := by rw [e3, a3]
  have b4 := (e4 k).trans a4
  refine ⟨⟨b1, b2, b3, b4⟩, ⟨?_, ?_, ?_, ?_, ?_⟩, ?_⟩
  · intro d hd
    exact header_of_map _ v d (b1.symm.trans hd)
  · intro d hd
    exact header_of_map _ v d (b2.symm.trans hd)
  · intro d hd
    exact header_of_map _ v d (b3.symm.trans hd)
  · intro hin
    rw [b1, b2, b3] at hin
    simp only [Option.isSome_map'] at hin
    have hany : ((GoMap.get (parseDatasourceLoop lib c.Context contexts).1 k).isSome ||
        (GoMap.get (parseDatasourceLoop lib c.DataSources datasources).1 k).isSome ||
        (GoMap.get (parseTemplateArgs lib fsys templates).1 k).isSome) = true := by
      simpa [Bool.or_eq_true, or_assoc] using hin
    rw [b4, if_pos hany]
  · intro hout
    rw [b1, b2, b3] at hout
    simp only [Option.map_eq_none'] at hout
    obtain ⟨h1, h2, h3⟩ := hout
    rw [b4]
    simp [h1, h2, h3]
  · intro k' hk'
    obtain ⟨u1, u2, u3, u4⟩ :=
      attachHeaders_unnamed (parseDatasourceLoop lib c.Context contexts).1
        (parseDatasourceLoop lib c.DataSources datasources).1
        (parseTemplateArgs lib fsys templates).1 hdrs hu k' hk'
    exact ⟨by rw [e1, u1], by rw [e2, u2], by rw [e3, u3], (e4 k').trans u4⟩

/-- Witness of claim C12: the alias `ds1` is held by Context and DataSources,
whose entries keep their URL and get the header X-Api-Key = ["secret"], and
is no key of ExtraHeaders; the alias `extra` is held by no collection and is
a key of ExtraHeaders. -/
theorem ParseDataSourceFlags_header_partition_witness :
    GoMap.get (Config.ParseDataSourceFlags posixLib sampleFs sampleTwoCollections [] [] []
        ["ds1=X-Api-Key: secret", "extra=Accept: text/plain"]).1.DataSources "ds1"
      = some { URL := some { Scheme := "http", Host := "ds", Path := "/" },
               Header := some [("X-Api-Key", ["secret"])] } ∧
    GoMap.get (Config.ParseDataSourceFlags posixLib sampleFs sampleTwoCollections [] [] []
        ["ds1=X-Api-Key: secret", "extra=Accept: text/plain"]).1.Context "ds1"
      = some { URL := some { Scheme := "http", Host := "ctx", Path := "/" },
               Header := some [("X-Api-Key", ["secret"])] } ∧
    GoMap.get (Config.ParseDataSourceFlags posixLib sampleFs sampleTwoCollections [] [] []
        ["ds1=X-Api-Key: secret", "extra=Accept: text/plain"]).1.ExtraHeaders "ds1" = none ∧
    GoMap.get (Config.ParseDataSourceFlags posixLib sampleFs sampleTwoCollections [] [] []
        ["ds1=X-Api-Key: secret", "extra=Accept: text/plain"]).1.ExtraHeaders "extra"
      = some (some [("Accept", ["text/plain"])]) :=
  ⟨(ParseDataSourceFlags_header_partition posixLib sampleFs sampleTwoCollections
      (Config.ParseDataSourceFlags posixLib sampleFs sampleTwoCollections [] [] []
        ["ds1=X-Api-Key: secret", "extra=Accept: text/plain"]).1
      [] [] [] ["ds1=X-Api-Key: secret", "extra=Accept: text/plain"]
      [("ds1", some [("X-Api-Key", ["secret"])]), ("extra", some [("Accept", ["text/plain"])])]
      "ds1" (some [("X-Api-Key", ["secret"])]) rfl (by decide) rfl (by decide)).1.2.1.trans
      (by decide),
    (ParseDataSourceFlags_header_partition posixLib sampleFs sampleTwoCollections
      (Config.ParseDataSourceFlags posixLib sampleFs sampleTwoCollections [] [] []
        ["ds1=X-Api-Key: secret", "extra=Accept: text/plain"]).1
      [] [] [] ["ds1=X-Api-Key: secret", "extra=Accept: text/plain"]
      [("ds1", some [("X-Api-Key", ["secret"])]), ("extra", some [("Accept", ["text/plain"])])]
      "ds1" (some [("X-Api-Key", ["secret"])]) rfl (by decide) rfl (by decide)).1.1.trans
      (by decide),
    (ParseDataSourceFlags_header_partition posixLib sampleFs sampleTwoCollections
      (Config.ParseDataSourceFlags posixLib sampleFs sampleTwoCollections [] [] []
        ["ds1=X-Api-Key: secret", "extra=Accept: text/plain"]).1
      [] [] [] ["ds1=X-Api-Key: secret", "extra=Accept: text/plain"]
      [("ds1", some [("X-Api-Key", ["secret"])]), ("extra", some [("Accept", ["text/plain"])])]
      "ds1" (some [("X-Api-Key", ["secret"])]) rfl (by decide) rfl (by decide)).1.2.2.2.trans
      (by decide),
    (ParseDataSourceFlags_header_partition posixLib sampleFs sampleTwoCollections
      (Config.ParseDataSourceFlags posixLib sampleFs sampleTwoCollections [] [] []
        ["ds1=X-Api-Key: secret", "extra=Accept: text/plain"]).1
      [] [] [] ["ds1=X-Api-Key: secret", "extra=Accept: text/plain"]
      [("ds1", some [("X-Api-Key", ["secret"])]), ("extra", some [("Accept", ["text/plain"])])]
      "extra" (some [("Accept", ["text/plain"])]) rfl (by decide) rfl (by decide)).1.2.2.2.trans
      (by decide)⟩

/-- Claim C13, amended to what the code does: after a successful
`ParseDataSourceFlags`, under an alias named by a header argument every one
of Context, DataSources and Templates holds the entry it held before the
header loop, with the parsed header set as its Header: the set is attached
in each collection that holds the alias, not only in the first. The entries
under the other aliases are as before the loop. -/
theorem ParseDataSourceFlags_attaches_everywhere (lib : Lib) (fsys : Fs) (c r : Config)
    (datasources contexts templates headers : List String) (hdrs : Entries Header)
    (k : String) (v : Header)
    (h : c.ParseDataSourceFlags lib fsys datasources contexts templates headers = (r, none))
    (hp : parseHeaderArgs lib headers = .ok hdrs) (hk : Entries.get hdrs k = some v) :
    (GoMap.get r.Context k =
        (GoMap.get (parseDatasourceLoop lib c.Context contexts).1 k).map
          (fun d => { d with Header := v }) ∧
      GoMap.get r.DataSources k =
        (GoMap.get (parseDatasourceLoop lib c.DataSources datasources).1 k).map
          (fun d => { d with Header := v }) ∧
      GoMap.get r.Templates k =
        (GoMap.get (parseTemplateArgs lib fsys templates).1 k).map
          (fun d => { d with Header := v })) ∧
    ((∀ d, GoMap.get r.Context k = some d → d.Header = v) ∧
      (∀ d, GoMap.get r.DataSources k = some d → d.Header = v) ∧
      (∀ d, GoMap.get r.Templates k = some d → d.Header = v)) ∧
    (∀ k', Entries.get hdrs k' = none →
      GoMap.get r.Context k' = GoMap.get (parseDatasourceLoop lib c.Context contexts).1 k' ∧
      GoMap.get r.DataSources k' =
        GoMap.get (parseDatasourceLoop lib c.DataSources datasources).1 k' ∧
      GoMap.get r.Templates k' = GoMap.get (parseTemplateArgs lib fsys templates).1 k') := by
  obtain ⟨hdrs', hp', hr⟩ :=
    ParseDataSourceFlags_success lib fsys c r datasources contexts templates headers h
  rw [hp] at hp'
  injection hp' with hp'
  subst hp'
  have hu := parseHeaderArgs_unique lib headers hdrs hp
  obtain ⟨a1, a2, a3, -⟩ :=
    attachHeaders_named (parseDatasourceLoop lib c.Context contexts).1
      (parseDatasourceLoop lib c.DataSources datasources).1
      (parseTemplateArgs lib fsys templates).1 hdrs hu k v hk
  have e1 : r.Context = (attachHeaders (parseDatasourceLoop lib c.Context contexts).1
      (parseDatasourceLoop lib c.DataSources datasources).1
      (parseTemplateArgs lib fsys templates).1 hdrs).Context := by rw [hr]
  have e2 : r.DataSources = (attachHeaders (parseDatasourceLoop lib c.Context contexts).1
      (parseDatasourceLoop lib c.DataSources datasources).1
      (parseTemplateArgs lib fsys templates).1 hdrs).DataSources := by rw [hr]
  have e3 : r.Templates = (attachHeaders (parseDatasourceLoop lib c.Context contexts).1
      (parseDatasourceLoop lib c.DataSources datasources).1
      (parseTemplateArgs lib fsys templates).1 hdrs).Templates := by rw [hr]
  have b1 : GoMap.get r.Context k =
      (GoMap.get (parseDatasourceLoop lib c.Context contexts).1 k).map
        (fun d => { d with Header := v }) := by rw [e1, a1]
  have b2 : GoMap.get r.DataSources k =
      (GoMap.get (parseDatasourceLoop lib c.DataSources datasources).1 k).map
        (fun d => { d with Header := v }) := by rw [e2, a2]
  have b3 : GoMap.get r.Templates k =
      (GoMap.get (parseTemplateArgs lib fsys templates).1 k).map
        (fun d => { d with Header := v }) := by rw [e3, a3]
  refine ⟨⟨b1, b2, b3⟩, ⟨?_, ?_, ?_⟩, ?_⟩
  · intro d hd
    exact header_of_map _ v d (b1.symm.trans hd)
  · intro d hd
    exact header_of_map _ v d (b2.symm.trans hd)
  · intro d hd
    exact header_of_map _ v d (b3.symm.trans hd)
  · intro k' hk'
    obtain ⟨u1, u2, u3, -⟩ :=
      attachHeaders_unnamed (parseDatasourceLoop lib c.Context contexts).1
        (parseDatasourceLoop lib c.DataSources datasources).1
        (parseTemplateArgs lib fsys templates).1 hdrs hu k' hk'
    exact ⟨by rw [e1, u1], by rw [e2, u2], by rw [e3, u3]⟩

/-- Witness of the amended claim C13: the alias `ds1` is held by Context and
by DataSources; both entries keep their URL and carry the header, the one in
DataSources, the later collection, too. -/
theorem ParseDataSourceFlags_attaches_everywhere_witness :
    GoMap.get (Config.ParseDataSourceFlags posixLib sampleFs sampleTwoCollections [] [] []
        ["ds1=X-Api-Key: secret"]).1.Context "ds1"
      = some { URL := some { Scheme := "http", Host := "ctx", Path := "/" },
               Header := some [("X-Api-Key", ["secret"])] } ∧
    GoMap.get (Config.ParseDataSourceFlags posixLib sampleFs sampleTwoCollections [] [] []
        ["ds1=X-Api-Key: secret"]).1.DataSources "ds1"
      = some { URL := some { Scheme := "http", Host := "ds", Path := "/" },
               Header := some [("X-Api-Key", ["secret"])] } :=
  ⟨(ParseDataSourceFlags_attaches_everywhere posixLib sampleFs sampleTwoCollections
      (Config.ParseDataSourceFlags posixLib sampleFs sampleTwoCollections [] [] []
        ["ds1=X-Api-Key: secret"]).1
      [] [] [] ["ds1=X-Api-Key: secret"] [("ds1", some [("X-Api-Key", ["secret"])])]
      "ds1" (some [("X-Api-Key", ["secret"])]) (by decide) rfl (by decide)).1.1.trans
      (by decide),
    (ParseDataSourceFlags_attaches_everywhere posixLib sampleFs sampleTwoCollections
      (Config.ParseDataSourceFlags posixLib sampleFs sampleTwoCollections [] [] []
        ["ds1=X-Api-Key: secret"]).1
      [] [] [] ["ds1=X-Api-Key: secret"] [("ds1", some [("X-Api-Key", ["secret"])])]
      "ds1" (some [("X-Api-Key", ["secret"])]) (by decide) rfl (by decide)).1.2.1.trans
      (by decide)⟩

/-- Counterexample to claim C13 as stated: with the alias `ds1` in Context
and in DataSources and the header argument `ds1=X-Api-Key: secret`, the entry
of DataSources, the later collection, does not keep its header set: both
entries get the parsed one. -/
theorem ParseDataSourceFlags_first_match_counterexample :
    ((Config.ParseDataSourceFlags posixLib sampleFs sampleTwoCollections [] [] []
        ["ds1=X-Api-Key: secret"]).2 = none ∧
      (GoMap.get sampleTwoCollections.Context "ds1").isSome = true ∧
      (GoMap.get sampleTwoCollections.DataSources "ds1").map DataSource.Header = some none ∧
      (GoMap.get (Config.ParseDataSourceFlags posixLib sampleFs sampleTwoCollections [] [] []
        ["ds1=X-Api-Key: secret"]).1.Context "ds1").map DataSource.Header
        = some (some [("X-Api-Key", ["secret"])]) ∧
      (GoMap.get (Config.ParseDataSourceFlags posixLib sampleFs sampleTwoCollections [] [] []
        ["ds1=X-Api-Key: secret"]).1.DataSources "ds1").map DataSource.Header
        = some (some [("X-Api-Key", ["secret"])])) ∧
    ¬ (∀ (lib : Lib) (fsys : Fs) (c r : Config) (headers : List String) (k : String),
      c.ParseDataSourceFlags lib fsys [] [] [] headers = (r, none) →
      (GoMap.get c.Context k).isSome = true →
      (GoMap.get r.DataSources k).map DataSource.Header
        = (GoMap.get c.DataSources k).map DataSource.Header) := by
  refine ⟨⟨by decide, by decide, by decide, by decide, by decide⟩, fun hall => ?_⟩
  have h := hall posixLib sampleFs sampleTwoCollections
    (Config.ParseDataSourceFlags posixLib sampleFs sampleTwoCollections [] [] []
      ["ds1=X-Api-Key: secret"]).1 ["ds1=X-Api-Key: secret"] "ds1" (by decide) (by decide)
  revert h
  decide

/-! ## Facts about template arguments -/

theorem Entries.set_fresh {V : Type} (es : Entries V) (k : String) (v : V)
    (h : k ∉ Entries.keys es) : Entries.set es k v = es ++ [(k, v)] := by
  induction es with
  | nil => rfl
  | cons e es ih =>
    obtain ⟨k0, v0⟩ := e
    simp only [Entries.keys, List.map_cons, List.mem_cons, not_or] at h
    have h0 : ¬ k0 = k := fun e => h.1 e.symm
    simp only [Entries.set, h0, if_false, List.cons_append]
    rw [ih h.2]

theorem dirTemplates_cons_dir (lib : Lib) (key dir : String) (f : FileInfo)
    (rest : List FileInfo) (h : f.IsDir = true) :
    dirTemplates lib key dir (f :: rest) = dirTemplates lib key dir rest := by
  simp [dirTemplates, plainFiles, List.filter_cons, h]

theorem dirTemplates_cons_file (lib : Lib) (key dir : String) (f : FileInfo)
    (rest : List FileInfo) (h : f.IsDir = false) :
    dirTemplates lib key dir (f :: rest) =
      (lib.Join key f.Name, { URL := (ParseSourceURL lib (lib.Join dir f.Name)).toOption })
        :: dirTemplates lib key dir rest := by
  simp [dirTemplates, plainFiles, List.filter_cons, h]

/-- The loop over a listing whose files all resolve and get distinct keys:
the entries so far are followed by one entry per file. -/
theorem templateEntries_eq (lib : Lib) (dir key : String) (files : List FileInfo) :
    ∀ acc : Entries DataSource,
      (∀ f ∈ files, f.IsDir = false → ∃ uf, ParseSourceURL lib (lib.Join dir f.Name) = .ok uf) →
      (Entries.keys acc ++ Entries.keys (dirTemplates lib key dir files)).Nodup →
      templateEntries lib dir key acc files =
        (some (acc ++ dirTemplates lib key dir files), none) := by
  induction files with
  | nil =>
    intro acc _ _
    simp [templateEntries, dirTemplates, plainFiles]
  | cons f rest ih =>
    intro acc hres hnd
    have hres' : ∀ g ∈ rest, g.IsDir = false →
        ∃ uf, ParseSourceURL lib (lib.Join dir g.Name) = .ok uf :=
      fun g hg => hres g (List.mem_cons_of_mem _ hg)
    unfold templateEntries
    by_cases hd : f.IsDir = true
    · rw [dirTemplates_cons_dir lib key dir f rest hd] at hnd ⊢
      simp only [hd, Bool.not_true, Bool.false_eq_true, if_false]
      exact ih acc hres' hnd
    · have hd' : f.IsDir = false := by simpa using hd
      obtain ⟨uf, hu⟩ := hres f (List.mem_cons_self _ _) hd'
      rw [dirTemplates_cons_file lib key dir f rest hd'] at hnd ⊢
      simp only [hd', Bool.not_false, if_true, hu]
      have hfresh : lib.Join key f.Name ∉ Entries.keys acc := by
        intro hin
        have := (List.nodup_append.mp hnd).2.2
        exact this hin (by simp [Entries.keys])
      rw [Entries.set_fresh acc _ _ hfresh]
      have hnd' : (Entries.keys (acc ++ [(lib.Join key f.Name, { URL := some uf })]) ++
          Entries.keys (dirTemplates lib key dir rest)).Nodup := by
        simpa [Entries.keys, List.append_assoc] using hnd
      rw [ih _ hres' hnd']
      simp [Except.toOption, List.append_assoc]

theorem SplitN2_alias (a loc : String) (h : '=' ∉ a.data) :
    SplitN2 (a ++ "=" ++ loc) '=' = [a, loc] := by
  have hd : (a ++ "=" ++ loc).data = a.data ++ '=' :: loc.data := by
    simp [String.data_append]
  unfold SplitN2
  rw [hd, cutChars_append '=' a.data loc.data h]

/-- The part of `parseTemplateArg` after the resolution, on a path that
names a directory whose listing succeeds. -/
theorem expandTemplatePath_dir (lib : Lib) (fsys : Fs) (key : String) (u : URL) (pth : String)
    (files : List FileInfo)
    (hdir : HasSuffix pth "/" = true ∨
      ∃ f fi, fsys.Open (lib.Clean pth) = .ok f ∧ f.Stat = .ok fi ∧ fi.IsDir = true)
    (hl : fsys.ReadDir (if HasSuffix pth "/" = true then lib.Clean pth
      else lib.Clean (lib.Clean pth)) = .ok files) :
    expandTemplatePath lib fsys key u pth =
      templateEntries lib (if HasSuffix pth "/" = true then lib.Clean pth
        else lib.Clean (lib.Clean pth)) key [] files := by
  unfold expandTemplatePath listTemplateDir
  by_cases hsuf : HasSuffix pth "/" = true
  · simp only [hsuf, if_true] at hl ⊢
    simp [hl]
  · rcases hdir with hdir | ⟨f, fi, ho, hst, hisdir⟩
    · exact absurd hdir hsuf
    · have hsuf' : HasSuffix pth "/" = false := by simpa using hsuf
      simp only [hsuf', Bool.false_eq_true, if_false] at hl ⊢
      simp [ho, hst, hisdir, hl]

theorem firstUnresolved_cons_dir (lib : Lib) (dir : String) (f : FileInfo)
    (rest : List FileInfo) (h : f.IsDir = true) :
    firstUnresolved lib dir (f :: rest) = firstUnresolved lib dir rest := by
  simp [firstUnresolved, plainFiles, List.filter_cons, h]

theorem firstUnresolved_cons_error (lib : Lib) (dir : String) (f : FileInfo)
    (rest : List FileInfo) (err : Err) (h : f.IsDir = false)
    (he : ParseSourceURL lib (lib.Join dir f.Name) = .error err) :
    firstUnresolved lib dir (f :: rest) = some err := by
  simp [firstUnresolved, plainFiles, List.filter_cons, h, List.findSome?_cons, he]

theorem firstUnresolved_cons_ok (lib : Lib) (dir : String) (f : FileInfo)
    (rest : List FileInfo) (uf : URL) (h : f.IsDir = false)
    (he : ParseSourceURL lib (lib.Join dir f.Name) = .ok uf) :
    firstUnresolved lib dir (f :: rest) = firstUnresolved lib dir rest := by
  simp [firstUnresolved, plainFiles, List.filter_cons, h, List.findSome?_cons, he]

/-- The loop over a listing returns the error of the first file whose path
does not resolve, and no error when every path resolves. -/
theorem templateEntries_error (lib : Lib) (dir key : String) (files : List FileInfo) :
    ∀ acc : Entries DataSource,
      (templateEntries lib dir key acc files).2 = firstUnresolved lib dir files := by
  induction files with
  | nil =>
    intro acc
    simp [templateEntries, firstUnresolved, plainFiles]
  | cons f rest ih =>
    intro acc
    unfold templateEntries
    by_cases hd : f.IsDir = true
    · rw [firstUnresolved_cons_dir lib dir f rest hd]
      simp only [hd, Bool.not_true, Bool.false_eq_true, if_false]
      exact ih acc
    · have hd' : f.IsDir = false := by simpa using hd
      simp only [hd', Bool.not_false, if_true]
      cases he : ParseSourceURL lib (lib.Join dir f.Name) with
      | error err =>
        rw [firstUnresolved_cons_error lib dir f rest err hd' he]
      | ok uf =>
        rw [firstUnresolved_cons_ok lib dir f rest uf hd' he]
        exact ih _

theorem wasAbsolute_of_scheme (lib : Lib) (pth : String) (p : URL)
    (hp : lib.Parse pth = .ok p) (hs : p.Scheme ≠ "") : wasAbsolute lib pth = true := by
  unfold wasAbsolute
  rw [hp]
  simp [URL.IsAbs, hs]

theorem wasAbsolute_of_no_scheme (lib : Lib) (pth : String)
    (hp : ∀ p, lib.Parse pth = .ok p → p.Scheme = "") : wasAbsolute lib pth = false := by
  unfold wasAbsolute
  cases h : lib.Parse pth with
  | error e => rfl
  | ok p => simp [URL.IsAbs, hp p h]

theorem keys_dirTemplates (lib : Lib) (key dir : String) (files : List FileInfo) :
    Entries.keys (dirTemplates lib key dir files) =
      (plainFiles files).map (fun f => lib.Join key f.Name) := by
  simp [dirTemplates, Entries.keys, List.map_map, Function.comp_def]

/-- The call of `parseTemplateArg` on an alias and a locator that resolves to
a `file` URL and names a directory whose listing succeeds is the loop over
the listing. `pth` is the path the function goes on with (the path of the
URL when the locator, as a URL, has a scheme, else the locator), `dir` the
directory it lists. -/
theorem parseTemplateArg_lists (lib : Lib) (fsys : Fs) (a loc pth dir : String) (u : URL)
    (files : List FileInfo)
    (ha : '=' ∉ a.data)
    (hu : ParseSourceURL lib (lib.ToSlash loc) = .ok u) (hs : u.Scheme = "file")
    (hpth : (∃ p, lib.Parse (lib.ToSlash loc) = .ok p ∧ p.Scheme ≠ "" ∧ pth = u.Path) ∨
      ((∀ p, lib.Parse (lib.ToSlash loc) = .ok p → p.Scheme = "") ∧ pth = lib.ToSlash loc))
    (hdir : (HasSuffix pth "/" = true ∧ dir = lib.Clean pth) ∨
      (HasSuffix pth "/" = false ∧ dir = lib.Clean (lib.Clean pth) ∧
        ∃ f fi, fsys.Open (lib.Clean pth) = .ok f ∧ f.Stat = .ok fi ∧ fi.IsDir = true))
    (hl : fsys.ReadDir dir = .ok files) :
    parseTemplateArg lib fsys (a ++ "=" ++ loc) = templateEntries lib dir a [] files := by
  have hw : (if wasAbsolute lib (lib.ToSlash loc) = true then u.Path else lib.ToSlash loc)
      = pth := by
    rcases hpth with ⟨p, hp, hsch, e⟩ | ⟨hp, e⟩
    · rw [wasAbsolute_of_scheme lib _ p hp hsch, e]
      simp
    · rw [wasAbsolute_of_no_scheme lib _ hp, e]
      simp
  have hd : (if HasSuffix pth "/" = true then lib.Clean pth else lib.Clean (lib.Clean pth))
      = dir := by
    rcases hdir with ⟨h1, e⟩ | ⟨h1, e, -⟩
    · rw [h1, e]
      simp
    · rw [h1, e]
      simp
  have hdir' : HasSuffix pth "/" = true ∨
      ∃ f fi, fsys.Open (lib.Clean pth) = .ok f ∧ f.Stat = .ok fi ∧ fi.IsDir = true := by
    rcases hdir with ⟨h1, -⟩ | ⟨-, -, h2⟩
    · exact Or.inl h1
    · exact Or.inr h2
  have he := expandTemplatePath_dir lib fsys a u pth files hdir' (by rw [hd]; exact hl)
  rw [hd] at he
  unfold parseTemplateArg
  simp only [SplitN2_alias a loc ha, List.length_cons, List.length_nil, List.getD_cons_zero,
    List.getD_cons_succ, Nat.reduceAdd, Nat.one_lt_ofNat, if_true, hu, hs, ne_eq,
    not_true_eq_false, if_false]
  rw [hw, he]

/-- Claim C17, amended to what the code does: for an alias and a locator that
resolves to a `file` URL and names a directory whose listing succeeds,
`parseTemplateArg` returns the error of the first file of the listing whose
path, the directory path joined with its name, does not resolve, and no
error when every path resolves; when every path resolves (and the joined
keys are distinct) the result is exactly one entry per entry of the listing
that is not a directory, keyed by the alias joined with the name and holding
the URL resolved from the directory path joined with the name, with no entry
for a subdirectory. The path `pth` that names the directory is the path of
the URL when the locator, parsed as a URL, has a scheme, and the locator with
slashes normalised otherwise; it names a directory when it ends in '/' (the
cleaned path `dir` is listed) or when the cleaned path opens as a directory
(the path cleaned twice is listed). -/
theorem parseTemplateArg_directory (lib : Lib) (fsys : Fs) (a loc pth dir : String) (u : URL)
    (files : List FileInfo)
    (ha : '=' ∉ a.data)
    (hu : ParseSourceURL lib (lib.ToSlash loc) = .ok u) (hs : u.Scheme = "file")
    (hpth : (∃ p, lib.Parse (lib.ToSlash loc) = .ok p ∧ p.Scheme ≠ "" ∧ pth = u.Path) ∨
      ((∀ p, lib.Parse (lib.ToSlash loc) = .ok p → p.Scheme = "") ∧ pth = lib.ToSlash loc))
    (hdir : (HasSuffix pth "/" = true ∧ dir = lib.Clean pth) ∨
      (HasSuffix pth "/" = false ∧ dir = lib.Clean (lib.Clean pth) ∧
        ∃ f fi, fsys.Open (lib.Clean pth) = .ok f ∧ f.Stat = .ok fi ∧ fi.IsDir = true))
    (hl : fsys.ReadDir dir = .ok files) :
    (parseTemplateArg lib fsys (a ++ "=" ++ loc)).2 = firstUnresolved lib dir files ∧
    ((∀ f ∈ files, f.IsDir = false → ∃ uf, ParseSourceURL lib (lib.Join dir f.Name) = .ok uf) →
      ((plainFiles files).map (fun f => lib.Join a f.Name)).Nodup →
      parseTemplateArg lib fsys (a ++ "=" ++ loc) =
        (some ((plainFiles files).map (fun f =>
          (lib.Join a f.Name,
            { URL := (ParseSourceURL lib (lib.Join dir f.Name)).toOption }))), none)) := by
  rw [parseTemplateArg_lists lib fsys a loc pth dir u files ha hu hs hpth hdir hl]
  refine ⟨templateEntries_error lib dir a files [], fun hres hinj => ?_⟩
  have hloop := templateEntries_eq lib dir a files [] hres
    (by rw [keys_dirTemplates]; simpa [Entries.keys] using hinj)
  simp only [List.nil_append] at hloop
  exact hloop

theorem sampleListing_resolves (dir : String) (hd : dir = "/tmp/dir") :
    ∀ f ∈ sampleListing, f.IsDir = false →
      ∃ uf, ParseSourceURL posixLib (posixLib.Join dir f.Name) = .ok uf := by
  subst hd
  intro f hf hd
  simp only [sampleListing, List.mem_cons, List.mem_singleton, List.not_mem_nil,
    or_false] at hf
  rcases hf with e | e | e
  · subst e
    exact ⟨_, rfl⟩
  · subst e
    exact ⟨_, rfl⟩
  · subst e
    cases hd

/-- Witness of the amended claim C17: the directory with the files `a.txt`,
`b.txt` and the subdirectory `sub`, under the alias `tpl`, gives exactly the
two entries `tpl/a.txt` and `tpl/b.txt`, whether it is named by the URL
`file:///tmp/dir/`, by the path `/tmp/dir/` or by the path `/tmp/dir`. -/
theorem parseTemplateArg_directory_witness :
    parseTemplateArg posixLib sampleFs ("tpl" ++ "=" ++ "file:///tmp/dir/")
      = (sampleDirTemplates, none) ∧
    parseTemplateArg posixLib sampleFs ("tpl" ++ "=" ++ "/tmp/dir/")
      = (sampleDirTemplates, none) ∧
    parseTemplateArg posixLib sampleFs ("tpl" ++ "=" ++ "/tmp/dir")
      = (sampleDirTemplates, none) :=
  ⟨((parseTemplateArg_directory posixLib sampleFs "tpl" "file:///tmp/dir/" "/tmp/dir/"
      "/tmp/dir" sampleDirURL sampleListing (by decide) rfl rfl
      (Or.inl ⟨sampleDirURL, rfl, by decide, rfl⟩) (Or.inl ⟨by decide, rfl⟩) rfl).2
      (sampleListing_resolves "/tmp/dir" rfl) (by decide)).trans rfl,
    ((parseTemplateArg_directory posixLib sampleFs "tpl" "/tmp/dir/" "/tmp/dir/"
      "/tmp/dir" sampleDirURL sampleListing (by decide) rfl rfl
      (Or.inr ⟨fun p hp => by
        have e : p = { Path := "/tmp/dir/" } := by
          have h0 : posixLib.Parse (posixLib.ToSlash "/tmp/dir/") = .ok { Path := "/tmp/dir/" } :=
            rfl
          rw [h0] at hp
          injection hp with hp
          exact hp.symm
        rw [e], rfl⟩) (Or.inl ⟨by decide, rfl⟩) rfl).2
      (sampleListing_resolves "/tmp/dir" rfl) (by decide)).trans rfl,
    ((parseTemplateArg_directory posixLib sampleFs "tpl" "/tmp/dir" "/tmp/dir"
      "/tmp/dir" { Scheme := "file", Path := "/tmp/dir" } sampleListing (by decide) rfl rfl
      (Or.inr ⟨fun p hp => by
        have e : p = { Path := "/tmp/dir" } := by
          have h0 : posixLib.Parse (posixLib.ToSlash "/tmp/dir") = .ok { Path := "/tmp/dir" } :=
            rfl
          rw [h0] at hp
          injection hp with hp
          exact hp.symm
        rw [e], rfl⟩)
      (Or.inr ⟨by decide, rfl, { Stat := .ok { Name := "dir", IsDir := true } },
        { Name := "dir", IsDir := true }, rfl, rfl, rfl⟩) rfl).2
      (sampleListing_resolves "/tmp/dir" rfl) (by decide)).trans rfl⟩

/-- Counterexample to claim C17 as stated: the locator `./` resolves to a
`file` URL, ends in '/', and the listing of the directory succeeds with the
one file `1a:b`; the joined path `1a:b` is no valid URL (a colon in the first
path segment), so the call returns that error and no entry, not the entry
`tpl/1a:b`. -/
theorem parseTemplateArg_colon_counterexample :
    (ParseSourceURL posixLib (posixLib.ToSlash "./") = .ok { Scheme := "file", Path := "/work/" } ∧
      HasSuffix (posixLib.ToSlash "./") "/" = true ∧
      colonFs.ReadDir (posixLib.Clean (posixLib.ToSlash "./"))
        = .ok [{ Name := "1a:b", IsDir := false }] ∧
      posixLib.Join (posixLib.Clean (posixLib.ToSlash "./")) "1a:b" = "1a:b" ∧
      ParseSourceURL posixLib "1a:b"
        = .error (.lib "first path segment in URL cannot contain colon") ∧
      parseTemplateArg posixLib colonFs ("tpl" ++ "=" ++ "./")
        = (some [], some (.lib "first path segment in URL cannot contain colon"))) ∧
    ¬ (∀ (lib : Lib) (fsys : Fs) (a loc : String) (u : URL) (files : List FileInfo),
      '=' ∉ a.data → ParseSourceURL lib (lib.ToSlash loc) = .ok u → u.Scheme = "file" →
      (∀ p, lib.Parse (lib.ToSlash loc) = .ok p → p.Scheme = "") →
      HasSuffix (lib.ToSlash loc) "/" = true →
      fsys.ReadDir (lib.Clean (lib.ToSlash loc)) = .ok files →
      (parseTemplateArg lib fsys (a ++ "=" ++ loc)).1.map Entries.keys
        = some ((plainFiles files).map (fun f => lib.Join a f.Name))) := by
  have h6 : parseTemplateArg posixLib colonFs ("tpl" ++ "=" ++ "./")
      = (some [], some (.lib "first path segment in URL cannot contain colon")) := rfl
  refine ⟨⟨rfl, by decide, rfl, by decide, rfl, h6⟩, fun hall => ?_⟩
  have h := hall posixLib colonFs "tpl" "./" { Scheme := "file", Path := "/work/" }
    [{ Name := "1a:b", IsDir := false }] (by decide) rfl rfl
    (fun p hp => by
      have e : p = { Path := "./" } := by
        have h0 : posixLib.Parse (posixLib.ToSlash "./") = .ok { Path := "./" } := rfl
        rw [h0] at hp
        injection hp with hp
        exact hp.symm
      rw [e])
    (by decide) rfl
  rw [h6] at h
  revert h
  decide

/-! ## Facts about the source locator -/

/-- Claim C18: `ParseSourceURL("-")` succeeds with the stdin URL, scheme
"stdin" with empty host and path, whatever the working directory is. The
library facts used: "stdin://" is unchanged by `ToSlash`, has no volume name,
and `url.Parse` reads it as the URL with scheme "stdin" alone. -/
theorem ParseSourceURL_stdin (lib : Lib) (hs : lib.ToSlash "stdin://" = "stdin://")
    (hv : lib.VolumeName "stdin://" = "")
    (hp : lib.Parse "stdin://" = .ok { Scheme := "stdin" }) :
    ParseSourceURL lib "-" = .ok { Scheme := "stdin", Host := "", Path := "" } ∧
    (∀ wd, ParseSourceURL { lib with Getwd := wd } "-"
      = .ok { Scheme := "stdin", Host := "", Path := "" }) := by
  have key : ∀ l : Lib, l.ToSlash = lib.ToSlash → l.VolumeName = lib.VolumeName →
      l.Parse = lib.Parse → ParseSourceURL l "-" = .ok { Scheme := "stdin" } := by
    intro l e1 e2 e3
    unfold ParseSourceURL parseResolved
    simp only [if_true, e1, e2, e3, hs, hv, hp, ne_eq, not_true_eq_false, if_false]
    simp [stripDriveSlash, URL.IsAbs]
  exact ⟨key lib rfl rfl rfl, fun wd => key _ rfl rfl rfl⟩

/-- Witness of claim C18: the POSIX sample library. -/
theorem ParseSourceURL_stdin_witness :
    ParseSourceURL posixLib "-" = .ok { Scheme := "stdin", Host := "", Path := "" } :=
  (ParseSourceURL_stdin posixLib rfl rfl rfl).1

theorem stripDriveSlash_Scheme (vol : String) (u : URL) :
    (stripDriveSlash vol u).Scheme = u.Scheme := by
  unfold stripDriveSlash
  split
  · split <;> rfl
  · rfl

/-- A URL returned by `absFileURL` has the scheme the library's
`ResolveReference` gives it. -/
theorem absFileURL_Scheme (lib : Lib) (value : String) (u : URL)
    (h : absFileURL lib value = .ok u) :
    ∃ base rel, lib.Parse value = .ok rel ∧ base.Scheme = "file" ∧
      u.Scheme = (lib.ResolveReference base rel).Scheme := by
  unfold absFileURL at h
  split at h
  · cases h
  rename_i wd _
  split at h
  · cases h
  rename_i rel hrel
  refine ⟨{ Scheme := "file", Path := lib.ToSlash (lib.Clean (lib.ToSlash wd)) ++ "/" }, rel, hrel,
    rfl, ?_⟩
  dsimp only at h
  split at h
  · split at h
    · cases h
    · split at h
      · split at h
        · injection h with h
          rw [← h]
        · cases h
      · injection h with h
        rw [← h]
  · injection h with h
    rw [← h]

theorem parseResolved_IsAbs (lib : Lib) (vol value : String) (u : URL)
    (hres : ∀ b r : URL, r.Scheme = "" → (lib.ResolveReference b r).Scheme = b.Scheme)
    (h : parseResolved lib vol value = .ok u) : u.Scheme ≠ "" := by
  unfold parseResolved at h
  split at h
  · cases h
  rename_i src hsrc
  by_cases hab : (stripDriveSlash vol src).IsAbs = true
  · simp only [hab, Bool.not_true, Bool.false_eq_true, if_false, Except.ok.injEq] at h
    subst h
    simpa [URL.IsAbs] using hab
  · have hab' : (stripDriveSlash vol src).IsAbs = false := by simpa using hab
    simp only [hab', Bool.not_false, if_true] at h
    obtain ⟨base, rel, hrel, hb, hu⟩ := absFileURL_Scheme lib value u h
    rw [hsrc] at hrel
    injection hrel with hrel
    subst hrel
    have hsch : src.Scheme = "" := by
      simpa [URL.IsAbs, stripDriveSlash_Scheme] using hab'
    rw [hu, hres base src hsch, hb]
    decide

/-- Every URL returned by `ParseSourceURL` is absolute, provided the
library's `ResolveReference` gives a reference without scheme the scheme of
its base. -/
theorem ParseSourceURL_IsAbs (lib : Lib) (s : String) (u : URL)
    (hres : ∀ b r : URL, r.Scheme = "" → (lib.ResolveReference b r).Scheme = b.Scheme)
    (h : ParseSourceURL lib s = .ok u) : u.Scheme ≠ "" :=
  parseResolved_IsAbs lib _ _ u hres h

/-- An absolute locator without volume name is returned as the library
parses it. -/
theorem ParseSourceURL_absolute (lib : Lib) (t : String) (u : URL) (hne : t ≠ "-")
    (hslash : lib.ToSlash t = t) (hvol : lib.VolumeName t = "") (hp : lib.Parse t = .ok u)
    (habs : u.Scheme ≠ "") : ParseSourceURL lib t = .ok u := by
  unfold ParseSourceURL parseResolved
  simp only [hne, if_false, hslash, hvol, ne_eq, not_true_eq_false, hp]
  simp [stripDriveSlash, URL.IsAbs, habs]

/-- The sample `ResolveReference` gives a reference without scheme the
scheme of its base. -/
theorem resolveReference_Scheme (b r : URL) (hr : r.Scheme = "") :
    (resolveReference b r).Scheme = b.Scheme := by
  unfold resolveReference
  simp only [hr, if_true, apply_ite URL.Scheme, ite_self]

/-! ## The reduced URL library reads back what it prints -/

theorem mem_upperLetters (c : Char) (h : c.toNat ≥ 65 ∧ c.toNat ≤ 90) : c ∈ upperLetters := by
  have hc : c = Char.ofNat c.toNat := (Char.ofNat_toNat c).symm
  obtain ⟨h1, h2⟩ := h
  generalize c.toNat = n at hc h1 h2
  subst hc
  interval_cases n <;> decide

theorem toLower_facts (c : Char) :
    (c.isAlpha = true → c.toLower.isAlpha = true) ∧
    (c.isAlpha = false → c.toLower = c) ∧
    c.toLower.toLower = c.toLower := by
  by_cases h : c.toNat ≥ 65 ∧ c.toNat ≤ 90
  · have hm := mem_upperLetters c h
    have hall : ∀ d ∈ upperLetters, (d.isAlpha = true → d.toLower.isAlpha = true) ∧
        (d.isAlpha = false → d.toLower = d) ∧ d.toLower.toLower = d.toLower := by decide
    exact hall c hm
  · have e : c.toLower = c := by
      unfold Char.toLower
      simp only [h, if_false]
    rw [e, e]
    exact ⟨fun h => h, fun _ => rfl, rfl⟩

theorem getSchemeLoop_scan (whole rest : List Char) :
    ∀ (mid seen : List Char), mid.all schemeChar = true →
      (seen ≠ [] ∨ ∃ c t, mid = c :: t ∧ c.isAlpha = true) →
      getSchemeLoop whole seen (mid ++ ':' :: rest) = some (seen.reverse ++ mid, rest) := by
  intro mid
  induction mid with
  | nil =>
    intro seen _ hs
    have hne : seen ≠ [] := by
      rcases hs with h | ⟨c, t, h, _⟩
      · exact h
      · cases h
    have h1 : (':' : Char).isAlpha = false := by decide
    have h2 : ¬ ((':' : Char).isDigit = true ∨ (':' : Char) = '+' ∨ (':' : Char) = '-' ∨
        (':' : Char) = '.') := by decide
    simp only [List.nil_append, getSchemeLoop, h1, Bool.false_eq_true, if_false, h2, if_true, hne,
      List.append_nil]
  | cons c t ih =>
    intro seen hall hs
    simp only [List.all_cons, Bool.and_eq_true] at hall
    obtain ⟨hc, ht⟩ := hall
    have hrec : getSchemeLoop whole (c :: seen) (t ++ ':' :: rest)
        = some (seen.reverse ++ c :: t, rest) := by
      rw [ih (c :: seen) ht (Or.inl (List.cons_ne_nil _ _))]
      simp
    by_cases ha : c.isAlpha = true
    · simp only [List.cons_append, getSchemeLoop, ha, if_true]
      exact hrec
    · have hne : seen ≠ [] := by
        rcases hs with h | ⟨c', t', h, hal⟩
        · exact h
        · injection h with h1 h2
          subst h1
          exact absurd hal ha
      have hd : c.isDigit = true ∨ c = '+' ∨ c = '-' ∨ c = '.' := by
        simp only [schemeChar, Bool.or_eq_true, decide_eq_true_eq] at hc
        tauto
      simp only [List.cons_append, getSchemeLoop, ha, Bool.false_eq_true, if_false, hd, if_true,
        hne]
      exact hrec

theorem getSchemeLoop_inv (whole : List Char) :
    ∀ (cs seen sch rest : List Char), getSchemeLoop whole seen cs = some (sch, rest) → sch ≠ [] →
      ∃ mid, sch = seen.reverse ++ mid ∧ cs = mid ++ ':' :: rest ∧ mid.all schemeChar = true ∧
        (seen ≠ [] ∨ ∃ c t, mid = c :: t ∧ c.isAlpha = true) := by
  intro cs
  induction cs with
  | nil =>
    intro seen sch rest h hne
    simp only [getSchemeLoop, Option.some.injEq, Prod.mk.injEq] at h
    exact absurd h.1.symm hne
  | cons c cs ih =>
    intro seen sch rest h hne
    unfold getSchemeLoop at h
    by_cases ha : c.isAlpha = true
    · simp only [ha, if_true] at h
      obtain ⟨mid, e1, e2, e3, _⟩ := ih (c :: seen) sch rest h hne
      refine ⟨c :: mid, ?_, ?_, ?_, Or.inr ⟨c, mid, rfl, ha⟩⟩
      · rw [e1]
        simp
      · rw [e2]
        rfl
      · simp [e3, schemeChar, ha]
    · simp only [ha, Bool.false_eq_true, if_false] at h
      by_cases hd : c.isDigit = true ∨ c = '+' ∨ c = '-' ∨ c = '.'
      · simp only [hd, if_true] at h
        by_cases hs : seen = []
        · simp only [hs, if_true, Option.some.injEq, Prod.mk.injEq] at h
          exact absurd h.1.symm hne
        · simp only [hs, if_false] at h
          obtain ⟨mid, e1, e2, e3, _⟩ := ih (c :: seen) sch rest h hne
          refine ⟨c :: mid, ?_, ?_, ?_, Or.inl hs⟩
          · rw [e1]
            simp
          · rw [e2]
            rfl
          · have hc : schemeChar c = true := by
              simp only [schemeChar, Bool.or_eq_true, decide_eq_true_eq]
              tauto
            simp [e3, hc]
      · simp only [hd, if_false] at h
        by_cases hcol : c = ':'
        · simp only [hcol, if_true] at h
          by_cases hs : seen = []
          · simp [hs] at h
          · simp only [hs, if_false, Option.some.injEq, Prod.mk.injEq] at h
            refine ⟨[], ?_, ?_, rfl, Or.inl hs⟩
            · simp [h.1]
            · simp [hcol, h.2]
        · simp only [hcol, if_false, Option.some.injEq, Prod.mk.injEq] at h
          exact absurd h.1.symm hne

theorem getSchemeLoop_no_scheme (whole : List Char) :
    ∀ (cs seen rest : List Char), getSchemeLoop whole seen cs = some ([], rest) →
      rest = whole := by
  intro cs
  induction cs with
  | nil =>
    intro seen rest h
    simp only [getSchemeLoop, Option.some.injEq, Prod.mk.injEq] at h
    exact h.2.symm
  | cons c cs ih =>
    intro seen rest h
    unfold getSchemeLoop at h
    by_cases ha : c.isAlpha = true
    · simp only [ha, if_true] at h
      exact ih _ _ h
    · simp only [ha, Bool.false_eq_true, if_false] at h
      by_cases hd : c.isDigit = true ∨ c = '+' ∨ c = '-' ∨ c = '.'
      · simp only [hd, if_true] at h
        by_cases hs : seen = []
        · simp only [hs, if_true, Option.some.injEq, Prod.mk.injEq] at h
          exact h.2.symm
        · simp only [hs, if_false] at h
          exact ih _ _ h
      · simp only [hd, if_false] at h
        by_cases hcol : c = ':'
        · simp only [hcol, if_true] at h
          by_cases hs : seen = []
          · simp [hs] at h
          · simp only [hs, if_false, Option.some.injEq, Prod.mk.injEq] at h
            exact absurd (List.reverse_eq_nil_iff.mp h.1) hs
        · simp only [hcol, if_false, Option.some.injEq, Prod.mk.injEq] at h
          exact h.2.symm

theorem schemeChar_plain (c : Char) (h : schemeChar c = true) : plainChar c = true := by
  simp only [schemeChar, Bool.or_eq_true, decide_eq_true_eq] at h
  simp only [plainChar, Char.isAlphanum, Bool.or_eq_true, decide_eq_true_eq]
  tauto

theorem schemeChar_toLower (c : Char) (h : schemeChar c = true) :
    schemeChar c.toLower = true := by
  by_cases ha : c.isAlpha = true
  · simp [schemeChar, (toLower_facts c).1 ha]
  · have ha' : c.isAlpha = false := by simpa using ha
    rw [(toLower_facts c).2.1 ha']
    exact h

theorem PlainText_of_scheme (S : List Char) (h : S.all schemeChar = true) : PlainText S := by
  unfold PlainText
  rw [List.all_eq_true] at h ⊢
  exact fun c hc => schemeChar_plain c (h c hc)

theorem PlainText_sublist {l1 l2 : List Char} (hs : l1.Sublist l2) (h : PlainText l2) :
    PlainText l1 := by
  unfold PlainText at h ⊢
  rw [List.all_eq_true] at h ⊢
  exact fun c hc => h c (hs.subset hc)

theorem PlainText_append (l1 l2 : List Char) :
    PlainText (l1 ++ l2) ↔ PlainText l1 ∧ PlainText l2 := by
  unfold PlainText
  simp [List.all_append]

theorem PlainText_cons (c : Char) (l : List Char) :
    PlainText (c :: l) ↔ plainChar c = true ∧ PlainText l := by
  unfold PlainText
  simp [List.all_cons]

theorem SchemeText_lower (sch : List Char) (h1 : ∃ c t, sch = c :: t ∧ c.isAlpha = true)
    (h2 : sch.all schemeChar = true) : SchemeText (sch.map Char.toLower) := by
  obtain ⟨c, t, e, ha⟩ := h1
  refine ⟨⟨c.toLower, t.map Char.toLower, by rw [e]; rfl, (toLower_facts c).1 ha⟩, ?_, ?_⟩
  · rw [List.all_eq_true] at h2 ⊢
    intro x hx
    obtain ⟨y, hy, e'⟩ := List.mem_map.mp hx
    rw [← e']
    exact schemeChar_toLower y (h2 y hy)
  · rw [List.map_map]
    apply List.map_congr_left
    intro x _
    exact (toLower_facts x).2.2

theorem takeWhile_append_stop (p : Char → Bool) (A P : List Char) (hA : ∀ a ∈ A, p a = true)
    (hP : P = [] ∨ ∃ c t, P = c :: t ∧ p c = false) :
    (A ++ P).takeWhile p = A ∧ (A ++ P).dropWhile p = P := by
  induction A with
  | nil =>
    rcases hP with e | ⟨c, t, e, hc⟩
    · subst e
      simp
    · subst e
      simp [List.takeWhile_cons, List.dropWhile_cons, hc]
  | cons a A ih =>
    have ha : p a = true := hA a (List.mem_cons_self _ _)
    have ih' := ih (fun x hx => hA x (List.mem_cons_of_mem _ hx))
    simp [List.takeWhile_cons, List.dropWhile_cons, ha, ih'.1, ih'.2]

theorem String.mk_ne_empty (c : Char) (t : List Char) : String.mk (c :: t) ≠ "" := by
  intro h
  have := congrArg String.data h
  simp at this

theorem String.mk_eq_empty_iff (l : List Char) : String.mk l = "" ↔ l = [] := by
  constructor
  · intro h
    have := congrArg String.data h
    simpa using this
  · intro h
    subst h
    rfl

theorem String.eq_empty_iff_data (s : String) : s = "" ↔ s.data = [] := by
  constructor
  · intro h
    subst h
    rfl
  · intro h
    cases s
    simp only at h
    subst h
    rfl

/-- Reading back an absolute URL with an authority. -/
theorem parseURL_authority (S A P : List Char) (hS : SchemeText S) (hA : HostText A)
    (hP : PathText P) :
    parseURL (String.mk (S ++ ':' :: '/' :: '/' :: (A ++ P))) =
      .ok { Scheme := String.mk S, Host := String.mk A, Path := String.mk P } := by
  obtain ⟨⟨c, t, eS, hc⟩, hS2, hS3⟩ := hS
  obtain ⟨hA1, hA2, hA3⟩ := hA
  obtain ⟨hP1, hP2⟩ := hP
  have hplain : (S ++ ':' :: '/' :: '/' :: (A ++ P)).all plainChar = true := by
    have := PlainText_of_scheme S hS2
    unfold PlainText at this hA1 hP1
    simp [List.all_append, this, hA1, hP1, plainChar]
  have hscan := getSchemeLoop_scan (S ++ ':' :: '/' :: '/' :: (A ++ P)) ('/' :: '/' :: (A ++ P))
    S [] hS2 (Or.inr ⟨c, t, eS, hc⟩)
  have htd := takeWhile_append_stop (fun c => decide (c ≠ '/')) A P
    (fun a ha => by
      have : a ≠ '/' := fun e => hA2 (e ▸ ha)
      simpa using this)
    (by
      rcases hP2 with e | ⟨t', e⟩
      · exact Or.inl e
      · exact Or.inr ⟨'/', t', e, by simp⟩)
  have hne : String.mk S ≠ "" := by
    rw [eS]
    exact String.mk_ne_empty c t
  unfold parseURL
  simp only [hplain, Bool.not_true, Bool.false_eq_true, if_false, hscan, List.reverse_nil,
    List.nil_append, hS3]
  have hp1 : HasPrefix (String.mk ('/' :: '/' :: (A ++ P))) "/" = true := by
    simp [HasPrefix, List.isPrefixOf]
  have hp2 : HasPrefix (String.mk ('/' :: '/' :: (A ++ P))) "//" = true := by
    simp [HasPrefix, List.isPrefixOf]
  simp only [hp1, hp2, Bool.not_true, Bool.false_eq_true, if_false, ne_eq, hne, not_false_eq_true,
    true_or, and_self, if_true, List.drop_succ_cons, List.drop_zero, htd.1, htd.2, hA3]

/-- Reading back an absolute URL with an opaque part. -/
theorem parseURL_opaquePart (S O : List Char) (hS : SchemeText S) (hO : OpaqueText O) :
    parseURL (String.mk (S ++ ':' :: O)) = .ok { Scheme := String.mk S, Opaque := String.mk O } := by
  obtain ⟨⟨c, t, eS, hc⟩, hS2, hS3⟩ := hS
  obtain ⟨hO1, hO2⟩ := hO
  have hplain : (S ++ ':' :: O).all plainChar = true := by
    have := PlainText_of_scheme S hS2
    unfold PlainText at this hO1
    simp [List.all_append, this, hO1, plainChar]
  have hscan := getSchemeLoop_scan (S ++ ':' :: O) O S [] hS2 (Or.inr ⟨c, t, eS, hc⟩)
  have hne : String.mk S ≠ "" := by
    rw [eS]
    exact String.mk_ne_empty c t
  have hp1 : HasPrefix (String.mk O) "/" = false := by
    cases O with
    | nil => simp [HasPrefix, List.isPrefixOf]
    | cons x xs =>
      have : x ≠ '/' := fun e => hO2 xs (by rw [e])
      simp [HasPrefix, List.isPrefixOf, this]
      exact fun e => this e.symm
  unfold parseURL
  simp only [hplain, Bool.not_true, Bool.false_eq_true, if_false, hscan, List.reverse_nil,
    List.nil_append, hS3, hp1, Bool.not_false, if_true, ne_eq, hne, not_false_eq_true]

theorem OpaqueText_nil : OpaqueText [] := by
  refine ⟨rfl, fun t h => ?_⟩
  cases h

theorem HostText_nil : HostText [] := by
  refine ⟨rfl, by simp, by decide⟩

theorem URL.eq_of_fields (u v : URL) (h1 : u.Scheme = v.Scheme) (h2 : u.Opaque = v.Opaque)
    (h3 : u.Host = v.Host) (h4 : u.Path = v.Path) (h5 : u.RawQuery = v.RawQuery)
    (h6 : u.Fragment = v.Fragment) : u = v := by
  cases u
  cases v
  simp only at h1 h2 h3 h4 h5 h6
  subst h1 h2 h3 h4 h5 h6
  rfl

/-- The string form of a URL with a scheme and neither host nor path. -/
theorem urlString_opaquePart (u : URL) (hs : u.Scheme ≠ "") (hh : u.Host = "") (hp : u.Path = "") :
    urlString u = String.mk (u.Scheme.data ++ ':' :: u.Opaque.data) := by
  unfold urlString
  by_cases ho : u.Opaque = ""
  · simp only [hs, hh, hp, ho, ne_eq, not_true_eq_false, not_false_eq_true, if_true, if_false,
      or_self, and_false, false_and, and_self]
    apply String.ext
    simp [String.data_append]
  · simp only [hs, ho, ne_eq, not_false_eq_true, if_true]
    apply String.ext
    simp [String.data_append]

/-- The string form of a URL with a scheme and a host or a path that is
empty or starts with a slash. -/
theorem urlString_authority (u : URL) (hs : u.Scheme ≠ "") (ho : u.Opaque = "")
    (hne : ¬ (u.Host = "" ∧ u.Path = "")) (hp : u.Path.data = [] ∨ ∃ t, u.Path.data = '/' :: t) :
    urlString u = String.mk (u.Scheme.data ++ ':' :: '/' :: '/' :: (u.Host.data ++ u.Path.data)) := by
  have hsl : (u.Host ≠ "" ∨ u.Path ≠ "") := by
    by_contra hc
    push_neg at hc
    exact hne hc
  have hsep : ¬ (u.Path ≠ "" ∧ (!HasPrefix u.Path "/") = true ∧ u.Host ≠ "") := by
    rintro ⟨h1, h2, -⟩
    rcases hp with e | ⟨t, e⟩
    · exact h1 ((String.eq_empty_iff_data _).mpr e)
    · simp [HasPrefix, e, List.isPrefixOf] at h2
  unfold urlString
  simp only [hs, ho, ne_eq, not_true_eq_false, not_false_eq_true, if_true, if_false, true_or,
    hsl, and_self, false_and]
  rw [if_neg hsep]
  apply String.ext
  simp [String.data_append]

/-- A URL of the reduced model with a scheme is read back from its string
form. -/
theorem parseURL_urlString (u : URL) (h : u.Printable) : parseURL (urlString u) = .ok u := by
  obtain ⟨hS, hq, hf, hcase⟩ := h
  have hs : u.Scheme ≠ "" := by
    obtain ⟨⟨c, t, e, -⟩, -⟩ := hS
    intro h0
    rw [(String.eq_empty_iff_data _).mp h0] at e
    cases e
  by_cases hne : u.Host = "" ∧ u.Path = ""
  · have hO : OpaqueText u.Opaque.data := by
      rcases hcase with ⟨-, -, hO⟩ | ⟨ho, -, -⟩
      · exact hO
      · rw [ho]
        exact OpaqueText_nil
    rw [urlString_opaquePart u hs hne.1 hne.2, parseURL_opaquePart _ _ hS hO]
    congr 1
    exact URL.eq_of_fields _ _ rfl rfl hne.1.symm hne.2.symm hq.symm hf.symm
  · rcases hcase with ⟨h1, h2, -⟩ | ⟨ho, hA, hP⟩
    · exact absurd ⟨h1, h2⟩ hne
    · rw [urlString_authority u hs ho hne hP.2, parseURL_authority _ _ _ hS hA hP]
      congr 1
      exact URL.eq_of_fields _ _ rfl ho.symm rfl rfl hq.symm hf.symm

theorem PlainText_iff (l : List Char) : PlainText l ↔ ∀ c ∈ l, plainChar c = true := by
  unfold PlainText
  rw [List.all_eq_true]

theorem dropWhile_head (p : Char → Bool) (l : List Char) :
    l.dropWhile p = [] ∨ ∃ c t, l.dropWhile p = c :: t ∧ p c = false := by
  induction l with
  | nil => exact Or.inl rfl
  | cons a l ih =>
    by_cases ha : p a = true
    · simpa [List.dropWhile_cons, ha] using ih
    · have ha' : p a = false := by simpa using ha
      exact Or.inr ⟨a, l, by simp [List.dropWhile_cons, ha'], ha'⟩

theorem HostText_takeWhile (l : List Char) (hl : PlainText l)
    (hv : validOptionalPort (colonPort (l.takeWhile (fun c => decide (c ≠ '/')))) = true) :
    HostText (l.takeWhile (fun c => decide (c ≠ '/'))) := by
  refine ⟨PlainText_sublist (List.takeWhile_sublist _) hl, ?_, hv⟩
  intro hm
  have := List.mem_takeWhile_imp hm
  simp at this

theorem PathText_dropWhile (l : List Char) (hl : PlainText l) :
    PathText (l.dropWhile (fun c => decide (c ≠ '/'))) := by
  refine ⟨PlainText_sublist (List.dropWhile_sublist _) hl, ?_⟩
  rcases dropWhile_head (fun c => decide (c ≠ '/')) l with e | ⟨c, t, e, hc⟩
  · exact Or.inl e
  · have hc' : c = '/' := by simpa using hc
    exact Or.inr ⟨t, by rw [e, hc']⟩

/-- What `url.Parse` returns in the reduced model: a URL with a scheme that
is read back from its string form, or a URL without scheme made of a host and
a path. With a scheme, the text starts with that scheme, in any case, and a
colon. -/
theorem parseURL_shape (raw : String) (v : URL) (h : parseURL raw = .ok v) :
    (v.Printable ∧ ∃ sch rest, raw.data = sch ++ ':' :: rest ∧
        v.Scheme.data = sch.map Char.toLower) ∨
      (v.Scheme = "" ∧ v.Opaque = "" ∧ v.RawQuery = "" ∧ v.Fragment = "" ∧
        HostText v.Host.data ∧ PlainText v.Path.data) := by
  unfold parseURL at h
  by_cases hpl : raw.data.all plainChar = true
  swap
  · simp [hpl] at h
  simp only [hpl, Bool.not_true, Bool.false_eq_true, if_false] at h
  cases hg : getSchemeLoop raw.data [] raw.data with
  | none => simp [hg] at h
  | some p =>
    obtain ⟨sch, rest⟩ := p
    simp only [hg] at h
    by_cases hsch : sch = []
    · subst hsch
      have hrest : rest = raw.data := getSchemeLoop_no_scheme _ _ _ _ hg
      have hpr : PlainText rest := by rw [hrest]; exact hpl
      right
      simp only [List.map_nil, ne_eq] at h
      have he : String.mk [] = "" := rfl
      simp only [he, not_true_eq_false, if_false, false_or] at h
      split at h
      · split at h
        · cases h
        · injection h with h
          subst h
          exact ⟨rfl, rfl, rfl, rfl, HostText_nil, hpr⟩
      · split at h
        · split at h
          · cases h
          · injection h with h
            subst h
            rename_i hv
            have hv' : validOptionalPort (colonPort
                ((rest.drop 2).takeWhile (fun c => decide (c ≠ '/')))) = true := by
              simpa using hv
            exact ⟨rfl, rfl, rfl, rfl,
              HostText_takeWhile _ (PlainText_sublist (List.drop_sublist _ _) hpr) hv',
              (PathText_dropWhile _ (PlainText_sublist (List.drop_sublist _ _) hpr)).1⟩
        · injection h with h
          subst h
          exact ⟨rfl, rfl, rfl, rfl, HostText_nil, hpr⟩
    · obtain ⟨mid, e1, e2, e3, e4⟩ := getSchemeLoop_inv _ _ _ _ _ hg hsch
      simp only [List.reverse_nil, List.nil_append] at e1
      subst e1
      have hhead : ∃ c t, sch = c :: t ∧ c.isAlpha = true := by
        rcases e4 with h0 | h0
        · exact absurd rfl h0
        · exact h0
      have hST := SchemeText_lower sch hhead e3
      have hpr : PlainText rest := by
        have : PlainText (sch ++ ':' :: rest) := by rw [← e2]; exact hpl
        exact ((PlainText_cons _ _).mp ((PlainText_append _ _).mp this).2).2
      have hne : String.mk (sch.map Char.toLower) ≠ "" := by
        obtain ⟨⟨c, t, e, -⟩, -⟩ := hST
        rw [e]
        exact String.mk_ne_empty c t
      left
      simp only [ne_eq, hne, not_false_eq_true, if_true, true_or, true_and] at h
      split at h
      · injection h with h
        subst h
        rename_i hp
        refine ⟨⟨hST, rfl, rfl, Or.inl ⟨rfl, rfl, hpr, ?_⟩⟩, sch, rest, e2, rfl⟩
        intro t ht
        have ht' : rest = '/' :: t := ht
        simp [HasPrefix, ht', List.isPrefixOf] at hp
      · split at h
        · split at h
          · cases h
          · injection h with h
            subst h
            rename_i hv
            have hv' : validOptionalPort (colonPort
                ((rest.drop 2).takeWhile (fun c => decide (c ≠ '/')))) = true := by
              simpa using hv
            exact ⟨⟨hST, rfl, rfl, Or.inr ⟨rfl,
              HostText_takeWhile _ (PlainText_sublist (List.drop_sublist _ _) hpr) hv',
              PathText_dropWhile _ (PlainText_sublist (List.drop_sublist _ _) hpr)⟩⟩,
              sch, rest, e2, rfl⟩
        · cases h

theorem splitSegs_plain : ∀ (cs cur : List Char), PlainText cs → PlainText cur →
    ∀ seg ∈ splitSegs cs cur, PlainText seg := by
  intro cs
  induction cs with
  | nil =>
    intro cur _ hcur seg hseg
    simp only [splitSegs, List.mem_singleton] at hseg
    subst hseg
    rw [PlainText_iff] at hcur ⊢
    exact fun c hc => hcur c (List.mem_reverse.mp hc)
  | cons c cs ih =>
    intro cur hcs hcur seg hseg
    obtain ⟨hc, hcs'⟩ := (PlainText_cons _ _).mp hcs
    unfold splitSegs at hseg
    by_cases e : c = '/'
    · simp only [e, if_true, List.mem_cons] at hseg
      rcases hseg with h | h
      · subst h
        rw [PlainText_iff] at hcur ⊢
        exact fun c hc => hcur c (List.mem_reverse.mp hc)
      · exact ih [] hcs' rfl seg h
    · simp only [e, if_false] at hseg
      exact ih (c :: cur) hcs' ((PlainText_cons _ _).mpr ⟨hc, hcur⟩) seg hseg

theorem beforeLastSlash_plain (cs kept : List Char) (h : beforeLastSlash cs = some kept)
    (hcs : PlainText cs) : PlainText kept := by
  unfold beforeLastSlash at h
  split at h
  · injection h with h
    subst h
    rw [PlainText_iff] at hcs ⊢
    intro c hc
    have h1 := List.mem_reverse.mp hc
    have h2 := (List.drop_sublist _ _).subset h1
    have h3 := (List.dropWhile_sublist _).subset h2
    exact hcs c (List.mem_reverse.mp h3)
  · cases h

theorem resolveSegs_plain : ∀ (elems : List (List Char)) (dst : List Char) (first : Bool),
    PlainText dst → (∀ e ∈ elems, PlainText e) → PlainText (resolveSegs dst first elems) := by
  intro elems
  induction elems with
  | nil =>
    intro dst first hd _
    exact hd
  | cons elem rest ih =>
    intro dst first hd he
    have hrest : ∀ e ∈ rest, PlainText e := fun e h => he e (List.mem_cons_of_mem _ h)
    have helem : PlainText elem := he elem (List.mem_cons_self _ _)
    unfold resolveSegs
    split
    · exact ih dst false hd hrest
    · split
      · split
        · exact ih ['/'] true rfl hrest
        · rename_i kept hk
          exact ih _ first ((PlainText_cons _ _).mpr ⟨rfl,
            beforeLastSlash_plain _ kept hk (PlainText_sublist (List.drop_sublist _ _) hd)⟩) hrest
      · apply ih _ false _ hrest
        rw [PlainText_append]
        refine ⟨hd, ?_⟩
        split
        · exact helem
        · exact (PlainText_cons _ _).mpr ⟨rfl, helem⟩

theorem resolveSegs_head : ∀ (elems : List (List Char)) (dst : List Char) (first : Bool),
    (∃ t, dst = '/' :: t) → ∃ t, resolveSegs dst first elems = '/' :: t := by
  intro elems
  induction elems with
  | nil =>
    intro dst first hd
    exact hd
  | cons elem rest ih =>
    intro dst first hd
    unfold resolveSegs
    split
    · exact ih dst false hd
    · split
      · split
        · exact ih ['/'] true ⟨[], rfl⟩
        · exact ih _ first ⟨_, rfl⟩
      · obtain ⟨t, e⟩ := hd
        exact ih _ false ⟨t ++ (if first = true then elem else '/' :: elem), by rw [e]; rfl⟩

/-- The path `resolvePath` returns is plain text that is empty or starts with
a slash. -/
theorem resolvePath_PathText (base ref : String) (hb : PlainText base.data)
    (hr : PlainText ref.data) : PathText (resolvePath base ref).data := by
  unfold resolvePath
  have hfull : PlainText (if ref = "" then base.data
      else if (!HasPrefix ref "/") = true then
        (base.data.reverse.dropWhile (fun c => decide (c ≠ '/'))).reverse ++ ref.data
      else ref.data) := by
    split
    · exact hb
    · split
      · rw [PlainText_append]
        refine ⟨?_, hr⟩
        rw [PlainText_iff] at hb ⊢
        intro c hc
        exact hb c (List.mem_reverse.mp ((List.dropWhile_sublist _).subset (List.mem_reverse.mp hc)))
      · exact hr
  generalize (if ref = "" then base.data
      else if (!HasPrefix ref "/") = true then
        (base.data.reverse.dropWhile (fun c => decide (c ≠ '/'))).reverse ++ ref.data
      else ref.data) = full at hfull
  dsimp only
  split
  · exact ⟨rfl, Or.inl rfl⟩
  · have hsegs := splitSegs_plain full [] hfull rfl
    have hp0 := resolveSegs_plain (splitSegs full []) ['/'] true rfl hsegs
    obtain ⟨t0, ht0⟩ := resolveSegs_head (splitSegs full []) ['/'] true ⟨[], rfl⟩
    have hdst : PlainText (if (splitSegs full []).getLastD [] = ['.'] ∨
          (splitSegs full []).getLastD [] = ['.', '.'] then
          resolveSegs ['/'] true (splitSegs full []) ++ ['/']
        else resolveSegs ['/'] true (splitSegs full [])) ∧
        ∃ t, (if (splitSegs full []).getLastD [] = ['.'] ∨
          (splitSegs full []).getLastD [] = ['.', '.'] then
          resolveSegs ['/'] true (splitSegs full []) ++ ['/']
        else resolveSegs ['/'] true (splitSegs full [])) = '/' :: t := by
      split
      · exact ⟨(PlainText_append _ _).mpr ⟨hp0, rfl⟩, t0 ++ ['/'], by rw [ht0]; rfl⟩
      · exact ⟨hp0, t0, ht0⟩
    generalize (if (splitSegs full []).getLastD [] = ['.'] ∨
          (splitSegs full []).getLastD [] = ['.', '.'] then
          resolveSegs ['/'] true (splitSegs full []) ++ ['/']
        else resolveSegs ['/'] true (splitSegs full [])) = dst at hdst
    obtain ⟨hd1, t, hd2⟩ := hdst
    split
    · rename_i x more
      refine ⟨?_, Or.inr ⟨more, rfl⟩⟩
      have := ((PlainText_cons _ _).mp hd1).2
      exact this
    · exact ⟨hd1, Or.inr ⟨t, hd2⟩⟩

theorem SchemeText_file : SchemeText "file".data :=
  ⟨⟨'f', "ile".data, rfl, by decide⟩, by decide, by decide⟩

/-- A reference without scheme, resolved against a `file` URL with a plain
path, is a URL that is read back from its string form. -/
theorem resolveReference_Printable (b ref : URL) (hb1 : b.Scheme = "file") (hb2 : b.Opaque = "")
    (hb3 : b.Host = "") (hb4 : b.RawQuery = "") (hb5 : b.Fragment = "")
    (hb6 : PlainText b.Path.data)
    (h1 : ref.Scheme = "") (h2 : ref.Opaque = "") (h3 : ref.RawQuery = "")
    (h4 : ref.Fragment = "") (h5 : HostText ref.Host.data) (h6 : PlainText ref.Path.data) :
    (resolveReference b ref).Printable := by
  unfold resolveReference
  simp only [h1, if_true, ne_eq, not_true_eq_false, false_or, h2, if_false, h3, and_true, h4, hb2,
    and_false, hb3, hb4, hb5, ite_self]
  by_cases hh : ref.Host = ""
  · simp only [hh, not_true_eq_false, if_false]
    refine ⟨?_, ?_, ?_, Or.inr ⟨?_, ?_, ?_⟩⟩
    · simp only [hb1]
      exact SchemeText_file
    · rfl
    · rfl
    · rfl
    · exact HostText_nil
    · exact resolvePath_PathText _ _ hb6 h6
  · simp only [hh, not_false_eq_true, if_true]
    refine ⟨?_, rfl, rfl, Or.inr ⟨rfl, h5, ?_⟩⟩
    · simp only [hb1]
      exact SchemeText_file
    · exact resolvePath_PathText _ _ h6 rfl

theorem stripDriveSlash_no_volume (u : URL) : stripDriveSlash "" u = u := by
  simp [stripDriveSlash]

/-- Without a volume name `ParseSourceURL` is its second half on the value
with slashes normalised. -/
theorem ParseSourceURL_no_volume (lib : Lib) (s : String)
    (hv : lib.VolumeName (lib.ToSlash (if s = "-" then "stdin://" else s)) = "") :
    ParseSourceURL lib s = parseResolved lib "" (lib.ToSlash (if s = "-" then "stdin://" else s)) := by
  unfold ParseSourceURL
  simp only [hv, ne_eq, not_true_eq_false, if_false]

/-- A URL that `absFileURL` returns on a library with the reduced `net/url`
and a working directory that starts with a slash is a `file` URL that is
read back from its string form. -/
theorem absFileURL_Printable (lib : Lib) (hP : lib.Parse = parseURL)
    (hR : lib.ResolveReference = resolveReference)
    (hwd : ∀ wd, lib.Getwd = .ok wd → HasPrefix (lib.ToSlash wd) "/" = true ∧
      PlainText (lib.ToSlash (lib.Clean (lib.ToSlash wd)) ++ "/").data)
    (value : String) (src u : URL) (hsrc : parseURL value = .ok src) (hs : src.Scheme = "")
    (h : absFileURL lib value = .ok u) : u.Printable ∧ u.Scheme = "file" := by
  unfold absFileURL at h
  cases hg : lib.Getwd with
  | error e => simp [hg] at h
  | ok wd =>
    obtain ⟨hw1, hw2⟩ := hwd wd hg
    simp only [hg, hP, hsrc, hR, hw1, Bool.not_true, Bool.false_eq_true, if_false,
      Except.ok.injEq] at h
    subst h
    refine ⟨?_, resolveReference_Scheme _ src hs⟩
    rcases parseURL_shape value src hsrc with ⟨hpr, -⟩ | ⟨-, h2, h3, h4, h5, h6⟩
    · obtain ⟨⟨⟨c, t, e, -⟩, -⟩, -⟩ := hpr
      rw [hs] at e
      cases e
    · exact resolveReference_Printable _ src rfl rfl rfl rfl rfl hw2 hs h2 h3 h4 h5 h6

/-- What the second half of `ParseSourceURL` returns without a volume name:
a URL that is read back from its string form; its scheme is the one the
value starts with, in lower case, or it was resolved against the working
directory and has the scheme `file`. -/
theorem parseResolved_shape (lib : Lib) (hP : lib.Parse = parseURL)
    (hR : lib.ResolveReference = resolveReference)
    (hwd : ∀ wd, lib.Getwd = .ok wd → HasPrefix (lib.ToSlash wd) "/" = true ∧
      PlainText (lib.ToSlash (lib.Clean (lib.ToSlash wd)) ++ "/").data)
    (value : String) (u : URL) (h : parseResolved lib "" value = .ok u) :
    u.Printable ∧
      ((∃ sch rest, value.data = sch ++ ':' :: rest ∧ u.Scheme.data = sch.map Char.toLower) ∨
        u.Scheme = "file") := by
  unfold parseResolved at h
  rw [hP] at h
  cases hsrc : parseURL value with
  | error e => simp [hsrc] at h
  | ok src =>
    simp only [hsrc, stripDriveSlash_no_volume] at h
    by_cases hab : src.IsAbs = true
    · simp only [hab, Bool.not_true, Bool.false_eq_true, if_false, Except.ok.injEq] at h
      subst h
      rcases parseURL_shape value src hsrc with ⟨hpr, hsch⟩ | ⟨h1, -⟩
      · exact ⟨hpr, Or.inl hsch⟩
      · simp [URL.IsAbs, h1] at hab
    · have hab' : src.IsAbs = false := by simpa using hab
      simp only [hab', Bool.not_false, if_true] at h
      have hs : src.Scheme = "" := by simpa [URL.IsAbs] using hab'
      obtain ⟨h1, h2⟩ := absFileURL_Printable lib hP hR hwd value src u hsrc hs h
      exact ⟨h1, Or.inr h2⟩

/-- The string form of a URL of the reduced model with a scheme: plain text
that starts with the scheme and a colon. -/
theorem urlString_data (u : URL) (h : u.Printable) :
    PlainText (urlString u).data ∧ ∃ tail, (urlString u).data = u.Scheme.data ++ ':' :: tail := by
  obtain ⟨hS, hq, hf, hcase⟩ := h
  have hSp : PlainText u.Scheme.data := PlainText_of_scheme _ hS.2.1
  have hs : u.Scheme ≠ "" := by
    obtain ⟨⟨c, t, e, -⟩, -⟩ := hS
    intro h0
    rw [(String.eq_empty_iff_data _).mp h0] at e
    cases e
  by_cases hne : u.Host = "" ∧ u.Path = ""
  · have hO : PlainText u.Opaque.data := by
      rcases hcase with ⟨-, -, hO⟩ | ⟨ho, -, -⟩
      · exact hO.1
      · rw [ho]
        rfl
    rw [urlString_opaquePart u hs hne.1 hne.2]
    exact ⟨(PlainText_append _ _).mpr ⟨hSp, (PlainText_cons _ _).mpr ⟨rfl, hO⟩⟩, _, rfl⟩
  · rcases hcase with ⟨h1, h2, -⟩ | ⟨ho, hA, hP⟩
    · exact absurd ⟨h1, h2⟩ hne
    · rw [urlString_authority u hs ho hne hP.2]
      refine ⟨(PlainText_append _ _).mpr ⟨hSp, (PlainText_cons _ _).mpr ⟨rfl,
        (PlainText_cons _ _).mpr ⟨rfl, (PlainText_cons _ _).mpr ⟨rfl,
          (PlainText_append _ _).mpr ⟨hA.1, hP.1⟩⟩⟩⟩⟩, _, rfl⟩

theorem urlString_ne_dash (u : URL) (h : u.Printable) : urlString u ≠ "-" := by
  obtain ⟨-, tail, e⟩ := urlString_data u h
  obtain ⟨⟨⟨c, t, eS, hc⟩, -⟩, -⟩ := h
  intro h0
  rw [h0, eS] at e
  injection e with e1 e2
  rw [← e1] at hc
  revert hc
  decide

theorem Printable_Scheme_ne (u : URL) (h : u.Printable) : u.Scheme ≠ "" := by
  obtain ⟨⟨⟨c, t, e, -⟩, -⟩, -⟩ := h
  intro h0
  rw [(String.eq_empty_iff_data _).mp h0] at e
  cases e

/-- Plain text holds no backslash, so `ToSlash` on Windows leaves it
alone. -/
theorem toSlashWindows_plain (s : String) (h : PlainText s.data) : toSlashWindows s = s := by
  unfold toSlashWindows
  apply String.ext
  simp only
  rw [PlainText_iff] at h
  conv_rhs => rw [← List.map_id s.data]
  apply List.map_congr_left
  intro c hc
  have hp := h c hc
  by_cases e : c = Char.ofNat 92
  · rw [e] at hp
    exact absurd hp (by decide)
  · simp [e]

/-- A text that starts with a scheme of two characters or more has no drive
letter. -/
theorem volumeNameWindows_scheme (s : String) (a b : Char) (t : List Char)
    (h : s.data = a :: b :: t) (hb : b ≠ ':') : volumeNameWindows s = "" := by
  unfold volumeNameWindows
  rw [h]
  split
  · rename_i d rest heq
    injection heq with h1 h2
    injection h2 with h3 h4
    exact absurd h3 hb
  · rfl

/-- A text without drive letter that starts with a scheme and a colon: the
scheme has two characters or more. -/
theorem scheme_two_chars (s : String) (sch rest : List Char) (hv : volumeNameWindows s = "")
    (h : s.data = sch ++ ':' :: rest) (hS : SchemeText (sch.map Char.toLower)) :
    ∃ a b t, sch.map Char.toLower = a :: b :: t ∧ b ≠ ':' := by
  obtain ⟨⟨c', t', e, hc'⟩, hall, -⟩ := hS
  cases sch with
  | nil => cases e
  | cons c t =>
    simp only [List.map_cons, List.cons.injEq] at e
    obtain ⟨e1, e2⟩ := e
    have hc : c.isAlpha = true := by
      by_contra hn
      have hn' : c.isAlpha = false := by simpa using hn
      rw [(toLower_facts c).2.1 hn'] at e1
      rw [← e1] at hc'
      exact hn hc'
    cases t with
    | nil =>
      exfalso
      unfold volumeNameWindows at hv
      rw [h] at hv
      simp only [List.cons_append, List.nil_append, hc, if_true] at hv
      have := congrArg String.data hv
      simp at this
    | cons b t =>
      refine ⟨c.toLower, b.toLower, t.map Char.toLower, rfl, ?_⟩
      intro hb
      simp only [List.map_cons, List.all_cons, Bool.and_eq_true] at hall
      have := hall.2.1
      rw [hb] at this
      revert this
      decide

theorem posixLib_workdir : ∀ wd, posixLib.Getwd = .ok wd →
    HasPrefix (posixLib.ToSlash wd) "/" = true ∧
      PlainText (posixLib.ToSlash (posixLib.Clean (posixLib.ToSlash wd)) ++ "/").data := by
  intro wd h
  have e : wd = "/work" := by
    have h0 : posixLib.Getwd = .ok "/work" := rfl
    rw [h0] at h
    injection h with h
    exact h.symm
  subst e
  exact ⟨by decide, by unfold PlainText; decide⟩

theorem windowsLib_workdir : ∀ wd, windowsLib.Getwd = .ok wd →
    HasPrefix (windowsLib.ToSlash wd) "/" = true ∧
      PlainText (windowsLib.ToSlash (windowsLib.Clean (windowsLib.ToSlash wd)) ++ "/").data := by
  intro wd h
  cases h

/-- Claim C19, amended to what the code does: `ParseSourceURL` is idempotent
on its own output for every string without a volume name, resolved against a
working directory that starts with a slash. The platform is POSIX (`ToSlash`
changes nothing, no string has a volume name) or Windows (drive-letter volume
names), `net/url` is the reduced model on plain text, and the working
directory and `filepath.Clean` are any that give a base path of plain text.
When `ParseSourceURL(s)` succeeds with the URL `u`, `ParseSourceURL(u.String())`
succeeds with the same `u`; and an absolute URI without volume name is
returned as `url.Parse` reads it. -/
theorem ParseSourceURL_idempotent (lib : Lib) (s : String) (u : URL)
    (hP : lib.Parse = parseURL) (hR : lib.ResolveReference = resolveReference)
    (hU : lib.URLString = urlString)
    (hplat : (lib.ToSlash = (fun p => p) ∧ lib.VolumeName = (fun _ => "")) ∨
      (lib.ToSlash = toSlashWindows ∧ lib.VolumeName = volumeNameWindows))
    (hwd : ∀ wd, lib.Getwd = .ok wd → HasPrefix (lib.ToSlash wd) "/" = true ∧
      PlainText (lib.ToSlash (lib.Clean (lib.ToSlash wd)) ++ "/").data)
    (hvol : lib.VolumeName (lib.ToSlash s) = "")
    (h : ParseSourceURL lib s = .ok u) :
    ParseSourceURL lib (lib.URLString u) = .ok u ∧
    (∀ t v, t ≠ "-" → lib.ToSlash t = t → lib.VolumeName t = "" → lib.Parse t = .ok v →
      v.Scheme ≠ "" → ParseSourceURL lib t = .ok v) := by
  refine ⟨?_, fun t v h1 h2 h3 h4 h5 => ParseSourceURL_absolute lib t v h1 h2 h3 h4 h5⟩
  have hv : lib.VolumeName (lib.ToSlash (if s = "-" then "stdin://" else s)) = "" := by
    by_cases hs : s = "-"
    · rw [if_pos hs]
      rcases hplat with ⟨e1, e2⟩ | ⟨e1, e2⟩
      · rw [e2]
      · rw [e1, e2]
        decide
    · rw [if_neg hs]
      exact hvol
  rw [ParseSourceURL_no_volume lib s hv] at h
  obtain ⟨hpr, hsch⟩ := parseResolved_shape lib hP hR hwd _ u h
  obtain ⟨hplain, tail, e4⟩ := urlString_data u hpr
  have hp : lib.Parse (urlString u) = .ok u := by
    rw [hP]
    exact parseURL_urlString u hpr
  rw [hU]
  rcases hplat with ⟨e1, e2⟩ | ⟨e1, e2⟩
  · exact ParseSourceURL_absolute lib (urlString u) u (urlString_ne_dash u hpr) (by rw [e1])
      (by rw [e2]) hp (Printable_Scheme_ne u hpr)
  · have htwo : ∃ a b t, u.Scheme.data = a :: b :: t ∧ b ≠ ':' := by
      rcases hsch with ⟨sch, rest, e5, e6⟩ | e5
      · have hS : SchemeText (sch.map Char.toLower) := by
          rw [← e6]
          exact hpr.1
        rw [e6]
        rw [e2] at hv
        exact scheme_two_chars _ sch rest hv e5 hS
      · rw [e5]
        exact ⟨'f', 'i', ['l', 'e'], rfl, by decide⟩
    obtain ⟨a, b, t, e3, hb⟩ := htwo
    rw [e3] at e4
    exact ParseSourceURL_absolute lib (urlString u) u (urlString_ne_dash u hpr)
      (by rw [e1]; exact toSlashWindows_plain _ hplain)
      (by rw [e2]; exact volumeNameWindows_scheme (urlString u) a b (t ++ ':' :: tail) e4 hb)
      hp (Printable_Scheme_ne u hpr)

/-- Witness of the amended claim C19: a relative path and an absolute URI on
the POSIX sample library, and an absolute URI on the Windows one. -/
theorem ParseSourceURL_idempotent_witness :
    (ParseSourceURL posixLib "./rel/path" = .ok { Scheme := "file", Path := "/work/rel/path" } ∧
      posixLib.URLString { Scheme := "file", Path := "/work/rel/path" }
        = "file:///work/rel/path" ∧
      ParseSourceURL posixLib
          (posixLib.URLString { Scheme := "file", Path := "/work/rel/path" })
        = .ok { Scheme := "file", Path := "/work/rel/path" }) ∧
    (ParseSourceURL posixLib "s3://bucket/key"
        = .ok { Scheme := "s3", Host := "bucket", Path := "/key" } ∧
      ParseSourceURL posixLib
          (posixLib.URLString { Scheme := "s3", Host := "bucket", Path := "/key" })
        = .ok { Scheme := "s3", Host := "bucket", Path := "/key" }) ∧
    (ParseSourceURL windowsLib "https://example.com/a"
        = .ok { Scheme := "https", Host := "example.com", Path := "/a" } ∧
      ParseSourceURL windowsLib
          (windowsLib.URLString { Scheme := "https", Host := "example.com", Path := "/a" })
        = .ok { Scheme := "https", Host := "example.com", Path := "/a" }) :=
  ⟨⟨rfl, by decide, (ParseSourceURL_idempotent posixLib "./rel/path"
      { Scheme := "file", Path := "/work/rel/path" } rfl rfl rfl (Or.inl ⟨rfl, rfl⟩)
      posixLib_workdir rfl rfl).1⟩,
    ⟨rfl, (ParseSourceURL_idempotent posixLib "s3://bucket/key"
      { Scheme := "s3", Host := "bucket", Path := "/key" } rfl rfl rfl (Or.inl ⟨rfl, rfl⟩)
      posixLib_workdir rfl rfl).1⟩,
    ⟨rfl, (ParseSourceURL_idempotent windowsLib "https://example.com/a"
      { Scheme := "https", Host := "example.com", Path := "/a" } rfl rfl rfl (Or.inr ⟨rfl, rfl⟩)
      windowsLib_workdir (by decide) rfl).1⟩⟩

/-- Counterexample to claim C19 as stated: on Windows the drive-letter path
`C:\foo\bar.txt` resolves to the `file` URL with an empty host and the
path `C:/foo/bar.txt`, whose string form `file://C:/foo/bar.txt` resolves to
another URL, with host `C:` and path `/foo/bar.txt`. -/
theorem ParseSourceURL_drive_counterexample :
    (ParseSourceURL windowsLib "C:\\foo\\bar.txt" = .ok sampleDriveURL ∧
      windowsLib.URLString sampleDriveURL = "file://C:/foo/bar.txt" ∧
      ParseSourceURL windowsLib (windowsLib.URLString sampleDriveURL)
        = .ok { Scheme := "file", Host := "C:", Path := "/foo/bar.txt" }) ∧
    ¬ (∀ (lib : Lib) (s : String) (u : URL), s ≠ "" → s ≠ "-" →
      ParseSourceURL lib s = .ok u → ParseSourceURL lib (lib.URLString u) = .ok u) := by
  have h1 : ParseSourceURL windowsLib "C:\\foo\\bar.txt" = .ok sampleDriveURL := rfl
  have h2 : ParseSourceURL windowsLib (windowsLib.URLString sampleDriveURL)
      = .ok { Scheme := "file", Host := "C:", Path := "/foo/bar.txt" } := rfl
  refine ⟨⟨h1, by decide, h2⟩, fun hall => ?_⟩
  have h3 := hall windowsLib "C:\\foo\\bar.txt" sampleDriveURL (by decide) (by decide) h1
  rw [h2] at h3
  injection h3 with h3
  revert h3
  decide

end Gomplate
